import Mathlib

/-!
# Subway route planner

A shallow embedding of `Subway.cpp` and the properties of its route search.

Conventions of the embedding.

* `std::vector<T>` is `List T`; `push_back` appends at the end.
* `std::map<string, V>` is the list of its entries in iteration order
  (`Dict V`).  `map::at` on an absent key throws `std::out_of_range`; this is
  the fault `Fault.outOfRange`.
* Functions that can throw return `Except Fault _`.  The three recursive
  strategies carry a recursion budget; running out of it is the fault
  `Fault.outOfFuel`, so "the call returns" is "some budget gives `.ok _`".
* `int` results of `SubwayPath` are integers wrapped to 32 bits (`wrapInt32`).
  Vector sizes and indices are natural numbers: they are assumed to fit `int`.
-/

namespace Subway

/-! ## Helper types and functions -/

abbrev StringArray := List String

/-- What can interrupt a call. -/
inductive Fault where
  /-- The exception `std::out_of_range`, thrown by `map::at`. -/
  | outOfRange
  /-- A vector subscript outside the vector. -/
  | badIndex
  /-- The recursion budget of the embedding is used up. -/
  | outOfFuel
deriving DecidableEq, Repr

deriving instance DecidableEq for Except

/-- The function `contain(const vector<T>&, const T&)`. -/
def contain (values : StringArray) (value : String) : Bool :=
  decide (value ∈ values)

/-- The function `indexOf`: position of the first occurrence, `values.size()` when absent. -/
def indexOf (values : StringArray) (value : String) : Nat :=
  values.indexOf value

/-- The subscript `values[i]` of a vector. -/
def vecGet (values : StringArray) (i : Nat) : Except Fault String :=
  match values[i]? with
  | some v => .ok v
  | none => .error .badIndex

/-- Pieces read by repeated `getline(ss, item, delim)`; `cur` is the piece being read. -/
def splitChars (delim : Char) : List Char → List Char → List (List Char)
  | [], cur => if cur.isEmpty then [] else [cur]
  | c :: cs, cur =>
    if c = delim then cur :: splitChars delim cs []
    else splitChars delim cs (cur ++ [c])

/-- The function `splitString`. -/
def splitString (s : String) (delim : Char) : StringArray :=
  (splitChars delim s.data []).map String.mk

/-! ## Maps -/

/-- A `std::map<string, V>`, as the list of its entries in iteration order. -/
abbrev Dict (V : Type) := List (String × V)

/-- Order of `std::string`: lexicographic on the characters. -/
def charsLt : List Char → List Char → Bool
  | [], [] => false
  | [], _ :: _ => true
  | _ :: _, [] => false
  | a :: as, b :: bs =>
    if a.toNat < b.toNat then true
    else if b.toNat < a.toNat then false
    else charsLt as bs

/-- The comparison `a < b` of two `std::string`. -/
def strLt (a b : String) : Bool := charsLt a.data b.data

/-- The lookup `map::find`, `none` standing for `end()`. -/
def mapFind {V : Type} : Dict V → String → Option V
  | [], _ => none
  | (k, v) :: rest, key => if key = k then some v else mapFind rest key

/-- The function `contain(const map<K, V>&, const K&)`. -/
def mapContain {V : Type} (dict : Dict V) (key : String) : Bool :=
  (mapFind dict key).isSome

/-- The lookup `map::at`. -/
def mapAt {V : Type} (dict : Dict V) (key : String) : Except Fault V :=
  match mapFind dict key with
  | some v => .ok v
  | none => .error .outOfRange

/-- The assignment `dict[key] = value`. -/
def mapSet {V : Type} : Dict V → String → V → Dict V
  | [], key, value => [(key, value)]
  | (k, v) :: rest, key, value =>
    if key = k then (key, value) :: rest
    else if strLt key k then (key, value) :: (k, v) :: rest
    else (k, v) :: mapSet rest key value

/-! ## Station nodes -/

structure SubwayNode where
  name_ : String
  lines_ : StringArray
deriving DecidableEq, Repr

namespace SubwayNode

/-- The constructor `SubwayNode(name)`. -/
def new (name : String) : SubwayNode := ⟨name, []⟩

def name (self : SubwayNode) : String := self.name_

def lines (self : SubwayNode) : StringArray := self.lines_

def setOnLine (self : SubwayNode) (line : String) : SubwayNode :=
  if !contain self.lines_ line then ⟨self.name_, self.lines_ ++ [line]⟩ else self

def isOnLine (self : SubwayNode) (line : String) : Bool :=
  contain self.lines_ line

def isTransStation (self : SubwayNode) : Bool :=
  decide (self.lines_.length > 1)

end SubwayNode

/-! ## Routes -/

def INT32_MAX : Int := 2147483647

/-- Conversion of an integer to `int` (two's complement, 32 bits). -/
def wrapInt32 (x : Int) : Int := (x + 2147483648) % 4294967296 - 2147483648

structure SubwayPath where
  lines_ : StringArray
  stations_ : List StringArray
deriving DecidableEq, Repr

namespace SubwayPath

/-- The default constructor: the invalid route. -/
def invalid : SubwayPath := ⟨[], []⟩

/-- The constructor `SubwayPath(line, stations)`. -/
def single (line : String) (stations : StringArray) : SubwayPath :=
  if !stations.isEmpty then ⟨[line], [stations]⟩ else ⟨[], []⟩

def isInvalid (self : SubwayPath) : Bool := self.lines_.isEmpty

def merge (self path : SubwayPath) : SubwayPath :=
  if self.isInvalid || path.isInvalid then ⟨[], []⟩
  else ⟨self.lines_ ++ path.lines_, self.stations_ ++ path.stations_⟩

def transTimes (self : SubwayPath) : Int :=
  if self.lines_.isEmpty then 0 else wrapInt32 ((self.lines_.length : Int) - 1)

/-- The method `length`. The subscript `stations_[l]` is in range because the
two vectors always have the same size; outside that the embedding reads an
empty segment. -/
def length (self : SubwayPath) : Int :=
  if self.lines_.isEmpty then INT32_MAX
  else (List.range self.lines_.length).foldl
    (fun length l => wrapInt32 (length + (((self.stations_.getD l []).length : Int) - 1))) 1

/-- The items written after the line name of segment `l`: its stations but the first. -/
def outputTail (sep : String) (stations : StringArray) : List String :=
  (stations.drop 1).foldl (fun out s => out ++ [sep, s]) []

/-- The method `output`, as the list of items written to the stream with `<<`. -/
def output (self : SubwayPath) (sep : String) : List String :=
  if self.isInvalid then ["ERROR"]
  else
    let out := [toString self.length]
    let out := (self.stations_.getD 0 []).foldl (fun out s => out ++ [sep, s]) out
    if self.stations_.length > 1 then
      (List.range' 1 (self.lines_.length - 1)).foldl
        (fun out l => out ++ [sep, self.lines_.getD l ""]
          ++ outputTail sep (self.stations_.getD l [])) out
    else out

end SubwayPath

/-! ## The network -/

abbrev DictNodes := Dict SubwayNode
abbrev DictLines := Dict StringArray

structure SubwayNetwork where
  dictNodes_ : DictNodes
  dictLines_ : DictLines
deriving DecidableEq, Repr

/-- The subscript `dictNodes_[key]` read as a value: the node stored under
`key`, a default-constructed node when the key is absent. -/
def mapIndex (dictNodes : DictNodes) (key : String) : SubwayNode :=
  match mapFind dictNodes key with
  | some node => node
  | none => SubwayNode.new ""

/-- First loop of the constructor, for the stations of one line. -/
def createNodes (dictNodes : DictNodes) (stations : StringArray) : DictNodes :=
  stations.foldl
    (fun nodes s => if !mapContain nodes s then mapSet nodes s (SubwayNode.new s) else nodes)
    dictNodes

/-- Second loop of the constructor, for the stations of one line. -/
def connectNodes (dictNodes : DictNodes) (line : String) (stations : StringArray) : DictNodes :=
  stations.foldl
    (fun nodes s => mapSet nodes s ((mapIndex nodes s).setOnLine line))
    dictNodes

namespace SubwayNetwork

/-- The constructor `SubwayNetwork(dictLines)`. -/
def new (dictLines : DictLines) : SubwayNetwork :=
  let nodes := dictLines.foldl (fun nodes it => createNodes nodes it.2) []
  let nodes := dictLines.foldl (fun nodes it => connectNodes nodes it.1 it.2) nodes
  ⟨nodes, dictLines⟩

def hasStation (self : SubwayNetwork) (station : String) : Bool :=
  mapContain self.dictNodes_ station

def hasLine (self : SubwayNetwork) (line : String) : Bool :=
  mapContain self.dictLines_ line

def getSameLines (self : SubwayNetwork) (stationA stationB : String) :
    Except Fault StringArray := do
  let linesOfA := (← mapAt self.dictNodes_ stationA).lines
  linesOfA.foldlM
    (fun sameLines line => do
      let nodeB ← mapAt self.dictNodes_ stationB
      pure (if nodeB.isOnLine line then sameLines ++ [line] else sameLines))
    []

def getBetweenStations (self : SubwayNetwork) (stationA stationB line : String) :
    Except Fault StringArray := do
  let stations ← mapAt self.dictLines_ line
  let iA := indexOf stations stationA
  let iB := indexOf stations stationB
  if iA < iB then
    (List.range' iA (iB + 1 - iA)).foldlM
      (fun path i => do pure (path ++ [← vecGet stations i])) []
  else
    (List.range' iB (iA + 1 - iB)).reverse.foldlM
      (fun path i => do pure (path ++ [← vecGet stations i])) []

def getBestOneLinePath (self : SubwayNetwork) (stationA stationB : String) :
    Except Fault SubwayPath := do
  let sameLines ← self.getSameLines stationA stationB
  if sameLines.isEmpty then
    pure SubwayPath.invalid
  else
    sameLines.foldlM
      (fun bestPath line => do
        let path := SubwayPath.single line (← self.getBetweenStations stationA stationB line)
        pure (if path.length < bestPath.length then path else bestPath))
      SubwayPath.invalid

def getTransStations (self : SubwayNetwork) (lineA lineB : String) :
    Except Fault StringArray := do
  let stationsLineA ← mapAt self.dictLines_ lineA
  stationsLineA.foldlM
    (fun transStations s => do
      let node ← mapAt self.dictNodes_ s
      pure (if node.isOnLine lineB then transStations ++ [s] else transStations))
    []

structure TransPlan where
  lineA : String
  stationT : String
  lineB : String
deriving DecidableEq, Repr

def getTransPlans (self : SubwayNetwork) (stationA stationB : String) :
    Except Fault (List TransPlan) := do
  let lineAs := (← mapAt self.dictNodes_ stationA).lines
  let lineBs := (← mapAt self.dictNodes_ stationB).lines
  lineAs.foldlM
    (fun transPlans lineA =>
      lineBs.foldlM
        (fun transPlans lineB =>
          if lineA = lineB then pure transPlans
          else do
            let stationTs ← self.getTransStations lineA lineB
            pure (if !stationTs.isEmpty then
                stationTs.foldl (fun plans t => plans ++ [⟨lineA, t, lineB⟩]) transPlans
              else transPlans))
        transPlans)
    []

def getBestTwoLinesPath (self : SubwayNetwork) (stationA stationB : String) :
    Except Fault SubwayPath := do
  let transPlans ← self.getTransPlans stationA stationB
  if transPlans.isEmpty then
    pure SubwayPath.invalid
  else
    transPlans.foldlM
      (fun bestPath plan => do
        let path ← self.getBestOneLinePath stationA plan.stationT
        let path := path.merge (← self.getBestOneLinePath plan.stationT stationB)
        pure (if path.length < bestPath.length then path else bestPath))
      SubwayPath.invalid

def getBestSimplePath (self : SubwayNetwork) (stationA stationB : String) :
    Except Fault SubwayPath := do
  let bestPath := SubwayPath.invalid
  let pathOneLine ← self.getBestOneLinePath stationA stationB
  let bestPath := if pathOneLine.length < bestPath.length then pathOneLine else bestPath
  let pathTwoLines ← self.getBestTwoLinesPath stationA stationB
  pure (if pathTwoLines.length < bestPath.length then pathTwoLines else bestPath)

/-- One scan of `getNearbyTransStations`: the first transfer station among
`stations`, the scan stopping there (`break`). -/
def firstTransStation (self : SubwayNetwork) : StringArray → Except Fault (Option String)
  | [] => pure none
  | s :: rest => do
    let node ← mapAt self.dictNodes_ s
    if node.isTransStation then pure (some s) else firstTransStation self rest

/-- The effect of a scan on the collected stations. -/
def pushFound (transStations : StringArray) : Option String → StringArray
  | some s => transStations ++ [s]
  | none => transStations

def getNearbyTransStations (self : SubwayNetwork) (station : String) :
    Except Fault StringArray := do
  let lines := (← mapAt self.dictNodes_ station).lines
  lines.foldlM
    (fun transStations line => do
      let stations ← mapAt self.dictLines_ line
      let ipos := indexOf stations station
      let transStations :=
        pushFound transStations (← self.firstTransStation (stations.drop (ipos + 1)))
      let transStations :=
        pushFound transStations (← self.firstTransStation (stations.take ipos).reverse)
      pure transStations)
    []

/-- The method `getRecursivePath1`, with a budget on the depth of the recursion. -/
def getRecursivePath1 (self : SubwayNetwork) :
    Nat → String → String → Except Fault SubwayPath
  | 0, _, _ => .error .outOfFuel
  | fuel + 1, stationA, stationB => do
    let bestPath ← self.getBestSimplePath stationA stationB
    if !bestPath.isInvalid then
      pure bestPath
    else
      let stationATs ← self.getNearbyTransStations stationA
      stationATs.foldlM
        (fun bestPath stationAT => do
          let path ← self.getBestOneLinePath stationA stationAT
          let path := path.merge (← getRecursivePath1 self fuel stationAT stationB)
          pure (if path.length < bestPath.length then path else bestPath))
        bestPath

/-- The method `getRecursivePath2`, with a budget on the depth of the recursion. -/
def getRecursivePath2 (self : SubwayNetwork) :
    Nat → String → String → Except Fault SubwayPath
  | 0, _, _ => .error .outOfFuel
  | fuel + 1, stationA, stationB => do
    let bestPath ← self.getBestSimplePath stationA stationB
    if !bestPath.isInvalid then
      pure bestPath
    else
      let stationBTs ← self.getNearbyTransStations stationB
      stationBTs.foldlM
        (fun bestPath stationBT => do
          let path ← getRecursivePath2 self fuel stationA stationBT
          let path := path.merge (← self.getBestOneLinePath stationBT stationB)
          pure (if path.length < bestPath.length then path else bestPath))
        bestPath

/-- The method `getRecursivePath3`, with a budget on the depth of the recursion. -/
def getRecursivePath3 (self : SubwayNetwork) :
    Nat → String → String → Except Fault SubwayPath
  | 0, _, _ => .error .outOfFuel
  | fuel + 1, stationA, stationB => do
    let bestPath ← self.getBestSimplePath stationA stationB
    if !bestPath.isInvalid then
      pure bestPath
    else
      let stationATs ← self.getNearbyTransStations stationA
      let stationBTs ← self.getNearbyTransStations stationB
      stationATs.foldlM
        (fun bestPath stationAT =>
          stationBTs.foldlM
            (fun bestPath stationBT => do
              let path ← self.getBestOneLinePath stationA stationAT
              let path := path.merge (← getRecursivePath3 self fuel stationAT stationBT)
              let path := path.merge (← self.getBestOneLinePath stationBT stationB)
              pure (if path.length < bestPath.length then path else bestPath))
            bestPath)
        bestPath

/-- The method `getBestPath`; `fuel` bounds the depth of each recursive strategy. -/
def getBestPath (self : SubwayNetwork) (fuel : Nat) (stationA stationB : String) :
    Except Fault SubwayPath := do
  let bestPath := SubwayPath.invalid
  let path1 ← self.getRecursivePath1 fuel stationA stationB
  let bestPath := if path1.length < bestPath.length then path1 else bestPath
  let path2 ← self.getRecursivePath2 fuel stationA stationB
  let bestPath := if path2.length < bestPath.length then path2 else bestPath
  let path3 ← self.getRecursivePath3 fuel stationA stationB
  pure (if path3.length < bestPath.length then path3 else bestPath)

end SubwayNetwork

/-! ## Command line operations -/

def EXIT_SUCCESS : Int := 0
def EXIT_FAILURE : Int := 1

def HELP_DOC : String :=
  "\nlist stations of LINE:\n\n" ++
  "  > subway.exe -a LINE -map INPUT.txt -o OUTPUT.txt\n\n" ++
  "best path from STATION_A to STATION_B:\n\n" ++
  "  > subway.exe -b STATION_A STATION_B -map INPUT.txt -o OUTPUT.txt\n\n"

structure Arguments where
  process : String
  inputPath : String
  outputPath : String
  parameters : String × String
deriving DecidableEq, Repr

/-- The second half of `ProcessParseInputFile`: `lines` holds the strings read
from the input file with `fin >> buf`. -/
def ProcessParseInputFile (lines : StringArray) : DictLines :=
  lines.foldl
    (fun dictLines line =>
      let words := splitString line ','
      if words.length > 1 then mapSet dictLines (words.headD "") (words.drop 1)
      else dictLines)
    []

/-- What an operation leaves behind: its exit status, the output file (`none`
when there is no such file, otherwise its text) and the text sent to `cerr`. -/
structure Outcome where
  status : Int
  outputFile : Option String
  cerr : String
deriving DecidableEq, Repr

/-- The function `ProcessOutputLineStations`.  `lines` holds the strings read
from the input file and `outputFile` is the output file before the call;
`fout.open` is taken to succeed, which leaves the file empty. -/
def ProcessOutputLineStations (args : Arguments) (lines : StringArray)
    (outputFile : Option String) : Outcome :=
  if args.inputPath = "" then
    ⟨EXIT_FAILURE, outputFile,
      "ERROR: the path of input data file is unknown !" ++ "\n" ++ HELP_DOC⟩
  else if args.outputPath = "" then
    ⟨EXIT_FAILURE, outputFile,
      "ERROR: the path of output result file is unknown !" ++ "\n" ++ HELP_DOC⟩
  else
    let dictLines := ProcessParseInputFile lines
    let line := args.parameters.1
    if mapContain dictLines line then
      ⟨EXIT_FAILURE, outputFile, "ERROR: No line with name \"" ++ line ++ "\" !\n" ++ "\n"⟩
    else
      match mapAt dictLines line with
      | .ok stations =>
        ⟨EXIT_SUCCESS, some (stations.foldl (fun text s => text ++ s ++ "\n") ""), ""⟩
      | .error _ =>
        ⟨EXIT_FAILURE, some "",
          "ERROR: write output file \"" ++ args.outputPath ++ "\"failed !" ++ "\n"⟩

/-! ## Scenarios -/

/-- The line map `{L1: [A,B,C], L2: [C,D,E]}`. -/
def crossingLines : DictLines :=
  [("L1", ["A", "B", "C"]), ("L2", ["C", "D", "E"])]

/-- The line map `{L1: [A,B], L2: [C,D]}`, two lines without a common station. -/
def disjointLines : DictLines :=
  [("L1", ["A", "B"]), ("L2", ["C", "D"])]

/-- A long line from `A` to `B` and a short way round over three other lines. -/
def detourLines : DictLines :=
  [("L1", ["A", "X1", "X2", "X3", "X4", "B"]), ("L2", ["A", "P"]),
   ("L3", ["P", "Q"]), ("L4", ["Q", "B"])]

/-! ## Notions used in the statements -/

/-- Number of stations visited along a list of segments: one plus, for each
segment, its station count less one. -/
def stationCount (stations : List StringArray) : Nat :=
  1 + (stations.map (fun s => s.length - 1)).sum

/-- A route whose two vectors have the same size and whose segments are not empty. -/
def SubwayPath.WellFormed (p : SubwayPath) : Prop :=
  p.lines_.length = p.stations_.length ∧ ∀ s ∈ p.stations_, s ≠ []

/-- The stations of `stations` from position `iA` to position `iB`, in the
direction of travel. -/
def segmentOf (stations : StringArray) (iA iB : Nat) : StringArray :=
  if iA < iB then (List.range' iA (iB + 1 - iA)).map (fun i => stations.getD i "")
  else (List.range' iB (iA + 1 - iB)).reverse.map (fun i => stations.getD i "")

/-- The stations that occur in some line of the map. -/
def isStationOf (dictLines : DictLines) (s : String) : Prop :=
  ∃ it ∈ dictLines, s ∈ it.2

instance (dictLines : DictLines) (s : String) : Decidable (isStationOf dictLines s) :=
  inferInstanceAs (Decidable (∃ it ∈ dictLines, s ∈ it.2))

/-- What the second loop of the constructor does to the entry of station `s`
when it handles the line `it`. -/
def connectStep (s : String) (entry : Option SubwayNode) (it : String × StringArray) :
    Option SubwayNode :=
  if s ∈ it.2 then
    some ((match entry with
      | some node => node
      | none => SubwayNode.new "").setOnLine it.1)
  else entry

/-- The lines whose station sequence holds `s`, in the order of the map. -/
def linesOf (dictLines : DictLines) (s : String) : StringArray :=
  (dictLines.filter (fun it => decide (s ∈ it.2))).map Prod.fst

/-- The update `if (path.length() < bestPath.length()) bestPath = path`. -/
def keepShorter (bestPath path : SubwayPath) : SubwayPath :=
  if path.length < bestPath.length then path else bestPath

/-- The station sequence stored for `line`, empty when there is no such line. -/
def stationsOn (dictLines : DictLines) (line : String) : StringArray :=
  match mapFind dictLines line with
  | some stations => stations
  | none => []

/-- The route along `line` from `A` to `B`, both on the line. -/
def rideOn (dictLines : DictLines) (A B line : String) : SubwayPath :=
  SubwayPath.single line
    (segmentOf (stationsOn dictLines line) (indexOf (stationsOn dictLines line) A)
      (indexOf (stationsOn dictLines line) B))

/-- Stations `s` and `t` are next to each other, in either order, in `stations`. -/
def nextOn (stations : StringArray) (s t : String) : Prop :=
  (s, t) ∈ stations.zip stations.tail ∨ (t, s) ∈ stations.zip stations.tail

instance (stations : StringArray) (s t : String) : Decidable (nextOn stations s t) :=
  inferInstanceAs (Decidable (_ ∨ _))

/-- Stations `s` and `t` are adjacent stations of some line of the map. -/
def adjacent (dictLines : DictLines) (s t : String) : Prop :=
  ∃ it ∈ dictLines, nextOn it.2 s t

instance (dictLines : DictLines) (s t : String) : Decidable (adjacent dictLines s t) :=
  inferInstanceAs (Decidable (∃ it ∈ dictLines, nextOn it.2 s t))

/-- A route from `A` to `B`: a sequence of stations that starts at `A`, ends at
`B` and moves each time to an adjacent station of some line.  The line may
change at any station, which is then on both lines. -/
def IsRoute (dictLines : DictLines) (A B : String) (w : StringArray) : Prop :=
  w.head? = some A ∧ w.getLast? = some B ∧ w.Chain' (adjacent dictLines)

/-- The stations of the segments after the first, each without its first station. -/
def visitedAfter : List StringArray → StringArray
  | [] => []
  | segment :: rest => segment.tail ++ visitedAfter rest

/-- The stations a route visits, in order: a transfer station is listed once. -/
def SubwayPath.visited (p : SubwayPath) : StringArray :=
  match p.stations_ with
  | [] => []
  | first :: rest => first ++ visitedAfter rest

/-- If valid, the route is well formed and visits a route from `A` to `B`. -/
def Leads (dictLines : DictLines) (A B : String) (p : SubwayPath) : Prop :=
  p.isInvalid = false → p.WellFormed ∧ IsRoute dictLines A B p.visited

/-- The tokens of the segments after the first: for each, its line name and
then its stations without the first one. -/
def laterTokens (lines : StringArray) (stations : List StringArray) : List String :=
  (lines.zip stations).flatMap (fun it => it.1 :: it.2.drop 1)

/-- The tokens of a valid route: its length, the stations of the first segment,
then the tokens of the later segments. -/
def SubwayPath.tokens (p : SubwayPath) : List String :=
  toString p.length ::
    (p.stations_.headD [] ++ laterTokens (p.lines_.drop 1) (p.stations_.drop 1))

/-- The stations of `lineA` that are also on `lineB`, in the order of `lineA`. -/
def transOf (dictLines : DictLines) (lineA lineB : String) : StringArray :=
  (stationsOn dictLines lineA).filter (fun s => decide (lineB ∈ linesOf dictLines s))

/-- The transfer plans from a line of `A` to another line of `B`, in the order
in which the loops of `getTransPlans` find them. -/
def plansOf (dictLines : DictLines) (A B : String) : List SubwayNetwork.TransPlan :=
  (linesOf dictLines A).flatMap (fun lineA =>
    (linesOf dictLines B).flatMap (fun lineB =>
      if lineA = lineB then []
      else (transOf dictLines lineA lineB).map (fun t => ⟨lineA, t, lineB⟩)))

/-- The shortest ride from `A` to `B` along one line, the first line found
winning a tie; the invalid route when no line holds both. -/
def bestRide (dictLines : DictLines) (A B : String) : SubwayPath :=
  ((linesOf dictLines A).filter (fun line => decide (line ∈ linesOf dictLines B))).foldl
    (fun best line => keepShorter best (rideOn dictLines A B line)) SubwayPath.invalid

/-- The route of a transfer plan: the best ride to the transfer station merged
with the best ride from it. -/
def planRoute (dictLines : DictLines) (A B : String) (plan : SubwayNetwork.TransPlan) :
    SubwayPath :=
  (bestRide dictLines A plan.stationT).merge (bestRide dictLines plan.stationT B)

/-- The shortest route over the transfer plans, the first plan found winning a tie. -/
def bestChange (dictLines : DictLines) (A B : String) : SubwayPath :=
  (plansOf dictLines A B).foldl
    (fun best plan => keepShorter best (planRoute dictLines A B plan)) SubwayPath.invalid

/-- The shorter of the best ride and the best route with one transfer, the ride
winning a tie. -/
def bestSimple (dictLines : DictLines) (A B : String) : SubwayPath :=
  keepShorter (keepShorter SubwayPath.invalid (bestRide dictLines A B))
    (bestChange dictLines A B)

/-- A transfer plan from `A` to `B`: two different lines, the first through `A`,
the second through `B`, and a station `T` on both. -/
def IsPlan (dictLines : DictLines) (A B lineA T lineB : String) : Prop :=
  lineA ≠ lineB ∧ ∃ stA stB, mapFind dictLines lineA = some stA ∧
    mapFind dictLines lineB = some stB ∧ A ∈ stA ∧ T ∈ stA ∧ T ∈ stB ∧ B ∈ stB

/-- The segment is a non-empty contiguous run of the stations of `line`, in the
order of the line or reversed. -/
def isRunOf (dictLines : DictLines) (line : String) (segment : StringArray) : Prop :=
  segment ≠ [] ∧ ∃ stations, mapFind dictLines line = some stations ∧
    (segment <:+: stations ∨ segment.reverse <:+: stations)

/-- A valid route that proceeds from `A` to `B`: each segment is a run of the
line it is labelled with, each segment ends where the next one starts, the first
segment starts at `A` and the last one ends at `B`. -/
def Proceeds (dictLines : DictLines) (A B : String) (p : SubwayPath) : Prop :=
  List.Forall₂ (isRunOf dictLines) p.lines_ p.stations_ ∧
  p.stations_.Chain' (fun s t => s.getLast? = t.head?) ∧
  p.stations_.head?.bind List.head? = some A ∧
  p.stations_.getLast?.bind List.getLast? = some B

/-- A property of the routes from `A` to `B` that the invalid route has, that
every ride along a line between two of its stations has, and that merging keeps. -/
structure RouteInvariant (dictLines : DictLines)
    (Q : String → String → SubwayPath → Prop) : Prop where
  invalid : ∀ A B, Q A B SubwayPath.invalid
  ride : ∀ A B line stations, mapFind dictLines line = some stations → A ∈ stations →
    B ∈ stations → Q A B ⟨[line], [segmentOf stations (indexOf stations A) (indexOf stations B)]⟩
  merge : ∀ A T B p q, Q A T p → Q T B q → Q A B (p.merge q)

/-- The station `s` is on more than one line of the map. -/
def isTransfer (dictLines : DictLines) (s : String) : Bool :=
  decide ((linesOf dictLines s).length > 1)

/-- The nearby transfer stations of `S` found on `line`: the first transfer
station after `S`, then the last one before `S`. -/
def nearbyOn (dictLines : DictLines) (S line : String) : StringArray :=
  (((stationsOn dictLines line).drop
      (indexOf (stationsOn dictLines line) S + 1)).find? (isTransfer dictLines)).toList ++
  (((stationsOn dictLines line).take
      (indexOf (stationsOn dictLines line) S)).reverse.find? (isTransfer dictLines)).toList

/-- The station `T` of `stations` is a transfer station other than `S`, and no
transfer station stands strictly between `S` and `T` in `stations`. -/
def IsNearest (net : SubwayNetwork) (stations : StringArray) (S T : String) : Prop :=
  T ≠ S ∧ (∃ node, mapFind net.dictNodes_ T = some node ∧ node.isTransStation = true) ∧
  ∃ i, stations[i]? = some T ∧
    ((indexOf stations S < i ∧ ∀ j X, indexOf stations S < j → j < i →
        stations[j]? = some X →
        ∀ node, mapFind net.dictNodes_ X = some node → node.isTransStation = false) ∨
     (i < indexOf stations S ∧ ∀ j X, i < j → j < indexOf stations S →
        stations[j]? = some X →
        ∀ node, mapFind net.dictNodes_ X = some node → node.isTransStation = false))

/-- Five lines in a row from `T1` to `B`; `T1` and `T2` are transfer stations
next to each other on `L1`. -/
def loopLines : DictLines :=
  [("L1", ["T1", "T2"]), ("L2", ["T2", "U"]), ("L3", ["U", "V"]), ("L4", ["V", "B"]),
   ("L5", ["T1", "W"])]

/-- The nearby transfer stations of `S` in a constructed network, in the order
in which `getNearbyTransStations` collects them. -/
def nearbyOf (dictLines : DictLines) (S : String) : StringArray :=
  (linesOf dictLines S).flatMap (nearbyOn dictLines S)

/-- Some nearby transfer station of `S` has a nearby transfer station of its
own: the walk outward from `S` can take a second step. -/
def hasOnwardHop (net : SubwayNetwork) (S : String) : Prop :=
  ∃ stationTs T onward, net.getNearbyTransStations S = .ok stationTs ∧ T ∈ stationTs ∧
    net.getNearbyTransStations T = .ok onward ∧ onward ≠ []

/-- A line from `A` over the transfer stations `P` and `Q`, a branch at each of
them, and a line from `C` to `D` apart from the rest. -/
def islandLines : DictLines :=
  [("L1", ["A", "P", "Q"]), ("L2", ["P", "X"]), ("L3", ["Q", "Y"]), ("L4", ["C", "D"])]

/-! ## End-to-end scenarios -/

/-- C1: on the network of `{L1: [A,B,C], L2: [C,D,E]}`, `getBestPath(A, D)`
returns with any positive recursion budget, and the route is valid, has one
transfer and length 4, and consists of `(L1, [A,B,C])` followed by `(L2, [C,D])`. -/
theorem getBestPath_crossingLines (fuel : Nat) :
    ∃ p : SubwayPath,
      (SubwayNetwork.new crossingLines).getBestPath (fuel + 1) "A" "D" = .ok p ∧
      p.isInvalid = false ∧ p.transTimes = 1 ∧ p.length = 4 ∧
      p.lines_ = ["L1", "L2"] ∧ p.stations_ = [["A", "B", "C"], ["C", "D"]] :=
  ⟨⟨["L1", "L2"], [["A", "B", "C"], ["C", "D"]]⟩, rfl, rfl, by decide, by decide, rfl, rfl⟩

/-- C2: on the network of the disjoint line map `{L1: [A,B], L2: [C,D]}`, each
of the three recursive strategies and `getBestPath` return for `(A, C)` with any
positive recursion budget, the result is the invalid route, and `output` writes
the single item `ERROR` for it. -/
theorem getBestPath_disjointLines (fuel : Nat) (sep : String) :
    (SubwayNetwork.new disjointLines).getRecursivePath1 (fuel + 1) "A" "C"
        = .ok SubwayPath.invalid ∧
    (SubwayNetwork.new disjointLines).getRecursivePath2 (fuel + 1) "A" "C"
        = .ok SubwayPath.invalid ∧
    (SubwayNetwork.new disjointLines).getRecursivePath3 (fuel + 1) "A" "C"
        = .ok SubwayPath.invalid ∧
    (SubwayNetwork.new disjointLines).getBestPath (fuel + 1) "A" "C"
        = .ok SubwayPath.invalid ∧
    SubwayPath.invalid.isInvalid = true ∧
    SubwayPath.invalid.output sep = ["ERROR"] :=
  ⟨rfl, rfl, rfl, rfl, rfl, rfl⟩

/-! ## Routes: merging and length -/

theorem map_getD_range {α : Type} (l : List α) (d : α) :
    (List.range l.length).map (fun i => l.getD i d) = l := by
  apply List.ext_getElem (by simp)
  intro i h1 h2
  simp at h1
  simp [h1]

theorem wrapInt32_of_fits (x : Int) (h1 : -2147483648 ≤ x) (h2 : x ≤ 2147483647) :
    wrapInt32 x = x := by
  unfold wrapInt32
  omega

theorem foldl_length_fits (stations : List StringArray) (acc : Int)
    (hacc : 1 ≤ acc) (hne : ∀ s ∈ stations, s ≠ [])
    (hfit : acc + ((stations.map (fun s => s.length - 1)).sum : Nat) ≤ INT32_MAX) :
    stations.foldl (fun length s => wrapInt32 (length + ((s.length : Int) - 1))) acc
      = acc + ((stations.map (fun s => s.length - 1)).sum : Nat) := by
  induction stations generalizing acc with
  | nil => simp
  | cons s rest ih =>
    have hs : s ≠ [] := hne s (by simp)
    have hlen : 1 ≤ s.length := List.length_pos.mpr hs
    have ih2 := fun a h1 h3 => ih a h1 (fun t ht => hne t (by simp [ht])) h3
    simp only [List.map_cons, List.sum_cons, List.foldl_cons] at hfit ⊢
    generalize (rest.map (fun s => s.length - 1)).sum = S at hfit ih2 ⊢
    unfold INT32_MAX at hfit ih2
    have hw : wrapInt32 (acc + ((s.length : Int) - 1)) = acc + ((s.length : Int) - 1) := by
      apply wrapInt32_of_fits <;> omega
    rw [hw, ih2 _ (by omega) (by omega)]
    omega

theorem SubwayPath.length_eq_stationCount (p : SubwayPath) (hv : p.isInvalid = false)
    (hwf : p.WellFormed) (hfit : (stationCount p.stations_ : Int) ≤ INT32_MAX) :
    p.length = stationCount p.stations_ := by
  obtain ⟨hlen, hne⟩ := hwf
  have hl : p.lines_.isEmpty = false := hv
  unfold SubwayPath.length
  rw [hl, hlen]
  simp only [Bool.false_eq_true, if_false]
  have := List.foldl_map (fun i => p.stations_.getD i []) 
    (fun (length : Int) (s : StringArray) => wrapInt32 (length + ((s.length : Int) - 1)))
    (List.range p.stations_.length) 1
  rw [map_getD_range] at this
  rw [← this]  
  unfold stationCount at hfit ⊢
  rw [foldl_length_fits _ 1 (le_refl _) hne (by
    generalize (p.stations_.map (fun s => s.length - 1)).sum = S at hfit ⊢; omega)]
  generalize (p.stations_.map (fun s => s.length - 1)).sum = S at hfit ⊢
  omega

/-- C6: merging two valid well-formed routes whose joint station count fits
`int` gives a valid route; its segments are those of the first route followed by
those of the second, and its `length()` is the sum of the two lengths less one,
every `length()` being one plus the sum over the segments of the station count
less one. -/
theorem merge_length (r1 r2 : SubwayPath)
    (hv1 : r1.isInvalid = false) (hv2 : r2.isInvalid = false)
    (hwf1 : r1.WellFormed) (hwf2 : r2.WellFormed)
    (hfit : (stationCount (r1.stations_ ++ r2.stations_) : Int) ≤ INT32_MAX) :
    (r1.merge r2).isInvalid = false ∧
    (r1.merge r2).lines_ = r1.lines_ ++ r2.lines_ ∧
    (r1.merge r2).stations_ = r1.stations_ ++ r2.stations_ ∧
    (r1.merge r2).length = r1.length + r2.length - 1 ∧
    r1.length = stationCount r1.stations_ ∧
    r2.length = stationCount r2.stations_ ∧
    (r1.merge r2).length = stationCount (r1.stations_ ++ r2.stations_) := by
  have hm : r1.merge r2 = ⟨r1.lines_ ++ r2.lines_, r1.stations_ ++ r2.stations_⟩ := by
    simp [SubwayPath.merge, hv1, hv2]
  have hl1 : r1.lines_ ≠ [] := by
    intro h; simp [SubwayPath.isInvalid, h] at hv1
  have hmv : (r1.merge r2).isInvalid = false := by
    rw [hm]; simp [SubwayPath.isInvalid, hl1]
  have hmwf : (r1.merge r2).WellFormed := by
    rw [hm]
    refine ⟨by simp [hwf1.1, hwf2.1], ?_⟩
    intro s hs
    rcases List.mem_append.mp hs with h | h
    · exact hwf1.2 s h
    · exact hwf2.2 s h
  have hsum : stationCount (r1.stations_ ++ r2.stations_) + 1
      = stationCount r1.stations_ + stationCount r2.stations_ := by
    simp [stationCount]; omega
  have p1 : 1 ≤ stationCount r1.stations_ := by simp [stationCount]
  have p2 : 1 ≤ stationCount r2.stations_ := by simp [stationCount]
  have e1 := r1.length_eq_stationCount hv1 hwf1 (by omega)
  have e2 := r2.length_eq_stationCount hv2 hwf2 (by omega)
  have em : (r1.merge r2).length = stationCount (r1.stations_ ++ r2.stations_) := by
    have := (r1.merge r2).length_eq_stationCount hmv hmwf (by rw [hm]; exact hfit)
    rw [this, hm]
  refine ⟨hmv, by rw [hm], by rw [hm], ?_, e1, e2, em⟩
  rw [em, e1, e2]
  omega

theorem merge_length_witness :
    (SubwayPath.mk ["L1"] [["A", "B", "C"]]).WellFormed ∧
    ((SubwayPath.mk ["L1"] [["A", "B", "C"]]).merge ⟨["L2"], [["C", "D"]]⟩).length
      = (SubwayPath.mk ["L1"] [["A", "B", "C"]]).length
        + (SubwayPath.mk ["L2"] [["C", "D"]]).length - 1 :=
  ⟨⟨rfl, by decide⟩,
   (merge_length ⟨["L1"], [["A", "B", "C"]]⟩ ⟨["L2"], [["C", "D"]]⟩ rfl rfl
      ⟨rfl, by decide⟩ ⟨rfl, by decide⟩ (by decide)).2.2.2.1⟩

/-- C7: merging an invalid route with any route, on either side, gives the
invalid route: no lines, no segments, `isInvalid()`, `transTimes()` 0 and
`length()` `INT32_MAX`. -/
theorem merge_invalid (I X : SubwayPath) (hI : I.isInvalid = true) :
    I.merge X = SubwayPath.invalid ∧ X.merge I = SubwayPath.invalid ∧
    (I.merge X).isInvalid = true ∧ (X.merge I).isInvalid = true ∧
    SubwayPath.invalid.lines_ = [] ∧ SubwayPath.invalid.stations_ = [] ∧
    SubwayPath.invalid.transTimes = 0 ∧ SubwayPath.invalid.length = INT32_MAX := by
  have h1 : I.merge X = SubwayPath.invalid := by
    simp [SubwayPath.merge, hI, SubwayPath.invalid]
  have h2 : X.merge I = SubwayPath.invalid := by
    simp [SubwayPath.merge, hI, SubwayPath.invalid]
  refine ⟨h1, h2, ?_, ?_, rfl, rfl, rfl, rfl⟩
  · rw [h1]; rfl
  · rw [h2]; rfl

theorem merge_invalid_witness :
    SubwayPath.invalid.isInvalid = true ∧
    SubwayPath.invalid.merge ⟨["L1"], [["A", "B"]]⟩ = SubwayPath.invalid ∧
    (SubwayPath.mk ["L1"] [["A", "B"]]).merge SubwayPath.invalid = SubwayPath.invalid :=
  ⟨rfl, (merge_invalid SubwayPath.invalid ⟨["L1"], [["A", "B"]]⟩ rfl).1,
    (merge_invalid SubwayPath.invalid ⟨["L1"], [["A", "B"]]⟩ rfl).2.1⟩

/-! ## Listing the stations of a line -/

/-- C4: with the input file holding `L1,A,B,C` and `L2,C,D,E`, the operation
`-a L1` ends with `EXIT_FAILURE`, reports that there is no line `L1` and leaves
the output file as it was: the stations of `L1` are not written. -/
theorem ProcessOutputLineStations_known_line :
    ProcessParseInputFile ["L1,A,B,C", "L2,C,D,E"] = crossingLines ∧
    mapContain crossingLines "L1" = true ∧
    ProcessOutputLineStations ⟨"-a", "subway.txt", "out.txt", ("L1", "")⟩
        ["L1,A,B,C", "L2,C,D,E"] none
      = ⟨EXIT_FAILURE, none, "ERROR: No line with name \"L1\" !\n\n"⟩ := by
  decide

/-- C5: with the input file holding `L1,A,B,C` and `L2,C,D,E`, the operation
`-a L9` on a line that does not exist ends with `EXIT_FAILURE` but opens the
output file first: a file holding `old` is left empty. -/
theorem ProcessOutputLineStations_unknown_line :
    mapContain (ProcessParseInputFile ["L1,A,B,C", "L2,C,D,E"]) "L9" = false ∧
    ProcessOutputLineStations ⟨"-a", "subway.txt", "out.txt", ("L9", "")⟩
        ["L1,A,B,C", "L2,C,D,E"] (some "old")
      = ⟨EXIT_FAILURE, some "", "ERROR: write output file \"out.txt\"failed !\n"⟩ := by
  decide

/-! ## Loops that can fault -/

theorem ok_bind {α β : Type} (v : α) (f : α → Except Fault β) :
    (Except.ok v >>= f) = f v := rfl

theorem error_bind {α β : Type} (e : Fault) (f : α → Except Fault β) :
    (Except.error e >>= f) = Except.error e := rfl

theorem mapAt_of_find {V : Type} (dict : Dict V) (key : String) (v : V)
    (h : mapFind dict key = some v) : mapAt dict key = .ok v := by
  simp [mapAt, h]

theorem vecGet_ok (stations : StringArray) (i : Nat) (h : i < stations.length) :
    vecGet stations i = .ok (stations.getD i "") := by
  simp [vecGet, h]

/-- A loop that pushes `f x` for each `x` and in which no `f x` faults collects
the values in order. -/
theorem foldlM_push_ok {α β : Type} (f : α → Except Fault β) (g : α → β) (l : List α)
    (init : List β) (h : ∀ x ∈ l, f x = .ok (g x)) :
    l.foldlM (fun path x => do pure (path ++ [← f x])) init = .ok (init ++ l.map g) := by
  induction l generalizing init with
  | nil => simp [pure, Except.pure]
  | cons a rest ih =>
    rw [List.foldlM_cons, h a (by simp)]
    simp only [bind, Except.bind, pure, Except.pure]
    have := ih (init ++ [g a]) (fun x hx => h x (by simp [hx]))
    simp only [bind, Except.bind, pure, Except.pure] at this
    rw [this]
    simp

/-! ## Segments of a line -/

theorem getBetweenStations_ok (net : SubwayNetwork) (line A B : String)
    (stations : StringArray) (hline : mapFind net.dictLines_ line = some stations)
    (hA : A ∈ stations) (hB : B ∈ stations) :
    net.getBetweenStations A B line
      = .ok (segmentOf stations (indexOf stations A) (indexOf stations B)) := by
  have hiA : indexOf stations A < stations.length := List.indexOf_lt_length.mpr hA
  have hiB : indexOf stations B < stations.length := List.indexOf_lt_length.mpr hB
  unfold SubwayNetwork.getBetweenStations segmentOf
  rw [mapAt_of_find _ _ _ hline, ok_bind]
  by_cases h : indexOf stations A < indexOf stations B
  · simp only [h, if_true]
    rw [foldlM_push_ok (vecGet stations) (fun i => stations.getD i "")]
    · simp
    · intro i hi
      have := List.mem_range'_1.mp hi
      exact vecGet_ok _ _ (by omega)
  · simp only [h, if_false]
    rw [foldlM_push_ok (vecGet stations) (fun i => stations.getD i "")]
    · simp
    · intro i hi
      have := List.mem_range'_1.mp (List.mem_reverse.mp hi)
      exact vecGet_ok _ _ (by omega)

theorem segmentOf_reverse (stations : StringArray) (iA iB : Nat) :
    segmentOf stations iB iA = (segmentOf stations iA iB).reverse := by
  unfold segmentOf
  rcases Nat.lt_trichotomy iA iB with h | h | h
  · have h2 : ¬ iB < iA := by omega
    simp [h, h2]
  · subst h
    simp
  · have h2 : ¬ iA < iB := by omega
    simp [h, h2]

theorem segmentOf_length (stations : StringArray) (iA iB : Nat) :
    ((segmentOf stations iA iB).length : Int) = |(iA : Int) - iB| + 1 := by
  unfold segmentOf
  split
  · have h : (iA : Int) - iB ≤ 0 := by omega
    rw [abs_of_nonpos h]; simp; omega
  · have h : 0 ≤ (iA : Int) - iB := by omega
    rw [abs_of_nonneg h]; simp; omega

theorem segmentOf_head (stations : StringArray) (iA iB : Nat) :
    (segmentOf stations iA iB).head? = some (stations.getD iA "") := by
  unfold segmentOf
  by_cases h : iA < iB
  · have h2 : iB + 1 - iA ≠ 0 := by omega
    simp only [h, if_true, List.head?_map, List.head?_range', h2, if_false, Option.map_some']
  · have h2 : iA + 1 - iB ≠ 0 := by omega
    have h3 : iB + (iA + 1 - iB) - 1 = iA := by omega
    simp only [h, if_false, List.head?_map, List.head?_reverse, List.getLast?_range', h2,
      Option.map_some', h3]

theorem segmentOf_getLast (stations : StringArray) (iA iB : Nat) :
    (segmentOf stations iA iB).getLast? = some (stations.getD iB "") := by
  have := segmentOf_head stations iB iA
  rw [segmentOf_reverse stations iA iB, List.head?_reverse] at this
  exact this

theorem getD_indexOf (stations : StringArray) (A : String) (hA : A ∈ stations) :
    stations.getD (indexOf stations A) "" = A := by
  have hiA : indexOf stations A < stations.length := List.indexOf_lt_length.mpr hA
  unfold indexOf at hiA ⊢
  simp [List.getD_eq_getElem?_getD, List.getElem?_eq_getElem hiA, List.getElem_indexOf hiA]

/-- C8: for a line of the network and two stations `A`, `B` of its station
sequence, `getBetweenStations(A, B, line)` returns a sequence that starts at `A`
and ends at `B`, and `getBetweenStations(B, A, line)` returns its reverse; both
hold the same stations and have `|pos(A) - pos(B)| + 1` of them, positions being
those of `indexOf`. -/
theorem getBetweenStations_reverse (net : SubwayNetwork) (line A B : String)
    (stations : StringArray) (hline : mapFind net.dictLines_ line = some stations)
    (hA : A ∈ stations) (hB : B ∈ stations) :
    ∃ p : StringArray,
      net.getBetweenStations A B line = .ok p ∧
      net.getBetweenStations B A line = .ok p.reverse ∧
      p.head? = some A ∧ p.getLast? = some B ∧
      (∀ s, s ∈ p.reverse ↔ s ∈ p) ∧
      p.reverse.length = p.length ∧
      (p.length : Int) = |(indexOf stations A : Int) - indexOf stations B| + 1 := by
  refine ⟨segmentOf stations (indexOf stations A) (indexOf stations B),
    getBetweenStations_ok net line A B stations hline hA hB, ?_, ?_, ?_, ?_, ?_, ?_⟩
  · rw [← segmentOf_reverse]
    exact getBetweenStations_ok net line B A stations hline hB hA
  · rw [segmentOf_head, getD_indexOf _ _ hA]
  · rw [segmentOf_getLast, getD_indexOf _ _ hB]
  · intro s; exact List.mem_reverse
  · exact List.length_reverse _
  · exact segmentOf_length _ _ _

theorem getBetweenStations_reverse_witness :
    ∃ p : StringArray,
      (SubwayNetwork.new crossingLines).getBetweenStations "D" "C" "L2" = .ok p ∧
      (SubwayNetwork.new crossingLines).getBetweenStations "C" "D" "L2" = .ok p.reverse ∧
      p.head? = some "D" ∧ p.getLast? = some "C" ∧
      (∀ s, s ∈ p.reverse ↔ s ∈ p) ∧
      p.reverse.length = p.length ∧
      (p.length : Int)
        = |(indexOf ["C", "D", "E"] "D" : Int) - indexOf ["C", "D", "E"] "C"| + 1 :=
  getBetweenStations_reverse (SubwayNetwork.new crossingLines) "L2" "D" "C" ["C", "D", "E"]
    (by decide) (by decide) (by decide)

/-! ## The station registry built by the constructor -/

theorem mapFind_mapSet {V : Type} (dict : Dict V) (key : String) (value : V) (k : String) :
    mapFind (mapSet dict key value) k = if k = key then some value else mapFind dict k := by
  induction dict with
  | nil => simp [mapSet, mapFind]
  | cons e rest ih =>
    obtain ⟨k0, v0⟩ := e
    unfold mapSet
    by_cases h1 : key = k0
    · subst h1
      simp only [if_true, mapFind]
      by_cases h3 : k = key <;> simp [h3]
    · simp only [h1, if_false]
      by_cases h2 : strLt key k0 = true
      · simp only [h2, if_true, mapFind]
      · simp only [h2, if_false, mapFind, ih]
        by_cases h3 : k = k0
        · subst h3
          have : ¬ k = key := fun h => h1 h.symm
          simp [this]
        · simp [h3]

theorem mapFind_createNodes (nodes : DictNodes) (stations : StringArray) (s : String) :
    mapFind (createNodes nodes stations) s
      = match mapFind nodes s with
        | some node => some node
        | none => if s ∈ stations then some (SubwayNode.new s) else none := by
  unfold createNodes
  induction stations generalizing nodes with
  | nil => cases h : mapFind nodes s <;> simp [h]
  | cons a rest ih =>
    rw [List.foldl_cons, ih]
    by_cases hc : mapContain nodes a = true
    · have hsome : (mapFind nodes a).isSome = true := hc
      simp only [hc, Bool.not_true, Bool.false_eq_true, if_false]
      cases h : mapFind nodes s with
      | some node => rfl
      | none =>
        have : s ≠ a := by
          intro e; subst e; simp [h] at hsome
        simp [this]
    · have hnone : mapFind nodes a = none := by
        cases h : mapFind nodes a with
        | none => rfl
        | some v => simp [mapContain, h] at hc
      simp only [hc, Bool.not_false, if_true, mapFind_mapSet]
      by_cases e : s = a
      · subst e
        simp [hnone]
      · simp only [e, if_false]
        cases h : mapFind nodes s <;> simp [e]

theorem mapFind_createAll (dictLines : DictLines) (nodes : DictNodes) (s : String) :
    mapFind (dictLines.foldl (fun nodes it => createNodes nodes it.2) nodes) s
      = match mapFind nodes s with
        | some node => some node
        | none => if isStationOf dictLines s then some (SubwayNode.new s) else none := by
  induction dictLines generalizing nodes with
  | nil => cases h : mapFind nodes s <;> simp [h, isStationOf]
  | cons it rest ih =>
    rw [List.foldl_cons, ih, mapFind_createNodes]
    cases h : mapFind nodes s with
    | some node => rfl
    | none =>
      by_cases h1 : s ∈ it.2
      · have : isStationOf (it :: rest) s := ⟨it, by simp, h1⟩
        simp [h1, this]
      · simp only [h1, if_false]
        by_cases h2 : isStationOf rest s
        · have : isStationOf (it :: rest) s := by
            obtain ⟨x, hx, hs⟩ := h2
            exact ⟨x, by simp [hx], hs⟩
          simp [h2, this]
        · have : ¬ isStationOf (it :: rest) s := by
            rintro ⟨x, hx, hs⟩
            rcases List.mem_cons.mp hx with e | e
            · subst e; exact h1 hs
            · exact h2 ⟨x, e, hs⟩
          simp [h2, this]

theorem setOnLine_setOnLine (node : SubwayNode) (line : String) :
    (node.setOnLine line).setOnLine line = node.setOnLine line := by
  by_cases h : line ∈ node.lines_
  · simp [SubwayNode.setOnLine, contain, h]
  · simp [SubwayNode.setOnLine, contain, h]

theorem mapIndex_mapSet (nodes : DictNodes) (key : String) (value : SubwayNode) (k : String) :
    mapIndex (mapSet nodes key value) k = if k = key then value else mapIndex nodes k := by
  unfold mapIndex
  rw [mapFind_mapSet]
  by_cases h : k = key <;> simp [h]

theorem mapFind_connectNodes (nodes : DictNodes) (line : String) (stations : StringArray)
    (s : String) :
    mapFind (connectNodes nodes line stations) s
      = if s ∈ stations then some ((mapIndex nodes s).setOnLine line)
        else mapFind nodes s := by
  unfold connectNodes
  induction stations generalizing nodes with
  | nil => simp
  | cons a rest ih =>
    rw [List.foldl_cons, ih, mapIndex_mapSet, mapFind_mapSet]
    by_cases e : s = a
    · subst e
      by_cases h : s ∈ rest <;> simp [h, setOnLine_setOnLine]
    · by_cases h : s ∈ rest <;> simp [h, e]

theorem mapFind_connectAll (dictLines : DictLines) (nodes : DictNodes) (s : String) :
    mapFind (dictLines.foldl (fun nodes it => connectNodes nodes it.1 it.2) nodes) s
      = dictLines.foldl (connectStep s) (mapFind nodes s) := by
  induction dictLines generalizing nodes with
  | nil => rfl
  | cons it rest ih =>
    rw [List.foldl_cons, List.foldl_cons, ih, mapFind_connectNodes]
    rfl

theorem foldl_connectStep_none (dictLines : DictLines) (s : String)
    (h : ¬ isStationOf dictLines s) :
    dictLines.foldl (connectStep s) none = none := by
  induction dictLines with
  | nil => rfl
  | cons it rest ih =>
    have h1 : s ∉ it.2 := fun hs => h ⟨it, by simp, hs⟩
    have h2 : ¬ isStationOf rest s := by
      rintro ⟨x, hx, hs⟩
      exact h ⟨x, by simp [hx], hs⟩
    rw [List.foldl_cons]
    simp only [connectStep, h1, if_false]
    exact ih h2

theorem foldl_connectStep_some (dictLines : DictLines) (s : String) (acc : StringArray)
    (hk : (dictLines.map Prod.fst).Nodup) (hacc : ∀ it ∈ dictLines, it.1 ∉ acc) :
    dictLines.foldl (connectStep s) (some ⟨s, acc⟩)
      = some ⟨s, acc ++ linesOf dictLines s⟩ := by
  induction dictLines generalizing acc with
  | nil => simp [linesOf]
  | cons it rest ih =>
    rw [List.foldl_cons]
    have hk2 : (rest.map Prod.fst).Nodup := by
      simp only [List.map_cons, List.nodup_cons] at hk
      exact hk.2
    have hnot : it.1 ∉ rest.map Prod.fst := by
      simp only [List.map_cons, List.nodup_cons] at hk
      exact hk.1
    have hit : it.1 ∉ acc := hacc it (by simp)
    by_cases h1 : s ∈ it.2
    · have hstep : connectStep s (some ⟨s, acc⟩) it = some ⟨s, acc ++ [it.1]⟩ := by
        simp [connectStep, h1, SubwayNode.setOnLine, contain, hit]
      rw [hstep, ih _ hk2]
      · simp [linesOf, List.filter_cons, h1]
      · intro x hx
        have hx1 : x.1 ∉ acc := hacc x (by simp [hx])
        have hx2 : x.1 ≠ it.1 := by
          intro e
          exact hnot (e ▸ List.mem_map_of_mem Prod.fst hx)
        simp [hx1, hx2]
    · have hstep : connectStep s (some ⟨s, acc⟩) it = some ⟨s, acc⟩ := by
        simp [connectStep, h1]
      rw [hstep, ih _ hk2 (fun x hx => hacc x (by simp [hx]))]
      simp [linesOf, List.filter_cons, h1]

/-- The registry of the constructed network: a station of some line is
registered under its name with the lines that hold it, in the order of the
map, and no other name is registered. -/
theorem new_dictNodes (dictLines : DictLines) (hk : (dictLines.map Prod.fst).Nodup)
    (s : String) :
    mapFind (SubwayNetwork.new dictLines).dictNodes_ s
      = if isStationOf dictLines s then some ⟨s, linesOf dictLines s⟩ else none := by
  unfold SubwayNetwork.new
  simp only
  rw [mapFind_connectAll, mapFind_createAll]
  by_cases h : isStationOf dictLines s
  · simp only [h, if_true, mapFind]
    have := foldl_connectStep_some dictLines s [] hk (by simp)
    simpa [SubwayNode.new] using this
  · simp only [h, if_false, mapFind]
    exact foldl_connectStep_none dictLines s h

theorem new_dictLines (dictLines : DictLines) :
    (SubwayNetwork.new dictLines).dictLines_ = dictLines := rfl

theorem mapFind_iff_mem {V : Type} (dict : Dict V) (hk : (dict.map Prod.fst).Nodup)
    (key : String) (v : V) : mapFind dict key = some v ↔ (key, v) ∈ dict := by
  induction dict with
  | nil => simp [mapFind]
  | cons e rest ih =>
    obtain ⟨k0, v0⟩ := e
    simp only [List.map_cons, List.nodup_cons] at hk
    unfold mapFind
    by_cases h : key = k0
    · subst h
      simp only [if_true, List.mem_cons, Prod.mk.injEq, true_and, Option.some.injEq]
      constructor
      · intro e; exact Or.inl e.symm
      · rintro (e | e)
        · exact e.symm
        · exact absurd (List.mem_map_of_mem Prod.fst e) hk.1
    · simp only [h, if_false, List.mem_cons, Prod.mk.injEq, false_and, false_or]
      exact ih hk.2

theorem mem_linesOf (dictLines : DictLines) (hk : (dictLines.map Prod.fst).Nodup)
    (s line : String) :
    line ∈ linesOf dictLines s
      ↔ ∃ stations, mapFind dictLines line = some stations ∧ s ∈ stations := by
  unfold linesOf
  simp only [List.mem_map, List.mem_filter, decide_eq_true_eq]
  constructor
  · rintro ⟨⟨l, st⟩, ⟨hmem, hs⟩, rfl⟩
    exact ⟨st, (mapFind_iff_mem dictLines hk l st).mpr hmem, hs⟩
  · rintro ⟨st, hf, hs⟩
    exact ⟨(line, st), ⟨(mapFind_iff_mem dictLines hk line st).mp hf, hs⟩, rfl⟩

theorem nodup_linesOf (dictLines : DictLines) (hk : (dictLines.map Prod.fst).Nodup)
    (s : String) : (linesOf dictLines s).Nodup := by
  unfold linesOf
  exact hk.sublist (List.Sublist.map _ (List.filter_sublist _))

theorem hasStation_iff (dictLines : DictLines) (hk : (dictLines.map Prod.fst).Nodup)
    (s : String) :
    (SubwayNetwork.new dictLines).hasStation s = true ↔ isStationOf dictLines s := by
  unfold SubwayNetwork.hasStation mapContain
  rw [new_dictNodes dictLines hk]
  by_cases h : isStationOf dictLines s <;> simp [h]

theorem mapAt_station (dictLines : DictLines) (hk : (dictLines.map Prod.fst).Nodup)
    (s : String) (hs : (SubwayNetwork.new dictLines).hasStation s = true) :
    mapAt (SubwayNetwork.new dictLines).dictNodes_ s = .ok ⟨s, linesOf dictLines s⟩ := by
  apply mapAt_of_find
  rw [new_dictNodes dictLines hk]
  simp [(hasStation_iff dictLines hk s).mp hs]

/-! ## Shared lines -/

/-- A loop whose body reads `f x` and in which no `f x` faults is the loop over
the values read. -/
theorem foldlM_ok {α β γ : Type} (f : α → Except Fault γ) (g : α → γ)
    (step : β → α → γ → β) (l : List α) (init : β) (h : ∀ x ∈ l, f x = .ok (g x)) :
    l.foldlM (fun acc x => do let y ← f x; pure (step acc x y)) init
      = .ok (l.foldl (fun acc x => step acc x (g x)) init) := by
  induction l generalizing init with
  | nil => rfl
  | cons a rest ih =>
    rw [List.foldlM_cons, h a (by simp), ok_bind]
    exact ih _ (fun x hx => h x (by simp [hx]))

theorem foldl_push_if {α : Type} (p : α → Bool) (l init : List α) :
    l.foldl (fun acc x => if p x then acc ++ [x] else acc) init = init ++ l.filter p := by
  induction l generalizing init with
  | nil => simp
  | cons a rest ih =>
    rw [List.foldl_cons, ih]
    by_cases h : p a <;> simp [h, List.filter_cons]

theorem getSameLines_ok (dictLines : DictLines) (hk : (dictLines.map Prod.fst).Nodup)
    (A B : String) (hA : (SubwayNetwork.new dictLines).hasStation A = true)
    (hB : (SubwayNetwork.new dictLines).hasStation B = true) :
    (SubwayNetwork.new dictLines).getSameLines A B
      = .ok ((linesOf dictLines A).filter (fun line => decide (line ∈ linesOf dictLines B))) := by
  unfold SubwayNetwork.getSameLines
  rw [mapAt_station dictLines hk A hA, ok_bind]
  have := foldlM_ok (fun _ : String => mapAt (SubwayNetwork.new dictLines).dictNodes_ B)
    (fun _ => ⟨B, linesOf dictLines B⟩)
    (fun (sameLines : StringArray) (line : String) (nodeB : SubwayNode) =>
      if nodeB.isOnLine line then sameLines ++ [line] else sameLines)
    (linesOf dictLines A) [] (fun _ _ => mapAt_station dictLines hk B hB)
  simp only [SubwayNode.lines]
  rw [this, foldl_push_if]
  simp [SubwayNode.isOnLine, contain]

/-- C10: in a constructed network, `getSameLines(S, S)` is the list of lines of
the node of `S`, which holds each line of `S` once; and a line is in
`getSameLines(A, B)` exactly when both `A` and `B` occur in its station sequence. -/
theorem getSameLines_spec (dictLines : DictLines) (hk : (dictLines.map Prod.fst).Nodup)
    (A B : String) (hA : (SubwayNetwork.new dictLines).hasStation A = true)
    (hB : (SubwayNetwork.new dictLines).hasStation B = true) :
    ∃ (nodeA : SubwayNode) (sameLines : StringArray),
      mapFind (SubwayNetwork.new dictLines).dictNodes_ A = some nodeA ∧
      (SubwayNetwork.new dictLines).getSameLines A A = .ok nodeA.lines ∧
      nodeA.lines.Nodup ∧
      (∀ line, line ∈ nodeA.lines ↔
        ∃ stations, mapFind (SubwayNetwork.new dictLines).dictLines_ line = some stations
          ∧ A ∈ stations) ∧
      (SubwayNetwork.new dictLines).getSameLines A B = .ok sameLines ∧
      (∀ line, line ∈ sameLines ↔
        ∃ stations, mapFind (SubwayNetwork.new dictLines).dictLines_ line = some stations
          ∧ A ∈ stations ∧ B ∈ stations) := by
  refine ⟨⟨A, linesOf dictLines A⟩, _, ?_, ?_, nodup_linesOf dictLines hk A, ?_,
    getSameLines_ok dictLines hk A B hA hB, ?_⟩
  · rw [new_dictNodes dictLines hk]
    simp [(hasStation_iff dictLines hk A).mp hA]
  · rw [getSameLines_ok dictLines hk A A hA hA]
    simp [SubwayNode.lines]
  · intro line
    exact mem_linesOf dictLines hk A line
  · intro line
    rw [new_dictLines]
    simp only [List.mem_filter, decide_eq_true_eq, mem_linesOf dictLines hk]
    constructor
    · rintro ⟨⟨st, h1, h2⟩, ⟨st2, h3, h4⟩⟩
      rw [h1] at h3
      cases h3
      exact ⟨st, h1, h2, h4⟩
    · rintro ⟨st, h1, h2, h3⟩
      exact ⟨⟨st, h1, h2⟩, ⟨st, h1, h3⟩⟩

theorem getSameLines_spec_witness :
    ∃ (nodeA : SubwayNode) (sameLines : StringArray),
      mapFind (SubwayNetwork.new crossingLines).dictNodes_ "C" = some nodeA ∧
      (SubwayNetwork.new crossingLines).getSameLines "C" "C" = .ok nodeA.lines ∧
      nodeA.lines.Nodup ∧
      (∀ line, line ∈ nodeA.lines ↔
        ∃ stations, mapFind (SubwayNetwork.new crossingLines).dictLines_ line = some stations
          ∧ "C" ∈ stations) ∧
      (SubwayNetwork.new crossingLines).getSameLines "C" "D" = .ok sameLines ∧
      (∀ line, line ∈ sameLines ↔
        ∃ stations, mapFind (SubwayNetwork.new crossingLines).dictLines_ line = some stations
          ∧ "C" ∈ stations ∧ "D" ∈ stations) :=
  getSameLines_spec crossingLines (by decide) "C" "D" (by decide) (by decide)

/-! ## Keeping the shortest route of a loop -/

theorem keepShorter_length_le_left (bestPath path : SubwayPath) :
    (keepShorter bestPath path).length ≤ bestPath.length := by
  unfold keepShorter
  split <;> omega

theorem keepShorter_length_le_right (bestPath path : SubwayPath) :
    (keepShorter bestPath path).length ≤ path.length := by
  unfold keepShorter
  split <;> omega

theorem foldl_keepShorter_le_init {α : Type} (c : α → SubwayPath) (l : List α)
    (init : SubwayPath) :
    (l.foldl (fun best x => keepShorter best (c x)) init).length ≤ init.length := by
  induction l generalizing init with
  | nil => exact le_refl _
  | cons a rest ih =>
    rw [List.foldl_cons]
    exact le_trans (ih _) (keepShorter_length_le_left _ _)

theorem foldl_keepShorter_le {α : Type} (c : α → SubwayPath) (l : List α)
    (init : SubwayPath) (x : α) (hx : x ∈ l) :
    (l.foldl (fun best x => keepShorter best (c x)) init).length ≤ (c x).length := by
  induction l generalizing init with
  | nil => simp at hx
  | cons a rest ih =>
    rw [List.foldl_cons]
    rcases List.mem_cons.mp hx with e | e
    · subst e
      exact le_trans (foldl_keepShorter_le_init c rest _) (keepShorter_length_le_right _ _)
    · exact ih _ e

theorem foldl_keepShorter_mem {α : Type} (c : α → SubwayPath) (l : List α)
    (init : SubwayPath) :
    l.foldl (fun best x => keepShorter best (c x)) init = init ∨
    ∃ x ∈ l, l.foldl (fun best x => keepShorter best (c x)) init = c x := by
  induction l generalizing init with
  | nil => exact Or.inl rfl
  | cons a rest ih =>
    rw [List.foldl_cons]
    rcases ih (keepShorter init (c a)) with h | ⟨x, hx, h⟩
    · rw [h]
      unfold keepShorter
      split
      · exact Or.inr ⟨a, by simp, rfl⟩
      · exact Or.inl rfl
    · exact Or.inr ⟨x, by simp [hx], h⟩

/-! ## The best route on one line -/

theorem single_length (line : String) (stations : StringArray) (hne : stations ≠ [])
    (hfit : (stations.length : Int) ≤ INT32_MAX) :
    (SubwayPath.single line stations).length = stations.length := by
  have h1 : stations.isEmpty = false := by
    cases stations with
    | nil => exact absurd rfl hne
    | cons a r => rfl
  have h2 : 1 ≤ stations.length := List.length_pos.mpr hne
  unfold INT32_MAX at hfit
  simp only [SubwayPath.single, h1, SubwayPath.length, Bool.not_false, if_true]
  simp only [List.isEmpty_cons, Bool.false_eq_true, if_false, List.length_singleton,
    List.range_succ, List.range_zero, List.nil_append, List.foldl_cons, List.foldl_nil,
    List.getD_cons_zero]
  rw [wrapInt32_of_fits _ (by omega) (by omega)]
  omega

theorem segmentOf_ne_nil (stations : StringArray) (iA iB : Nat) :
    segmentOf stations iA iB ≠ [] := by
  intro h
  have := segmentOf_length stations iA iB
  rw [h] at this
  have h0 : 0 ≤ |(iA : Int) - iB| := abs_nonneg _
  simp at this
  omega

theorem segmentOf_length_le (stations : StringArray) (iA iB : Nat)
    (hA : iA < stations.length) (hB : iB < stations.length) :
    (segmentOf stations iA iB).length ≤ stations.length := by
  unfold segmentOf
  split <;> simp <;> omega

theorem getBestOneLinePath_ok (dictLines : DictLines) (hk : (dictLines.map Prod.fst).Nodup)
    (A B : String) (hA : (SubwayNetwork.new dictLines).hasStation A = true)
    (hB : (SubwayNetwork.new dictLines).hasStation B = true) :
    (SubwayNetwork.new dictLines).getBestOneLinePath A B
      = .ok (((linesOf dictLines A).filter (fun line => decide (line ∈ linesOf dictLines B))).foldl
          (fun best line => keepShorter best (rideOn dictLines A B line)) SubwayPath.invalid) := by
  unfold SubwayNetwork.getBestOneLinePath
  rw [getSameLines_ok dictLines hk A B hA hB, ok_bind]
  generalize hsame :
    (linesOf dictLines A).filter (fun line => decide (line ∈ linesOf dictLines B)) = same
  have hmem : ∀ line ∈ same, (SubwayNetwork.new dictLines).getBetweenStations A B line
      = .ok (segmentOf (stationsOn dictLines line) (indexOf (stationsOn dictLines line) A)
          (indexOf (stationsOn dictLines line) B)) := by
    intro line hl
    rw [← hsame] at hl
    simp only [List.mem_filter, decide_eq_true_eq, mem_linesOf dictLines hk] at hl
    obtain ⟨⟨st, h1, h2⟩, ⟨st2, h3, h4⟩⟩ := hl
    rw [h1] at h3
    cases h3
    have : stationsOn dictLines line = st := by simp [stationsOn, h1]
    rw [this]
    exact getBetweenStations_ok _ line A B st h1 h2 h4
  have := foldlM_ok (fun line => (SubwayNetwork.new dictLines).getBetweenStations A B line)
    _ (fun (bestPath : SubwayPath) (line : String) (between : StringArray) =>
      if (SubwayPath.single line between).length < bestPath.length
      then SubwayPath.single line between else bestPath)
    same SubwayPath.invalid hmem
  by_cases he : same.isEmpty = true
  · have : same = [] := List.isEmpty_iff.mp he
    subst this
    rfl
  · simp only [he, if_false]
    rw [this]
    rfl

theorem single_eq (line : String) (stations : StringArray) (hne : stations ≠ []) :
    SubwayPath.single line stations = ⟨[line], [stations]⟩ := by
  cases stations with
  | nil => exact absurd rfl hne
  | cons a r => rfl

theorem rideOn_eq (dictLines : DictLines) (A B line : String) (stations : StringArray)
    (hline : mapFind dictLines line = some stations) :
    rideOn dictLines A B line
      = ⟨[line], [segmentOf stations (indexOf stations A) (indexOf stations B)]⟩ := by
  have : stationsOn dictLines line = stations := by simp [stationsOn, hline]
  unfold rideOn
  rw [this]
  exact single_eq _ _ (segmentOf_ne_nil _ _ _)

theorem rideOn_length (dictLines : DictLines) (A B line : String) (stations : StringArray)
    (hline : mapFind dictLines line = some stations) (hA : A ∈ stations) (hB : B ∈ stations)
    (hfit : (stations.length : Int) ≤ INT32_MAX) :
    (rideOn dictLines A B line).length
        = (segmentOf stations (indexOf stations A) (indexOf stations B)).length ∧
    (rideOn dictLines A B line).length ≤ stations.length := by
  have hiA : indexOf stations A < stations.length := List.indexOf_lt_length.mpr hA
  have hiB : indexOf stations B < stations.length := List.indexOf_lt_length.mpr hB
  have hle := segmentOf_length_le stations _ _ hiA hiB
  have : stationsOn dictLines line = stations := by simp [stationsOn, hline]
  have hlen : (rideOn dictLines A B line).length
      = (segmentOf stations (indexOf stations A) (indexOf stations B)).length := by
    unfold rideOn
    rw [this]
    exact single_length _ _ (segmentOf_ne_nil _ _ _) (by omega)
  exact ⟨hlen, by rw [hlen]; exact_mod_cast hle⟩

/-- C9: in a constructed network whose lines have fewer than `INT32_MAX`
stations, for stations `A`, `B` of it that share a line, `getBestOneLinePath(A, B)`
is a valid route of one segment whose `length()` is at most the station count of
every shared line, hence of the longest one; when `A` and `B` share no line it is
the invalid route. -/
theorem getBestOneLinePath_spec (dictLines : DictLines)
    (hk : (dictLines.map Prod.fst).Nodup)
    (hsize : ∀ it ∈ dictLines, (it.2.length : Int) < INT32_MAX)
    (A B : String) (hA : (SubwayNetwork.new dictLines).hasStation A = true)
    (hB : (SubwayNetwork.new dictLines).hasStation B = true) :
    ((∃ line stations, mapFind (SubwayNetwork.new dictLines).dictLines_ line = some stations
        ∧ A ∈ stations ∧ B ∈ stations) →
      ∃ p : SubwayPath,
        (SubwayNetwork.new dictLines).getBestOneLinePath A B = .ok p ∧
        p.isInvalid = false ∧ p.lines_.length = 1 ∧ p.stations_.length = 1 ∧
        (∀ line stations,
          mapFind (SubwayNetwork.new dictLines).dictLines_ line = some stations →
          A ∈ stations → B ∈ stations → p.length ≤ stations.length) ∧
        (∀ longest stations,
          mapFind (SubwayNetwork.new dictLines).dictLines_ longest = some stations →
          A ∈ stations → B ∈ stations →
          (∀ line stations', mapFind (SubwayNetwork.new dictLines).dictLines_ line
              = some stations' → A ∈ stations' → B ∈ stations' →
              stations'.length ≤ stations.length) →
          p.length ≤ stations.length)) ∧
    ((¬ ∃ line stations, mapFind (SubwayNetwork.new dictLines).dictLines_ line = some stations
        ∧ A ∈ stations ∧ B ∈ stations) →
      (SubwayNetwork.new dictLines).getBestOneLinePath A B = .ok SubwayPath.invalid) := by
  rw [getBestOneLinePath_ok dictLines hk A B hA hB, new_dictLines]
  generalize hsame :
    (linesOf dictLines A).filter (fun line => decide (line ∈ linesOf dictLines B)) = same
  have hmem : ∀ line, line ∈ same ↔
      ∃ stations, mapFind dictLines line = some stations ∧ A ∈ stations ∧ B ∈ stations := by
    intro line
    rw [← hsame]
    simp only [List.mem_filter, decide_eq_true_eq, mem_linesOf dictLines hk]
    constructor
    · rintro ⟨⟨st, h1, h2⟩, ⟨st2, h3, h4⟩⟩
      rw [h1] at h3
      cases h3
      exact ⟨st, h1, h2, h4⟩
    · rintro ⟨st, h1, h2, h3⟩
      exact ⟨⟨st, h1, h2⟩, ⟨st, h1, h3⟩⟩
  have hbound : ∀ line stations, mapFind dictLines line = some stations →
      (stations.length : Int) < INT32_MAX := by
    intro line stations h
    exact hsize (line, stations) ((mapFind_iff_mem dictLines hk line stations).mp h)
  have hle : ∀ line stations, mapFind dictLines line = some stations → A ∈ stations →
      B ∈ stations →
      (same.foldl (fun best line => keepShorter best (rideOn dictLines A B line))
        SubwayPath.invalid).length ≤ stations.length := by
    intro line stations h1 h2 h3
    have hin : line ∈ same := (hmem line).mpr ⟨stations, h1, h2, h3⟩
    exact le_trans (foldl_keepShorter_le _ same _ line hin)
      (rideOn_length dictLines A B line stations h1 h2 h3 (le_of_lt (hbound _ _ h1))).2
  constructor
  · rintro ⟨line, stations, h1, h2, h3⟩
    have hride : ∃ x st, mapFind dictLines x = some st ∧
        same.foldl (fun best line => keepShorter best (rideOn dictLines A B line))
          SubwayPath.invalid
          = ⟨[x], [segmentOf st (indexOf st A) (indexOf st B)]⟩ := by
      rcases foldl_keepShorter_mem (fun line => rideOn dictLines A B line) same
        SubwayPath.invalid with h | ⟨x, hx, h⟩
      · have := hle line stations h1 h2 h3
        rw [h] at this
        have hb := hbound line stations h1
        have : SubwayPath.invalid.length = INT32_MAX := rfl
        omega
      · obtain ⟨st, hst, _, _⟩ := (hmem x).mp hx
        exact ⟨x, st, hst, by rw [h, rideOn_eq dictLines A B x st hst]⟩
    obtain ⟨x, st, _, hres⟩ := hride
    refine ⟨_, rfl, ?_, ?_, ?_, hle, ?_⟩
    · rw [hres]; rfl
    · rw [hres]; rfl
    · rw [hres]; rfl
    · intro longest st hl hAl hBl _
      exact hle longest st hl hAl hBl
  · intro hno
    have : same = [] := by
      apply List.eq_nil_iff_forall_not_mem.mpr
      intro line hl
      obtain ⟨st, h⟩ := (hmem line).mp hl
      exact hno ⟨line, st, h⟩
    rw [this]
    rfl

theorem getBestOneLinePath_spec_witness :
    ∃ p : SubwayPath,
      (SubwayNetwork.new crossingLines).getBestOneLinePath "E" "C" = .ok p ∧
      p.isInvalid = false ∧ p.lines_.length = 1 ∧ p.stations_.length = 1 ∧
      p.length ≤ (["C", "D", "E"] : StringArray).length :=
  have h := (getBestOneLinePath_spec crossingLines (by decide) (by decide) "E" "C"
    (by decide) (by decide)).1 ⟨"L2", ["C", "D", "E"], by decide, by decide, by decide⟩
  h.imp fun _ hp => ⟨hp.1, hp.2.1, hp.2.2.1, hp.2.2.2.1,
    hp.2.2.2.2.1 "L2" ["C", "D", "E"] (by decide) (by decide) (by decide)⟩

/-! ## Routes of the network -/

/-- C3, refuted as stated: on the network of `detourLines`, whose lines repeat
no station, `getBestPath(A, B)` returns the ride of 6 stations along `L1`,
although `A, P, Q, B` is a route of 4 stations. -/
theorem getBestPath_not_shortest :
    (∀ it ∈ detourLines, it.2.Nodup) ∧
    (SubwayNetwork.new detourLines).hasStation "A" = true ∧
    (SubwayNetwork.new detourLines).hasStation "B" = true ∧
    (∀ fuel, (SubwayNetwork.new detourLines).getBestPath (fuel + 1) "A" "B"
      = .ok ⟨["L1"], [["A", "X1", "X2", "X3", "X4", "B"]]⟩) ∧
    (SubwayPath.mk ["L1"] [["A", "X1", "X2", "X3", "X4", "B"]]).isInvalid = false ∧
    (SubwayPath.mk ["L1"] [["A", "X1", "X2", "X3", "X4", "B"]]).length = 6 ∧
    IsRoute detourLines "A" "B" ["A", "P", "Q", "B"] ∧
    (["A", "P", "Q", "B"] : StringArray).length = 4 :=
  ⟨by decide, by decide, by decide, fun _ => rfl, rfl, by decide,
    ⟨rfl, rfl, List.Chain.cons (by decide) (List.Chain.cons (by decide)
      (List.Chain.cons (by decide) List.Chain.nil))⟩, rfl⟩

/-! ## A segment of a line is a route -/

theorem nextOn_symm (stations : StringArray) (s t : String) (h : nextOn stations s t) :
    nextOn stations t s := Or.symm h

theorem adjacent_symm (dictLines : DictLines) (s t : String) (h : adjacent dictLines s t) :
    adjacent dictLines t s := by
  obtain ⟨it, hit, hn⟩ := h
  exact ⟨it, hit, nextOn_symm _ _ _ hn⟩

theorem nextOn_getD (stations : StringArray) (i : Nat) (h : i + 1 < stations.length) :
    nextOn stations (stations.getD i "") (stations.getD (i + 1) "") := by
  left
  rw [List.mem_iff_getElem]
  have hz : i < (stations.zip stations.tail).length := by
    simp only [List.length_zip, List.length_tail]
    omega
  refine ⟨i, hz, ?_⟩
  have h1 : i < stations.length := by omega
  simp [List.getElem_zip, List.getD_eq_getElem?_getD, List.getElem?_eq_getElem h,
    List.getElem?_eq_getElem h1]

theorem chain_range' (stations : StringArray) (n s : Nat) (h : s + n ≤ stations.length) :
    ((List.range' s n).map (fun i => stations.getD i "")).Chain' (nextOn stations) := by
  induction n generalizing s with
  | zero => simp
  | succ n ih =>
    rw [List.range'_succ, List.map_cons, List.chain'_cons']
    refine ⟨?_, ih (s + 1) (by omega)⟩
    intro y hy
    cases n with
    | zero => simp at hy
    | succ m =>
      rw [List.range'_succ, List.map_cons, List.head?_cons] at hy
      cases hy
      exact nextOn_getD stations s (by omega)

theorem chain_segmentOf (stations : StringArray) (iA iB : Nat) (hA : iA < stations.length)
    (hB : iB < stations.length) : (segmentOf stations iA iB).Chain' (nextOn stations) := by
  unfold segmentOf
  split
  · exact chain_range' stations _ _ (by omega)
  · rw [List.map_reverse, List.chain'_reverse]
    refine List.Chain'.imp ?_ (chain_range' stations _ _ (by omega))
    intro a b hab
    exact nextOn_symm _ _ _ hab

theorem mem_of_mapFind {V : Type} (dict : Dict V) (key : String) (v : V)
    (h : mapFind dict key = some v) : (key, v) ∈ dict := by
  induction dict with
  | nil => simp [mapFind] at h
  | cons e rest ih =>
    obtain ⟨k0, v0⟩ := e
    unfold mapFind at h
    by_cases hk : key = k0
    · simp only [hk, if_true, Option.some.injEq] at h
      simp [hk, h]
    · simp only [hk, if_false] at h
      exact List.mem_cons_of_mem _ (ih h)

theorem isRoute_segmentOf (dictLines : DictLines) (line A B : String) (stations : StringArray)
    (hline : mapFind dictLines line = some stations) (hA : A ∈ stations) (hB : B ∈ stations) :
    IsRoute dictLines A B (segmentOf stations (indexOf stations A) (indexOf stations B)) := by
  have hiA : indexOf stations A < stations.length := List.indexOf_lt_length.mpr hA
  have hiB : indexOf stations B < stations.length := List.indexOf_lt_length.mpr hB
  refine ⟨?_, ?_, ?_⟩
  · rw [segmentOf_head, getD_indexOf _ _ hA]
  · rw [segmentOf_getLast, getD_indexOf _ _ hB]
  · refine List.Chain'.imp ?_ (chain_segmentOf stations _ _ hiA hiB)
    intro a b hab
    exact ⟨(line, stations), mem_of_mapFind _ _ _ hline, hab⟩

/-! ## Valid routes lead from the start to the goal -/

theorem leads_invalid (dictLines : DictLines) (A B : String) :
    Leads dictLines A B SubwayPath.invalid := by
  intro h
  simp [SubwayPath.invalid, SubwayPath.isInvalid] at h

theorem leads_keepShorter (dictLines : DictLines) (A B : String) (best path : SubwayPath)
    (h1 : Leads dictLines A B best) (h2 : Leads dictLines A B path) :
    Leads dictLines A B (keepShorter best path) := by
  unfold keepShorter
  split
  · exact h2
  · exact h1

theorem visitedAfter_append (l1 l2 : List StringArray) :
    visitedAfter (l1 ++ l2) = visitedAfter l1 ++ visitedAfter l2 := by
  induction l1 with
  | nil => rfl
  | cons a r ih => simp [visitedAfter, ih]

theorem isRoute_append (dictLines : DictLines) (A T B : String) (w1 w2 : StringArray)
    (h1 : IsRoute dictLines A T w1) (h2 : IsRoute dictLines T B w2) :
    IsRoute dictLines A B (w1 ++ w2.tail) := by
  obtain ⟨ha, ht, hc1⟩ := h1
  obtain ⟨ht2, hb, hc2⟩ := h2
  cases w2 with
  | nil => simp at ht2
  | cons x rest =>
    simp only [List.head?_cons, Option.some.injEq] at ht2
    subst ht2
    simp only [List.tail_cons]
    have hw1 : w1 ≠ [] := by
      intro e; subst e; simp at ha
    refine ⟨?_, ?_, ?_⟩
    · rw [List.head?_append_of_ne_nil _ hw1]
      exact ha
    · cases rest with
      | nil =>
        simp only [List.append_nil]
        simp only [List.getLast?_singleton, Option.some.injEq] at hb
        rw [ht, hb]
      | cons y r =>
        rw [List.getLast?_append_of_ne_nil _ (by simp)]
        rw [List.getLast?_cons_cons] at hb
        exact hb
    · rw [List.chain'_append]
      refine ⟨hc1, hc2.tail, ?_⟩
      intro a haa b hbb
      rw [ht] at haa
      cases haa
      exact (List.chain'_cons'.mp hc2).1 b hbb

theorem stations_ne_nil (p : SubwayPath) (hv : p.isInvalid = false) (hwf : p.WellFormed) :
    p.stations_ ≠ [] := by
  intro h
  have h1 := hwf.1
  rw [h] at h1
  have : p.lines_ = [] := List.length_eq_zero.mp h1
  simp [SubwayPath.isInvalid, this] at hv

theorem leads_merge (dictLines : DictLines) (A T B : String) (p q : SubwayPath)
    (hp : Leads dictLines A T p) (hq : Leads dictLines T B q) :
    Leads dictLines A B (p.merge q) := by
  intro hv
  by_cases hpv : p.isInvalid = true
  · have : p.merge q = ⟨[], []⟩ := by simp [SubwayPath.merge, hpv]
    rw [this] at hv
    cases hv
  by_cases hqv : q.isInvalid = true
  · have : p.merge q = ⟨[], []⟩ := by simp [SubwayPath.merge, hqv]
    rw [this] at hv
    cases hv
  simp only [Bool.not_eq_true] at hpv hqv
  obtain ⟨wfp, rp⟩ := hp hpv
  obtain ⟨wfq, rq⟩ := hq hqv
  have hm : p.merge q = ⟨p.lines_ ++ q.lines_, p.stations_ ++ q.stations_⟩ := by
    simp [SubwayPath.merge, hpv, hqv]
  rw [hm]
  refine ⟨⟨by simp [wfp.1, wfq.1], ?_⟩, ?_⟩
  · intro s hs
    rcases List.mem_append.mp hs with h | h
    · exact wfp.2 s h
    · exact wfq.2 s h
  · have hps := stations_ne_nil p hpv wfp
    have hqs := stations_ne_nil q hqv wfq
    cases hp1 : p.stations_ with
    | nil => exact absurd hp1 hps
    | cons f r =>
      cases hq1 : q.stations_ with
      | nil => exact absurd hq1 hqs
      | cons g r2 =>
        have hg : g ≠ [] := wfq.2 g (by simp [hq1])
        have hvis : (SubwayPath.mk (p.lines_ ++ q.lines_) (f :: r ++ g :: r2)).visited
            = p.visited ++ q.visited.tail := by
          simp only [SubwayPath.visited, hp1, hq1, List.cons_append, visitedAfter_append,
            visitedAfter, List.tail_append_of_ne_nil hg, List.append_assoc]
        rw [hvis]
        exact isRoute_append dictLines A T B _ _ rp rq

theorem length_visitedAfter (l : List StringArray) :
    (visitedAfter l).length = (l.map (fun s => s.length - 1)).sum := by
  induction l with
  | nil => rfl
  | cons a r ih => simp [visitedAfter, ih]

theorem length_visited (p : SubwayPath) (hv : p.isInvalid = false) (hwf : p.WellFormed) :
    p.visited.length = stationCount p.stations_ := by
  have hs := stations_ne_nil p hv hwf
  cases h1 : p.stations_ with
  | nil => exact absurd h1 hs
  | cons f r =>
    have hf : f ≠ [] := hwf.2 f (by simp [h1])
    have : 1 ≤ f.length := List.length_pos.mpr hf
    simp only [SubwayPath.visited, h1, stationCount, List.length_append, length_visitedAfter,
      List.map_cons, List.sum_cons]
    omega

/-! ## Reading the result of a call that returned -/

theorem bind_eq_ok {α β : Type} (x : Except Fault α) (f : α → Except Fault β) (r : β)
    (h : (x >>= f) = .ok r) : ∃ a, x = .ok a ∧ f a = .ok r := by
  cases x with
  | error e => simp [error_bind] at h
  | ok a => exact ⟨a, rfl, h⟩

theorem pure_eq_ok {α : Type} (a r : α) (h : (pure a : Except Fault α) = .ok r) : a = r := by
  cases h; rfl

/-- A property that holds before a loop and is kept by every round that does
not fault holds of the result, if the loop returns. -/
theorem foldlM_inv {α β : Type} (P : β → Prop) (f : β → α → Except Fault β) (l : List α)
    (init r : β) (h : l.foldlM f init = .ok r) (h0 : P init)
    (hstep : ∀ acc x acc', x ∈ l → P acc → f acc x = .ok acc' → P acc') : P r := by
  induction l generalizing init with
  | nil => cases h; exact h0
  | cons a rest ih =>
    rw [List.foldlM_cons] at h
    obtain ⟨b, hb, h2⟩ := bind_eq_ok _ _ _ h
    exact ih b h2 (hstep init a b (by simp) h0 hb)
      (fun acc x acc' hx => hstep acc x acc' (by simp [hx]))

theorem mapAt_new (dictLines : DictLines) (hk : (dictLines.map Prod.fst).Nodup)
    (s : String) (node : SubwayNode)
    (h : mapAt (SubwayNetwork.new dictLines).dictNodes_ s = .ok node) :
    node = ⟨s, linesOf dictLines s⟩ := by
  unfold mapAt at h
  rw [new_dictNodes dictLines hk] at h
  by_cases hs : isStationOf dictLines s
  · simp only [hs, if_true] at h
    cases h; rfl
  · simp only [hs, if_false] at h
    cases h

theorem getSameLines_shared (dictLines : DictLines) (hk : (dictLines.map Prod.fst).Nodup)
    (A B : String) (sameLines : StringArray)
    (h : (SubwayNetwork.new dictLines).getSameLines A B = .ok sameLines) :
    ∀ line ∈ sameLines,
      ∃ stations, mapFind dictLines line = some stations ∧ A ∈ stations ∧ B ∈ stations := by
  unfold SubwayNetwork.getSameLines at h
  obtain ⟨nodeA, hA, h⟩ := bind_eq_ok _ _ _ h
  have hnA := mapAt_new dictLines hk A nodeA hA
  subst hnA
  refine foldlM_inv (fun acc : StringArray => ∀ line ∈ acc,
      ∃ stations, mapFind dictLines line = some stations ∧ A ∈ stations ∧ B ∈ stations)
    _ _ _ _ h (by simp) ?_
  intro acc line acc' hline hacc hstep
  obtain ⟨nodeB, hB, hstep⟩ := bind_eq_ok _ _ _ hstep
  have hnB := mapAt_new dictLines hk B nodeB hB
  subst hnB
  have hacc' := pure_eq_ok _ _ hstep
  subst hacc'
  intro l hl
  by_cases hon : (SubwayNode.mk B (linesOf dictLines B)).isOnLine line = true
  · simp only [hon, if_true, List.mem_append, List.mem_singleton] at hl
    rcases hl with hl | hl
    · exact hacc l hl
    · subst hl
      simp only [SubwayNode.isOnLine, contain, decide_eq_true_eq] at hon
      obtain ⟨st, h1, h2⟩ := (mem_linesOf dictLines hk A l).mp hline
      obtain ⟨st2, h3, h4⟩ := (mem_linesOf dictLines hk B l).mp hon
      rw [h1] at h3
      cases h3
      exact ⟨st, h1, h2, h4⟩
  · simp only [hon, if_false] at hl
    exact hacc l hl

theorem getBestOneLinePath_leads (dictLines : DictLines)
    (hk : (dictLines.map Prod.fst).Nodup) (A B : String) (p : SubwayPath)
    (h : (SubwayNetwork.new dictLines).getBestOneLinePath A B = .ok p) :
    Leads dictLines A B p := by
  unfold SubwayNetwork.getBestOneLinePath at h
  obtain ⟨same, hsame, h⟩ := bind_eq_ok _ _ _ h
  have hshared := getSameLines_shared dictLines hk A B same hsame
  by_cases he : same.isEmpty = true
  · simp only [he, if_true] at h
    rw [← pure_eq_ok _ _ h]
    exact leads_invalid _ _ _
  · simp only [he, if_false] at h
    refine foldlM_inv (Leads dictLines A B) _ _ _ _ h (leads_invalid _ _ _) ?_
    intro acc line acc' hline hacc hstep
    obtain ⟨between, hb, hstep⟩ := bind_eq_ok _ _ _ hstep
    have hacc' := pure_eq_ok _ _ hstep
    subst hacc'
    obtain ⟨st, h1, h2, h3⟩ := hshared line hline
    rw [getBetweenStations_ok _ line A B st h1 h2 h3] at hb
    cases hb
    refine leads_keepShorter _ _ _ acc _ hacc ?_
    rw [single_eq _ _ (segmentOf_ne_nil _ _ _)]
    intro _
    have hvis : (SubwayPath.mk [line] [segmentOf st (indexOf st A) (indexOf st B)]).visited
        = segmentOf st (indexOf st A) (indexOf st B) := by
      simp [SubwayPath.visited, visitedAfter]
    rw [hvis]
    refine ⟨⟨rfl, ?_⟩, isRoute_segmentOf dictLines line A B st h1 h2 h3⟩
    intro s hs
    simp only [List.mem_singleton] at hs
    rw [hs]
    exact segmentOf_ne_nil _ _ _

theorem getBestTwoLinesPath_leads (dictLines : DictLines)
    (hk : (dictLines.map Prod.fst).Nodup) (A B : String) (p : SubwayPath)
    (h : (SubwayNetwork.new dictLines).getBestTwoLinesPath A B = .ok p) :
    Leads dictLines A B p := by
  unfold SubwayNetwork.getBestTwoLinesPath at h
  obtain ⟨plans, _, h⟩ := bind_eq_ok _ _ _ h
  by_cases he : plans.isEmpty = true
  · simp only [he, if_true] at h
    rw [← pure_eq_ok _ _ h]
    exact leads_invalid _ _ _
  · simp only [he, if_false] at h
    refine foldlM_inv (Leads dictLines A B) _ _ _ _ h (leads_invalid _ _ _) ?_
    intro acc plan acc' _ hacc hstep
    obtain ⟨p1, h1, hstep⟩ := bind_eq_ok _ _ _ hstep
    obtain ⟨p2, h2, hstep⟩ := bind_eq_ok _ _ _ hstep
    have hacc' := pure_eq_ok _ _ hstep
    subst hacc'
    exact leads_keepShorter _ _ _ acc _ hacc
      (leads_merge dictLines A plan.stationT B p1 p2
        (getBestOneLinePath_leads dictLines hk _ _ p1 h1)
        (getBestOneLinePath_leads dictLines hk _ _ p2 h2))

theorem getBestSimplePath_leads (dictLines : DictLines)
    (hk : (dictLines.map Prod.fst).Nodup) (A B : String) (p : SubwayPath)
    (h : (SubwayNetwork.new dictLines).getBestSimplePath A B = .ok p) :
    Leads dictLines A B p := by
  unfold SubwayNetwork.getBestSimplePath at h
  obtain ⟨p1, h1, h⟩ := bind_eq_ok _ _ _ h
  obtain ⟨p2, h2, h⟩ := bind_eq_ok _ _ _ h
  have hp := pure_eq_ok _ _ h
  subst hp
  exact leads_keepShorter _ _ _ _ _
    (leads_keepShorter _ _ _ _ _ (leads_invalid _ _ _)
      (getBestOneLinePath_leads dictLines hk _ _ p1 h1))
    (getBestTwoLinesPath_leads dictLines hk _ _ p2 h2)

theorem getRecursivePath1_leads (dictLines : DictLines)
    (hk : (dictLines.map Prod.fst).Nodup) (fuel : Nat) (A B : String) (p : SubwayPath)
    (h : (SubwayNetwork.new dictLines).getRecursivePath1 fuel A B = .ok p) :
    Leads dictLines A B p := by
  induction fuel generalizing A B p with
  | zero => cases h
  | succ n ih =>
    unfold SubwayNetwork.getRecursivePath1 at h
    obtain ⟨bestPath, hs, h⟩ := bind_eq_ok _ _ _ h
    have hbest := getBestSimplePath_leads dictLines hk A B bestPath hs
    by_cases hv : bestPath.isInvalid = true
    · simp only [hv, Bool.not_true, Bool.false_eq_true, if_false] at h
      obtain ⟨stationATs, _, h⟩ := bind_eq_ok _ _ _ h
      refine foldlM_inv (Leads dictLines A B) _ _ _ _ h hbest ?_
      intro acc stationAT acc' _ hacc hstep
      obtain ⟨p1, h1, hstep⟩ := bind_eq_ok _ _ _ hstep
      obtain ⟨p2, h2, hstep⟩ := bind_eq_ok _ _ _ hstep
      have hacc' := pure_eq_ok _ _ hstep
      subst hacc'
      exact leads_keepShorter _ _ _ acc _ hacc
        (leads_merge dictLines A stationAT B p1 p2
          (getBestOneLinePath_leads dictLines hk _ _ p1 h1) (ih _ _ p2 h2))
    · simp only [hv, Bool.not_false, if_true] at h
      rw [← pure_eq_ok _ _ h]
      exact hbest

theorem getRecursivePath2_leads (dictLines : DictLines)
    (hk : (dictLines.map Prod.fst).Nodup) (fuel : Nat) (A B : String) (p : SubwayPath)
    (h : (SubwayNetwork.new dictLines).getRecursivePath2 fuel A B = .ok p) :
    Leads dictLines A B p := by
  induction fuel generalizing A B p with
  | zero => cases h
  | succ n ih =>
    unfold SubwayNetwork.getRecursivePath2 at h
    obtain ⟨bestPath, hs, h⟩ := bind_eq_ok _ _ _ h
    have hbest := getBestSimplePath_leads dictLines hk A B bestPath hs
    by_cases hv : bestPath.isInvalid = true
    · simp only [hv, Bool.not_true, Bool.false_eq_true, if_false] at h
      obtain ⟨stationBTs, _, h⟩ := bind_eq_ok _ _ _ h
      refine foldlM_inv (Leads dictLines A B) _ _ _ _ h hbest ?_
      intro acc stationBT acc' _ hacc hstep
      obtain ⟨p1, h1, hstep⟩ := bind_eq_ok _ _ _ hstep
      obtain ⟨p2, h2, hstep⟩ := bind_eq_ok _ _ _ hstep
      have hacc' := pure_eq_ok _ _ hstep
      subst hacc'
      exact leads_keepShorter _ _ _ acc _ hacc
        (leads_merge dictLines A stationBT B p1 p2 (ih _ _ p1 h1)
          (getBestOneLinePath_leads dictLines hk _ _ p2 h2))
    · simp only [hv, Bool.not_false, if_true] at h
      rw [← pure_eq_ok _ _ h]
      exact hbest

theorem getRecursivePath3_leads (dictLines : DictLines)
    (hk : (dictLines.map Prod.fst).Nodup) (fuel : Nat) (A B : String) (p : SubwayPath)
    (h : (SubwayNetwork.new dictLines).getRecursivePath3 fuel A B = .ok p) :
    Leads dictLines A B p := by
  induction fuel generalizing A B p with
  | zero => cases h
  | succ n ih =>
    unfold SubwayNetwork.getRecursivePath3 at h
    obtain ⟨bestPath, hs, h⟩ := bind_eq_ok _ _ _ h
    have hbest := getBestSimplePath_leads dictLines hk A B bestPath hs
    by_cases hv : bestPath.isInvalid = true
    · simp only [hv, Bool.not_true, Bool.false_eq_true, if_false] at h
      obtain ⟨stationATs, _, h⟩ := bind_eq_ok _ _ _ h
      obtain ⟨stationBTs, _, h⟩ := bind_eq_ok _ _ _ h
      refine foldlM_inv (Leads dictLines A B) _ _ _ _ h hbest ?_
      intro accA stationAT accA' _ haccA hstepA
      refine foldlM_inv (Leads dictLines A B) _ _ _ _ hstepA haccA ?_
      intro acc stationBT acc' _ hacc hstep
      obtain ⟨p1, h1, hstep⟩ := bind_eq_ok _ _ _ hstep
      obtain ⟨p2, h2, hstep⟩ := bind_eq_ok _ _ _ hstep
      obtain ⟨p3, h3, hstep⟩ := bind_eq_ok _ _ _ hstep
      have hacc' := pure_eq_ok _ _ hstep
      subst hacc'
      exact leads_keepShorter _ _ _ acc _ hacc
        (leads_merge dictLines A stationBT B _ p3
          (leads_merge dictLines A stationAT stationBT p1 p2
            (getBestOneLinePath_leads dictLines hk _ _ p1 h1) (ih _ _ p2 h2))
          (getBestOneLinePath_leads dictLines hk _ _ p3 h3))
    · simp only [hv, Bool.not_false, if_true] at h
      rw [← pure_eq_ok _ _ h]
      exact hbest

theorem getBestPath_leads (dictLines : DictLines)
    (hk : (dictLines.map Prod.fst).Nodup) (fuel : Nat) (A B : String) (p : SubwayPath)
    (h : (SubwayNetwork.new dictLines).getBestPath fuel A B = .ok p) :
    Leads dictLines A B p := by
  unfold SubwayNetwork.getBestPath at h
  obtain ⟨p1, h1, h⟩ := bind_eq_ok _ _ _ h
  obtain ⟨p2, h2, h⟩ := bind_eq_ok _ _ _ h
  obtain ⟨p3, h3, h⟩ := bind_eq_ok _ _ _ h
  have hp := pure_eq_ok _ _ h
  subst hp
  exact leads_keepShorter _ _ _ _ _
    (leads_keepShorter _ _ _ _ _
      (leads_keepShorter _ _ _ _ _ (leads_invalid _ _ _)
        (getRecursivePath1_leads dictLines hk fuel _ _ p1 h1))
      (getRecursivePath2_leads dictLines hk fuel _ _ p2 h2))
    (getRecursivePath3_leads dictLines hk fuel _ _ p3 h3)

/-- C3, amended: in a constructed network, a valid route returned by
`getBestPath(A, B)` visits a route from `A` to `B` of the network, of as many
stations as the sum `1 + Σ (segment size - 1)`, which is its `length()` when that
number fits `int`. So `length()` is the station count of a route from `A` to
`B`, at least the minimum over all routes; it need not be the minimum. -/
theorem getBestPath_isRoute (dictLines : DictLines)
    (hk : (dictLines.map Prod.fst).Nodup) (fuel : Nat) (A B : String) (p : SubwayPath)
    (h : (SubwayNetwork.new dictLines).getBestPath fuel A B = .ok p)
    (hv : p.isInvalid = false) :
    IsRoute dictLines A B p.visited ∧
    p.visited.length = stationCount p.stations_ ∧
    ((stationCount p.stations_ : Int) ≤ INT32_MAX → p.length = p.visited.length) := by
  obtain ⟨hwf, hroute⟩ := getBestPath_leads dictLines hk fuel A B p h hv
  refine ⟨hroute, length_visited p hv hwf, ?_⟩
  intro hfit
  rw [p.length_eq_stationCount hv hwf hfit, length_visited p hv hwf]

theorem getBestPath_isRoute_witness :
    IsRoute detourLines "A" "B"
      (SubwayPath.mk ["L1"] [["A", "X1", "X2", "X3", "X4", "B"]]).visited ∧
    (SubwayPath.mk ["L1"] [["A", "X1", "X2", "X3", "X4", "B"]]).visited.length
      = stationCount [["A", "X1", "X2", "X3", "X4", "B"]] ∧
    ((stationCount [["A", "X1", "X2", "X3", "X4", "B"]] : Int) ≤ INT32_MAX →
      (SubwayPath.mk ["L1"] [["A", "X1", "X2", "X3", "X4", "B"]]).length
        = (SubwayPath.mk ["L1"] [["A", "X1", "X2", "X3", "X4", "B"]]).visited.length) :=
  getBestPath_isRoute detourLines (by decide) 1 "A" "B"
    ⟨["L1"], [["A", "X1", "X2", "X3", "X4", "B"]]⟩ (by decide) rfl

/-! ## A larger recursion budget keeps the result -/

theorem foldlM_mono {α β : Type} (f g : β → α → Except Fault β) (l : List α) (init r : β)
    (hfg : ∀ acc x r, f acc x = .ok r → g acc x = .ok r)
    (h : l.foldlM f init = .ok r) : l.foldlM g init = .ok r := by
  induction l generalizing init with
  | nil => exact h
  | cons a rest ih =>
    rw [List.foldlM_cons] at h ⊢
    obtain ⟨b, hb, h2⟩ := bind_eq_ok _ _ _ h
    rw [hfg init a b hb, ok_bind]
    exact ih b h2

theorem getRecursivePath1_mono (net : SubwayNetwork) (fuel : Nat) (A B : String)
    (p : SubwayPath) (h : net.getRecursivePath1 fuel A B = .ok p) :
    net.getRecursivePath1 (fuel + 1) A B = .ok p := by
  induction fuel generalizing A B p with
  | zero => cases h
  | succ n ih =>
    rw [SubwayNetwork.getRecursivePath1] at h ⊢
    obtain ⟨bestPath, hs, h⟩ := bind_eq_ok _ _ _ h
    rw [hs, ok_bind]
    by_cases hv : bestPath.isInvalid = true
    · simp only [hv, Bool.not_true, Bool.false_eq_true, if_false] at h ⊢
      obtain ⟨stationATs, hn, h⟩ := bind_eq_ok _ _ _ h
      rw [hn, ok_bind]
      refine foldlM_mono _ _ _ _ _ ?_ h
      intro acc stationAT r hstep
      obtain ⟨p1, h1, hstep⟩ := bind_eq_ok _ _ _ hstep
      obtain ⟨p2, h2, hstep⟩ := bind_eq_ok _ _ _ hstep
      rw [h1, ok_bind, ih _ _ p2 h2, ok_bind]
      exact hstep
    · simp only [hv, Bool.not_false, if_true] at h ⊢
      exact h

theorem getRecursivePath2_mono (net : SubwayNetwork) (fuel : Nat) (A B : String)
    (p : SubwayPath) (h : net.getRecursivePath2 fuel A B = .ok p) :
    net.getRecursivePath2 (fuel + 1) A B = .ok p := by
  induction fuel generalizing A B p with
  | zero => cases h
  | succ n ih =>
    rw [SubwayNetwork.getRecursivePath2] at h ⊢
    obtain ⟨bestPath, hs, h⟩ := bind_eq_ok _ _ _ h
    rw [hs, ok_bind]
    by_cases hv : bestPath.isInvalid = true
    · simp only [hv, Bool.not_true, Bool.false_eq_true, if_false] at h ⊢
      obtain ⟨stationBTs, hn, h⟩ := bind_eq_ok _ _ _ h
      rw [hn, ok_bind]
      refine foldlM_mono _ _ _ _ _ ?_ h
      intro acc stationBT r hstep
      obtain ⟨p1, h1, hstep⟩ := bind_eq_ok _ _ _ hstep
      rw [ih _ _ p1 h1, ok_bind]
      exact hstep
    · simp only [hv, Bool.not_false, if_true] at h ⊢
      exact h

theorem getRecursivePath3_mono (net : SubwayNetwork) (fuel : Nat) (A B : String)
    (p : SubwayPath) (h : net.getRecursivePath3 fuel A B = .ok p) :
    net.getRecursivePath3 (fuel + 1) A B = .ok p := by
  induction fuel generalizing A B p with
  | zero => cases h
  | succ n ih =>
    rw [SubwayNetwork.getRecursivePath3] at h ⊢
    obtain ⟨bestPath, hs, h⟩ := bind_eq_ok _ _ _ h
    rw [hs, ok_bind]
    by_cases hv : bestPath.isInvalid = true
    · simp only [hv, Bool.not_true, Bool.false_eq_true, if_false] at h ⊢
      obtain ⟨stationATs, hn, h⟩ := bind_eq_ok _ _ _ h
      obtain ⟨stationBTs, hm, h⟩ := bind_eq_ok _ _ _ h
      rw [hn, ok_bind, hm, ok_bind]
      refine foldlM_mono _ _ _ _ _ ?_ h
      intro accA stationAT rA hstepA
      refine foldlM_mono _ _ _ _ _ ?_ hstepA
      intro acc stationBT r hstep
      obtain ⟨p1, h1, hstep⟩ := bind_eq_ok _ _ _ hstep
      obtain ⟨p2, h2, hstep⟩ := bind_eq_ok _ _ _ hstep
      rw [h1, ok_bind, ih _ _ p2 h2, ok_bind]
      exact hstep
    · simp only [hv, Bool.not_false, if_true] at h ⊢
      exact h

/-- Once `getBestPath` returns with some recursion budget, it returns the same
route with every larger budget. -/
theorem getBestPath_mono (net : SubwayNetwork) (fuel extra : Nat) (A B : String)
    (p : SubwayPath) (h : net.getBestPath fuel A B = .ok p) :
    net.getBestPath (fuel + extra) A B = .ok p := by
  induction extra with
  | zero => exact h
  | succ k ih =>
    unfold SubwayNetwork.getBestPath at ih ⊢
    obtain ⟨p1, h1, ih⟩ := bind_eq_ok _ _ _ ih
    obtain ⟨p2, h2, ih⟩ := bind_eq_ok _ _ _ ih
    obtain ⟨p3, h3, ih⟩ := bind_eq_ok _ _ _ ih
    rw [← Nat.add_assoc, getRecursivePath1_mono net _ A B p1 h1, ok_bind,
      getRecursivePath2_mono net _ A B p2 h2, ok_bind,
      getRecursivePath3_mono net _ A B p3 h3, ok_bind]
    exact ih

/-! ## The registry invariant -/

theorem one_lt_length_iff {α : Type} (l : List α) (hn : l.Nodup) :
    1 < l.length ↔ ∃ a b, a ≠ b ∧ a ∈ l ∧ b ∈ l := by
  constructor
  · intro h
    match l, hn, h with
    | a :: b :: rest, hn, _ =>
      refine ⟨a, b, ?_, by simp, by simp⟩
      intro e
      subst e
      simp at hn
  · rintro ⟨a, b, hab, ha, hb⟩
    match l, ha, hb with
    | [x], ha, hb =>
      simp only [List.mem_singleton] at ha hb
      exact absurd (ha.trans hb.symm) hab
    | x :: y :: rest, _, _ => simp

theorem isTransStation_iff (dictLines : DictLines) (hk : (dictLines.map Prod.fst).Nodup)
    (s : String) :
    (SubwayNode.mk s (linesOf dictLines s)).isTransStation = true ↔
      ∃ l1 l2 st1 st2, l1 ≠ l2 ∧ mapFind dictLines l1 = some st1 ∧ s ∈ st1 ∧
        mapFind dictLines l2 = some st2 ∧ s ∈ st2 := by
  simp only [SubwayNode.isTransStation, gt_iff_lt, decide_eq_true_eq]
  rw [one_lt_length_iff _ (nodup_linesOf dictLines hk s)]
  constructor
  · rintro ⟨a, b, hab, ha, hb⟩
    obtain ⟨st1, h1, h2⟩ := (mem_linesOf dictLines hk s a).mp ha
    obtain ⟨st2, h3, h4⟩ := (mem_linesOf dictLines hk s b).mp hb
    exact ⟨a, b, st1, st2, hab, h1, h2, h3, h4⟩
  · rintro ⟨a, b, st1, st2, hab, h1, h2, h3, h4⟩
    exact ⟨a, b, hab, (mem_linesOf dictLines hk s a).mpr ⟨st1, h1, h2⟩,
      (mem_linesOf dictLines hk s b).mpr ⟨st2, h3, h4⟩⟩

theorem isStationOf_iff (dictLines : DictLines) (hk : (dictLines.map Prod.fst).Nodup)
    (s : String) :
    isStationOf dictLines s ↔
      ∃ line stations, mapFind dictLines line = some stations ∧ s ∈ stations := by
  constructor
  · rintro ⟨⟨l, st⟩, hmem, hs⟩
    exact ⟨l, st, (mapFind_iff_mem dictLines hk l st).mpr hmem, hs⟩
  · rintro ⟨l, st, hf, hs⟩
    exact ⟨(l, st), mem_of_mapFind _ _ _ hf, hs⟩

/-- C11: in the network built from a line map, a name is a key of `dictNodes_`
exactly when it occurs in the sequence of some line; the node of a station `s`
satisfies `isOnLine(l)` exactly when `s` occurs in `dictLines_[l]`, its line list
has no duplicate, and `isTransStation()` holds exactly when `s` occurs in two
different lines. -/
theorem new_registry (dictLines : DictLines) (hk : (dictLines.map Prod.fst).Nodup) :
    (∀ s, mapContain (SubwayNetwork.new dictLines).dictNodes_ s = true ↔
      ∃ line stations,
        mapFind (SubwayNetwork.new dictLines).dictLines_ line = some stations ∧ s ∈ stations) ∧
    (∀ s node, mapFind (SubwayNetwork.new dictLines).dictNodes_ s = some node →
      (∀ l, node.isOnLine l = true ↔
        ∃ stations, mapFind (SubwayNetwork.new dictLines).dictLines_ l = some stations ∧
          s ∈ stations) ∧
      node.lines.Nodup ∧
      (node.isTransStation = true ↔
        ∃ l1 l2 st1 st2, l1 ≠ l2 ∧
          mapFind (SubwayNetwork.new dictLines).dictLines_ l1 = some st1 ∧ s ∈ st1 ∧
          mapFind (SubwayNetwork.new dictLines).dictLines_ l2 = some st2 ∧ s ∈ st2)) := by
  rw [new_dictLines]
  constructor
  · intro s
    rw [← isStationOf_iff dictLines hk]
    exact hasStation_iff dictLines hk s
  · intro s node hnode
    rw [new_dictNodes dictLines hk] at hnode
    by_cases hs : isStationOf dictLines s
    · simp only [hs, if_true, Option.some.injEq] at hnode
      subst hnode
      refine ⟨?_, nodup_linesOf dictLines hk s, isTransStation_iff dictLines hk s⟩
      intro l
      simp only [SubwayNode.isOnLine, contain, decide_eq_true_eq]
      exact mem_linesOf dictLines hk s l
    · simp only [hs, if_false] at hnode
      cases hnode

theorem new_registry_witness :
    (∀ s, mapContain (SubwayNetwork.new crossingLines).dictNodes_ s = true ↔
      ∃ line stations,
        mapFind (SubwayNetwork.new crossingLines).dictLines_ line = some stations ∧
          s ∈ stations) ∧
    (∀ s node, mapFind (SubwayNetwork.new crossingLines).dictNodes_ s = some node →
      (∀ l, node.isOnLine l = true ↔
        ∃ stations, mapFind (SubwayNetwork.new crossingLines).dictLines_ l = some stations ∧
          s ∈ stations) ∧
      node.lines.Nodup ∧
      (node.isTransStation = true ↔
        ∃ l1 l2 st1 st2, l1 ≠ l2 ∧
          mapFind (SubwayNetwork.new crossingLines).dictLines_ l1 = some st1 ∧ s ∈ st1 ∧
          mapFind (SubwayNetwork.new crossingLines).dictLines_ l2 = some st2 ∧ s ∈ st2)) :=
  new_registry crossingLines (by decide)

/-! ## Rendering a route -/

theorem foldl_push_sep (sep : String) (l init : List String) :
    l.foldl (fun out s => out ++ [sep, s]) init = init ++ l.flatMap (fun s => [sep, s]) := by
  induction l generalizing init with
  | nil => simp
  | cons a rest ih =>
    rw [List.foldl_cons, ih]
    simp

theorem intersperse_cons (sep a : String) (l : List String) :
    List.intersperse sep (a :: l) = a :: l.flatMap (fun s => [sep, s]) := by
  induction l generalizing a with
  | nil => rfl
  | cons b rest ih =>
    rw [List.intersperse_cons_cons, ih]
    simp

theorem map_getD_range' (lines : StringArray) (stations : List StringArray)
    (h : lines.length = stations.length) :
    (List.range' 1 (lines.length - 1)).map (fun l => (lines.getD l "", stations.getD l []))
      = (lines.drop 1).zip (stations.drop 1) := by
  apply List.ext_getElem
  · simp [h]
  · intro i h1 h2
    simp only [List.length_map, List.length_range'] at h1
    have hl : 1 + i < lines.length := by omega
    have hs : 1 + i < stations.length := by omega
    have hl2 : i + 1 < lines.length := by omega
    have hs2 : i + 1 < stations.length := by omega
    simp [List.getD_eq_getElem?_getD, Nat.add_comm 1 i, List.getElem?_eq_getElem hl2,
      List.getElem?_eq_getElem hs2]

theorem foldl_later (sep : String) (segments : List (String × StringArray))
    (init : List String) :
    segments.foldl (fun out it => out ++ [sep, it.1] ++ SubwayPath.outputTail sep it.2) init
      = init ++ (segments.flatMap (fun it => it.1 :: it.2.drop 1)).flatMap (fun s => [sep, s]) := by
  induction segments generalizing init with
  | nil => simp
  | cons a rest ih =>
    rw [List.foldl_cons, ih]
    simp [SubwayPath.outputTail, foldl_push_sep, List.flatMap_append]

theorem output_eq (p : SubwayPath) (sep : String) (hv : p.isInvalid = false)
    (hlen : p.lines_.length = p.stations_.length) :
    p.output sep = List.intersperse sep p.tokens := by
  have hloop : (List.range' 1 (p.lines_.length - 1)).foldl
      (fun out l => out ++ [sep, p.lines_.getD l ""]
        ++ SubwayPath.outputTail sep (p.stations_.getD l []))
      ([toString p.length] ++ (p.stations_.getD 0 []).flatMap (fun s => [sep, s]))
      = [toString p.length] ++ (p.stations_.getD 0 []).flatMap (fun s => [sep, s])
        ++ (laterTokens (p.lines_.drop 1) (p.stations_.drop 1)).flatMap (fun s => [sep, s]) := by
    have := List.foldl_map (fun l => (p.lines_.getD l "", p.stations_.getD l []))
      (fun (out : List String) (it : String × StringArray) =>
        out ++ [sep, it.1] ++ SubwayPath.outputTail sep it.2)
      (List.range' 1 (p.lines_.length - 1))
      ([toString p.length] ++ (p.stations_.getD 0 []).flatMap (fun s => [sep, s]))
    rw [map_getD_range' _ _ hlen, foldl_later] at this
    exact this.symm
  have hhead : p.stations_.getD 0 [] = p.stations_.headD [] := by
    cases p.stations_ <;> rfl
  unfold SubwayPath.output SubwayPath.tokens
  rw [intersperse_cons]
  simp only [hv, Bool.false_eq_true, if_false, foldl_push_sep]
  by_cases h1 : p.stations_.length > 1
  · simp only [h1, if_true]
    rw [hloop, hhead]
    simp [List.flatMap_append]
  · simp only [h1, if_false]
    have h0 : p.stations_.drop 1 = [] := by
      apply List.drop_eq_nil_of_le
      omega
    rw [h0, hhead]
    simp [laterTokens]

/-- C12: for a valid route whose two vectors have the same size, `output` writes
the tokens of the route with `sep` between them: the length, the stations of the
first segment, then for each later segment its line name and its stations
without the first; a route of one segment has no line-name token. For an invalid
route `output` writes exactly `ERROR`. -/
theorem output_tokens (p : SubwayPath) (sep : String)
    (hlen : p.lines_.length = p.stations_.length) :
    (p.isInvalid = false →
      p.output sep = List.intersperse sep p.tokens ∧
      p.tokens = toString p.length ::
        (p.stations_.headD [] ++
          ((p.lines_.drop 1).zip (p.stations_.drop 1)).flatMap (fun it => it.1 :: it.2.drop 1)) ∧
      (p.lines_.length = 1 → p.tokens = toString p.length :: p.stations_.headD [])) ∧
    (p.isInvalid = true → p.output sep = ["ERROR"]) := by
  constructor
  · intro hv
    refine ⟨output_eq p sep hv hlen, rfl, ?_⟩
    intro h1
    have h0 : p.lines_.drop 1 = [] := by
      apply List.drop_eq_nil_of_le
      omega
    simp [SubwayPath.tokens, laterTokens, h0]
  · intro hv
    simp [SubwayPath.output, hv]

theorem output_tokens_witness :
    (SubwayPath.mk ["L1", "L2"] [["A", "B", "C"], ["C", "D"]]).output ", "
      = List.intersperse ", " ["4", "A", "B", "C", "L2", "D"] :=
  ((output_tokens ⟨["L1", "L2"], [["A", "B", "C"], ["C", "D"]]⟩ ", " rfl).1 rfl).1

/-! ## The simple routes of a constructed network -/

theorem foldlM_eq_foldl {α β : Type} (F : β → α → Except Fault β) (G : β → α → β)
    (l : List α) (init : β) (h : ∀ acc x, x ∈ l → F acc x = .ok (G acc x)) :
    l.foldlM F init = .ok (l.foldl G init) := by
  induction l generalizing init with
  | nil => rfl
  | cons a rest ih =>
    rw [List.foldlM_cons, h init a (by simp), ok_bind, List.foldl_cons]
    exact ih _ (fun acc x hx => h acc x (by simp [hx]))

theorem foldl_append_flatMap {α β : Type} (h : α → List β) (l : List α) (init : List β) :
    l.foldl (fun acc x => acc ++ h x) init = init ++ l.flatMap h := by
  induction l generalizing init with
  | nil => simp
  | cons a rest ih =>
    rw [List.foldl_cons, ih]
    simp

theorem foldl_push_map {α β : Type} (h : α → β) (l : List α) (init : List β) :
    l.foldl (fun acc x => acc ++ [h x]) init = init ++ l.map h := by
  induction l generalizing init with
  | nil => simp
  | cons a rest ih =>
    rw [List.foldl_cons, ih]
    simp

theorem getBestOneLinePath_eq (dictLines : DictLines) (hk : (dictLines.map Prod.fst).Nodup)
    (A B : String) (hA : (SubwayNetwork.new dictLines).hasStation A = true)
    (hB : (SubwayNetwork.new dictLines).hasStation B = true) :
    (SubwayNetwork.new dictLines).getBestOneLinePath A B = .ok (bestRide dictLines A B) :=
  getBestOneLinePath_ok dictLines hk A B hA hB

theorem hasStation_of_mem (dictLines : DictLines) (hk : (dictLines.map Prod.fst).Nodup)
    (line s : String) (stations : StringArray)
    (hline : mapFind dictLines line = some stations) (hs : s ∈ stations) :
    (SubwayNetwork.new dictLines).hasStation s = true :=
  (hasStation_iff dictLines hk s).mpr ⟨(line, stations), mem_of_mapFind _ _ _ hline, hs⟩

theorem getTransStations_ok (dictLines : DictLines) (hk : (dictLines.map Prod.fst).Nodup)
    (lineA lineB : String) (stations : StringArray)
    (hline : mapFind dictLines lineA = some stations) :
    (SubwayNetwork.new dictLines).getTransStations lineA lineB
      = .ok (transOf dictLines lineA lineB) := by
  unfold SubwayNetwork.getTransStations
  rw [new_dictLines, mapAt_of_find _ _ _ hline, ok_bind]
  have hst : stationsOn dictLines lineA = stations := by simp [stationsOn, hline]
  have := foldlM_ok (fun s : String => mapAt (SubwayNetwork.new dictLines).dictNodes_ s)
    (fun s => ⟨s, linesOf dictLines s⟩)
    (fun (transStations : StringArray) (s : String) (node : SubwayNode) =>
      if node.isOnLine lineB then transStations ++ [s] else transStations)
    stations []
    (fun s hs => mapAt_station dictLines hk s (hasStation_of_mem dictLines hk lineA s _ hline hs))
  rw [this, transOf, hst]
  have := foldl_push_if (fun s => decide (lineB ∈ linesOf dictLines s)) stations []
  simp only [List.nil_append] at this
  rw [← this]
  simp [SubwayNode.isOnLine, contain]

theorem getTransPlans_ok (dictLines : DictLines) (hk : (dictLines.map Prod.fst).Nodup)
    (A B : String) (hA : (SubwayNetwork.new dictLines).hasStation A = true)
    (hB : (SubwayNetwork.new dictLines).hasStation B = true) :
    (SubwayNetwork.new dictLines).getTransPlans A B = .ok (plansOf dictLines A B) := by
  unfold SubwayNetwork.getTransPlans
  rw [mapAt_station dictLines hk A hA, ok_bind, mapAt_station dictLines hk B hB, ok_bind]
  simp only [SubwayNode.lines]
  rw [foldlM_eq_foldl _
    (fun (plans : List SubwayNetwork.TransPlan) (lineA : String) =>
      plans ++ (linesOf dictLines B).flatMap (fun lineB =>
        if lineA = lineB then []
        else (transOf dictLines lineA lineB).map (fun t => ⟨lineA, t, lineB⟩)))]
  · rw [foldl_append_flatMap]
    simp [plansOf]
  · intro plans lineA hlineA
    obtain ⟨stA, hstA, _⟩ := (mem_linesOf dictLines hk A lineA).mp hlineA
    rw [foldlM_eq_foldl _
      (fun (plans : List SubwayNetwork.TransPlan) (lineB : String) =>
        plans ++ (if lineA = lineB then []
          else (transOf dictLines lineA lineB).map (fun t => ⟨lineA, t, lineB⟩)))]
    · rw [foldl_append_flatMap]
    · intro acc lineB _
      by_cases he : lineA = lineB
      · simp [he, pure, Except.pure]
      · simp only [he, if_false]
        rw [getTransStations_ok dictLines hk lineA lineB stA hstA, ok_bind]
        by_cases hemp : (transOf dictLines lineA lineB).isEmpty = true
        · have : transOf dictLines lineA lineB = [] := List.isEmpty_iff.mp hemp
          simp [this, pure, Except.pure]
        · simp only [hemp, Bool.not_false, if_true, Bool.not_eq_true] 
          rw [foldl_push_map]
          rfl

theorem mem_transOf (dictLines : DictLines) (hk : (dictLines.map Prod.fst).Nodup)
    (lineA lineB T : String) :
    T ∈ transOf dictLines lineA lineB ↔
      ∃ stA stB, mapFind dictLines lineA = some stA ∧ T ∈ stA ∧
        mapFind dictLines lineB = some stB ∧ T ∈ stB := by
  unfold transOf stationsOn
  simp only [List.mem_filter, decide_eq_true_eq, mem_linesOf dictLines hk]
  constructor
  · rintro ⟨h1, stB, h2, h3⟩
    cases hA : mapFind dictLines lineA with
    | none => simp [hA] at h1
    | some stA =>
      simp only [hA] at h1
      exact ⟨stA, stB, rfl, h1, h2, h3⟩
  · rintro ⟨stA, stB, h1, h2, h3, h4⟩
    simp only [h1]
    exact ⟨h2, stB, h3, h4⟩

theorem mem_plansOf (dictLines : DictLines) (A B : String) (plan : SubwayNetwork.TransPlan) :
    plan ∈ plansOf dictLines A B ↔
      plan.lineA ∈ linesOf dictLines A ∧ plan.lineB ∈ linesOf dictLines B ∧
      plan.lineA ≠ plan.lineB ∧ plan.stationT ∈ transOf dictLines plan.lineA plan.lineB := by
  unfold plansOf
  simp only [List.mem_flatMap]
  constructor
  · rintro ⟨lineA, hA, lineB, hB, h⟩
    by_cases he : lineA = lineB
    · simp [he] at h
    · simp only [he, if_false, List.mem_map] at h
      obtain ⟨t, ht, rfl⟩ := h
      exact ⟨hA, hB, he, ht⟩
  · rintro ⟨hA, hB, he, ht⟩
    refine ⟨plan.lineA, hA, plan.lineB, hB, ?_⟩
    simp only [he, if_false, List.mem_map]
    exact ⟨plan.stationT, ht, rfl⟩

theorem hasStation_of_plan (dictLines : DictLines) (hk : (dictLines.map Prod.fst).Nodup)
    (A B : String) (plan : SubwayNetwork.TransPlan) (h : plan ∈ plansOf dictLines A B) :
    (SubwayNetwork.new dictLines).hasStation plan.stationT = true := by
  obtain ⟨_, _, _, ht⟩ := (mem_plansOf dictLines A B plan).mp h
  obtain ⟨stA, _, h1, h2, _, _⟩ := (mem_transOf dictLines hk _ _ _).mp ht
  exact hasStation_of_mem dictLines hk _ _ stA h1 h2

theorem getBestTwoLinesPath_ok (dictLines : DictLines) (hk : (dictLines.map Prod.fst).Nodup)
    (A B : String) (hA : (SubwayNetwork.new dictLines).hasStation A = true)
    (hB : (SubwayNetwork.new dictLines).hasStation B = true) :
    (SubwayNetwork.new dictLines).getBestTwoLinesPath A B = .ok (bestChange dictLines A B) := by
  unfold SubwayNetwork.getBestTwoLinesPath
  rw [getTransPlans_ok dictLines hk A B hA hB, ok_bind]
  by_cases he : (plansOf dictLines A B).isEmpty = true
  · have : plansOf dictLines A B = [] := List.isEmpty_iff.mp he
    simp only [he, if_true]
    simp [bestChange, this, pure, Except.pure]
  · simp only [he, if_false]
    rw [foldlM_eq_foldl _
      (fun best plan => keepShorter best (planRoute dictLines A B plan))]
    · rfl
    · intro acc plan hplan
      have hT := hasStation_of_plan dictLines hk A B plan hplan
      rw [getBestOneLinePath_eq dictLines hk A _ hA hT, ok_bind,
        getBestOneLinePath_eq dictLines hk _ B hT hB, ok_bind]
      rfl

theorem getBestSimplePath_ok (dictLines : DictLines) (hk : (dictLines.map Prod.fst).Nodup)
    (A B : String) (hA : (SubwayNetwork.new dictLines).hasStation A = true)
    (hB : (SubwayNetwork.new dictLines).hasStation B = true) :
    (SubwayNetwork.new dictLines).getBestSimplePath A B = .ok (bestSimple dictLines A B) := by
  unfold SubwayNetwork.getBestSimplePath
  rw [getBestOneLinePath_eq dictLines hk A B hA hB, ok_bind,
    getBestTwoLinesPath_ok dictLines hk A B hA hB, ok_bind]
  rfl

/-! ## The best ride and the best route with one transfer -/

theorem mem_sameLines (dictLines : DictLines) (hk : (dictLines.map Prod.fst).Nodup)
    (A B line : String) :
    line ∈ (linesOf dictLines A).filter (fun line => decide (line ∈ linesOf dictLines B)) ↔
      ∃ stations, mapFind dictLines line = some stations ∧ A ∈ stations ∧ B ∈ stations := by
  simp only [List.mem_filter, decide_eq_true_eq, mem_linesOf dictLines hk]
  constructor
  · rintro ⟨⟨st, h1, h2⟩, ⟨st2, h3, h4⟩⟩
    rw [h1] at h3
    cases h3
    exact ⟨st, h1, h2, h4⟩
  · rintro ⟨st, h1, h2, h3⟩
    exact ⟨⟨st, h1, h2⟩, ⟨st, h1, h3⟩⟩

theorem length_invalid (p : SubwayPath) (h : p.isInvalid = true) : p.length = INT32_MAX := by
  have : p.lines_.isEmpty = true := h
  simp [SubwayPath.length, this]

theorem isInvalid_of_length_lt (p : SubwayPath) (h : p.length < INT32_MAX) :
    p.isInvalid = false := by
  cases hv : p.isInvalid with
  | false => rfl
  | true =>
    rw [length_invalid p hv] at h
    exact absurd h (lt_irrefl _)

theorem bestRide_le (dictLines : DictLines) (hk : (dictLines.map Prod.fst).Nodup)
    (A B line : String) (stations : StringArray)
    (hline : mapFind dictLines line = some stations) (hA : A ∈ stations) (hB : B ∈ stations) :
    (bestRide dictLines A B).length ≤ (rideOn dictLines A B line).length :=
  foldl_keepShorter_le (fun line => rideOn dictLines A B line) _ _ line
    ((mem_sameLines dictLines hk A B line).mpr ⟨stations, hline, hA, hB⟩)

theorem bestRide_valid (dictLines : DictLines) (hk : (dictLines.map Prod.fst).Nodup)
    (A B : String) (hv : (bestRide dictLines A B).isInvalid = false) :
    ∃ line stations, mapFind dictLines line = some stations ∧ A ∈ stations ∧ B ∈ stations ∧
      bestRide dictLines A B
        = ⟨[line], [segmentOf stations (indexOf stations A) (indexOf stations B)]⟩ := by
  rcases foldl_keepShorter_mem (fun line => rideOn dictLines A B line)
    ((linesOf dictLines A).filter (fun line => decide (line ∈ linesOf dictLines B)))
    SubwayPath.invalid with h | ⟨x, hx, h⟩
  · have : bestRide dictLines A B = SubwayPath.invalid := h
    rw [this] at hv
    cases hv
  · obtain ⟨st, h1, h2, h3⟩ := (mem_sameLines dictLines hk A B x).mp hx
    refine ⟨x, st, h1, h2, h3, ?_⟩
    have : bestRide dictLines A B = rideOn dictLines A B x := h
    rw [this, rideOn_eq dictLines A B x st h1]

theorem bestRide_shared (dictLines : DictLines) (hk : (dictLines.map Prod.fst).Nodup)
    (hsize : ∀ it ∈ dictLines, (it.2.length : Int) < INT32_MAX)
    (A B line : String) (stations : StringArray)
    (hline : mapFind dictLines line = some stations) (hA : A ∈ stations) (hB : B ∈ stations) :
    (bestRide dictLines A B).isInvalid = false ∧
    (bestRide dictLines A B).length
      ≤ (segmentOf stations (indexOf stations A) (indexOf stations B)).length := by
  have hb : (stations.length : Int) < INT32_MAX :=
    hsize (line, stations) (mem_of_mapFind _ _ _ hline)
  have h1 := bestRide_le dictLines hk A B line stations hline hA hB
  have h2 := rideOn_length dictLines A B line stations hline hA hB (le_of_lt hb)
  refine ⟨isInvalid_of_length_lt _ ?_, ?_⟩
  · omega
  · rw [← h2.1]
    exact h1

theorem bestRide_none (dictLines : DictLines) (hk : (dictLines.map Prod.fst).Nodup)
    (A B : String)
    (hno : ¬ ∃ line stations, mapFind dictLines line = some stations ∧ A ∈ stations ∧
      B ∈ stations) :
    bestRide dictLines A B = SubwayPath.invalid := by
  have : (linesOf dictLines A).filter (fun line => decide (line ∈ linesOf dictLines B)) = [] := by
    apply List.eq_nil_iff_forall_not_mem.mpr
    intro line hl
    obtain ⟨st, h⟩ := (mem_sameLines dictLines hk A B line).mp hl
    exact hno ⟨line, st, h⟩
  unfold bestRide
  rw [this]
  rfl

/-- The length of a valid best ride: the number of stations of its segment. -/
theorem bestRide_length (dictLines : DictLines)
    (hsize : ∀ it ∈ dictLines, (it.2.length : Int) < INT32_MAX)
    (A B line : String) (stations : StringArray)
    (hline : mapFind dictLines line = some stations) (hA : A ∈ stations) (hB : B ∈ stations)
    (h : bestRide dictLines A B
      = ⟨[line], [segmentOf stations (indexOf stations A) (indexOf stations B)]⟩) :
    (bestRide dictLines A B).length
      = (segmentOf stations (indexOf stations A) (indexOf stations B)).length := by
  have hb : (stations.length : Int) < INT32_MAX :=
    hsize (line, stations) (mem_of_mapFind _ _ _ hline)
  rw [h, ← rideOn_eq dictLines A B line stations hline]
  exact (rideOn_length dictLines A B line stations hline hA hB (le_of_lt hb)).1

theorem merge_eq (r1 r2 : SubwayPath) (hv1 : r1.isInvalid = false)
    (hv2 : r2.isInvalid = false) :
    r1.merge r2 = ⟨r1.lines_ ++ r2.lines_, r1.stations_ ++ r2.stations_⟩ := by
  simp [SubwayPath.merge, hv1, hv2]

theorem wellFormed_single (line : String) (segment : StringArray) (h : segment ≠ []) :
    (SubwayPath.mk [line] [segment]).WellFormed := by
  refine ⟨rfl, ?_⟩
  intro s hs
  simp only [List.mem_singleton] at hs
  rw [hs]
  exact h

/-- The route of a transfer plan, when both rides exist and the lines are
shorter than half the `int` range: two segments, and a length that is the sum
of the lengths of the rides less one. -/
theorem planRoute_of_rides (dictLines : DictLines) (hk : (dictLines.map Prod.fst).Nodup)
    (hsize : ∀ it ∈ dictLines, 2 * (it.2.length : Int) ≤ INT32_MAX)
    (A T B lineA lineB : String) (stA stB : StringArray)
    (hA : mapFind dictLines lineA = some stA) (hB : mapFind dictLines lineB = some stB)
    (h1 : A ∈ stA) (h2 : T ∈ stA) (h3 : T ∈ stB) (h4 : B ∈ stB) :
    ∃ l1 l2 st1 st2,
      mapFind dictLines l1 = some st1 ∧ A ∈ st1 ∧ T ∈ st1 ∧
      mapFind dictLines l2 = some st2 ∧ T ∈ st2 ∧ B ∈ st2 ∧
      bestRide dictLines A T = ⟨[l1], [segmentOf st1 (indexOf st1 A) (indexOf st1 T)]⟩ ∧
      bestRide dictLines T B = ⟨[l2], [segmentOf st2 (indexOf st2 T) (indexOf st2 B)]⟩ ∧
      (bestRide dictLines A T).merge (bestRide dictLines T B)
        = ⟨[l1, l2], [segmentOf st1 (indexOf st1 A) (indexOf st1 T),
            segmentOf st2 (indexOf st2 T) (indexOf st2 B)]⟩ ∧
      (bestRide dictLines A T).length
        = (segmentOf st1 (indexOf st1 A) (indexOf st1 T)).length ∧
      (bestRide dictLines T B).length
        = (segmentOf st2 (indexOf st2 T) (indexOf st2 B)).length ∧
      ((bestRide dictLines A T).merge (bestRide dictLines T B)).length
        = (bestRide dictLines A T).length + (bestRide dictLines T B).length - 1 ∧
      ((bestRide dictLines A T).merge (bestRide dictLines T B)).length < INT32_MAX := by
  have hsize1 : ∀ it ∈ dictLines, (it.2.length : Int) < INT32_MAX := by
    intro it hit
    have := hsize it hit
    unfold INT32_MAX at this ⊢
    omega
  have hv1 := (bestRide_shared dictLines hk hsize1 A T lineA stA hA h1 h2).1
  have hv2 := (bestRide_shared dictLines hk hsize1 T B lineB stB hB h3 h4).1
  obtain ⟨l1, st1, a1, a2, a3, a4⟩ := bestRide_valid dictLines hk A T hv1
  obtain ⟨l2, st2, b1, b2, b3, b4⟩ := bestRide_valid dictLines hk T B hv2
  have e1 := bestRide_length dictLines hsize1 A T l1 st1 a1 a2 a3 a4
  have e2 := bestRide_length dictLines hsize1 T B l2 st2 b1 b2 b3 b4
  have hm := merge_eq _ _ hv1 hv2
  have hm2 : (bestRide dictLines A T).merge (bestRide dictLines T B)
      = ⟨[l1, l2], [segmentOf st1 (indexOf st1 A) (indexOf st1 T),
          segmentOf st2 (indexOf st2 T) (indexOf st2 B)]⟩ := by
    rw [hm, a4, b4]
    rfl
  have hi1 := List.indexOf_lt_length.mpr a2
  have hi2 := List.indexOf_lt_length.mpr a3
  have hi3 := List.indexOf_lt_length.mpr b2
  have hi4 := List.indexOf_lt_length.mpr b3
  have hle1 : (segmentOf st1 (indexOf st1 A) (indexOf st1 T)).length ≤ st1.length :=
    segmentOf_length_le st1 _ _ hi1 hi2
  have hle2 : (segmentOf st2 (indexOf st2 T) (indexOf st2 B)).length ≤ st2.length :=
    segmentOf_length_le st2 _ _ hi3 hi4
  have hn1 := List.length_pos.mpr (segmentOf_ne_nil st1 (indexOf st1 A) (indexOf st1 T))
  have hn2 := List.length_pos.mpr (segmentOf_ne_nil st2 (indexOf st2 T) (indexOf st2 B))
  have hs1 := hsize (l1, st1) (mem_of_mapFind _ _ _ a1)
  have hs2 := hsize (l2, st2) (mem_of_mapFind _ _ _ b1)
  simp only at hs1 hs2
  have hcount : stationCount [segmentOf st1 (indexOf st1 A) (indexOf st1 T),
      segmentOf st2 (indexOf st2 T) (indexOf st2 B)]
      = (segmentOf st1 (indexOf st1 A) (indexOf st1 T)).length
        + (segmentOf st2 (indexOf st2 T) (indexOf st2 B)).length - 1 := by
    simp only [stationCount, List.map_cons, List.map_nil, List.sum_cons, List.sum_nil]
    omega
  have hlen : ((bestRide dictLines A T).merge (bestRide dictLines T B)).length
      = ((segmentOf st1 (indexOf st1 A) (indexOf st1 T)).length
        + (segmentOf st2 (indexOf st2 T) (indexOf st2 B)).length - 1 : Nat) := by
    rw [hm2]
    have hwf : (SubwayPath.mk [l1, l2] [segmentOf st1 (indexOf st1 A) (indexOf st1 T),
        segmentOf st2 (indexOf st2 T) (indexOf st2 B)]).WellFormed := by
      refine ⟨rfl, ?_⟩
      intro s hs
      simp only [List.mem_cons, List.mem_singleton, List.not_mem_nil, or_false] at hs
      rcases hs with hs | hs <;> rw [hs] <;> exact segmentOf_ne_nil _ _ _
    have := SubwayPath.length_eq_stationCount
      (SubwayPath.mk [l1, l2] [segmentOf st1 (indexOf st1 A) (indexOf st1 T),
        segmentOf st2 (indexOf st2 T) (indexOf st2 B)]) rfl hwf (by
      simp only [hcount]; unfold INT32_MAX at hs1 hs2 ⊢; omega)
    rw [this]
    simp only [hcount]
  refine ⟨l1, l2, st1, st2, a1, a2, a3, b1, b2, b3, a4, b4, hm2, e1, e2, ?_, ?_⟩
  · rw [hlen, e1, e2]
    omega
  · rw [hlen]
    unfold INT32_MAX at hs1 hs2 ⊢
    omega

theorem isPlan_iff (dictLines : DictLines) (hk : (dictLines.map Prod.fst).Nodup)
    (A B lineA T lineB : String) :
    IsPlan dictLines A B lineA T lineB ↔
      (⟨lineA, T, lineB⟩ : SubwayNetwork.TransPlan) ∈ plansOf dictLines A B := by
  rw [mem_plansOf]
  simp only [mem_linesOf dictLines hk, mem_transOf dictLines hk]
  constructor
  · rintro ⟨hne, stA, stB, h1, h2, h3, h4, h5, h6⟩
    exact ⟨⟨stA, h1, h3⟩, ⟨stB, h2, h6⟩, hne, stA, stB, h1, h4, h2, h5⟩
  · rintro ⟨⟨stA, h1, h3⟩, ⟨stB, h2, h6⟩, hne, stA2, stB2, h7, h4, h8, h5⟩
    rw [h1] at h7
    rw [h2] at h8
    cases h7
    cases h8
    exact ⟨hne, stA, stB, h1, h2, h3, h4, h5, h6⟩

theorem bestChange_le (dictLines : DictLines) (A B : String) (plan : SubwayNetwork.TransPlan)
    (h : plan ∈ plansOf dictLines A B) :
    (bestChange dictLines A B).length ≤ (planRoute dictLines A B plan).length :=
  foldl_keepShorter_le (fun plan => planRoute dictLines A B plan) _ _ plan h

theorem bestChange_mem (dictLines : DictLines) (A B : String) :
    bestChange dictLines A B = SubwayPath.invalid ∨
    ∃ plan ∈ plansOf dictLines A B, bestChange dictLines A B = planRoute dictLines A B plan :=
  foldl_keepShorter_mem (fun plan => planRoute dictLines A B plan) _ _

/-- C15: in a constructed network whose lines are shorter than half the `int`
range, `getBestTwoLinesPath(A, B)` returns a route whose `length()` is the
minimum, over the transfer plans `(lineA, T, lineB)`, of
`length(getBestOneLinePath(A, T)) + length(getBestOneLinePath(T, B)) - 1`: it is
at most that number for every plan and equal to it for some plan when there is
one; and the route is invalid exactly when there is no plan. -/
theorem getBestTwoLinesPath_spec (dictLines : DictLines)
    (hk : (dictLines.map Prod.fst).Nodup)
    (hsize : ∀ it ∈ dictLines, 2 * (it.2.length : Int) ≤ INT32_MAX)
    (A B : String) (hA : (SubwayNetwork.new dictLines).hasStation A = true)
    (hB : (SubwayNetwork.new dictLines).hasStation B = true) :
    ∃ two : SubwayPath,
      (SubwayNetwork.new dictLines).getBestTwoLinesPath A B = .ok two ∧
      (∀ lineA T lineB, IsPlan dictLines A B lineA T lineB →
        ∃ p1 p2, (SubwayNetwork.new dictLines).getBestOneLinePath A T = .ok p1 ∧
          (SubwayNetwork.new dictLines).getBestOneLinePath T B = .ok p2 ∧
          two.length ≤ p1.length + p2.length - 1) ∧
      ((∃ lineA T lineB, IsPlan dictLines A B lineA T lineB) →
        ∃ lineA T lineB p1 p2, IsPlan dictLines A B lineA T lineB ∧
          (SubwayNetwork.new dictLines).getBestOneLinePath A T = .ok p1 ∧
          (SubwayNetwork.new dictLines).getBestOneLinePath T B = .ok p2 ∧
          two.length = p1.length + p2.length - 1) ∧
      (two.isInvalid = true ↔ ¬ ∃ lineA T lineB, IsPlan dictLines A B lineA T lineB) := by
  have hplan : ∀ lineA T lineB, IsPlan dictLines A B lineA T lineB →
      (SubwayNetwork.new dictLines).hasStation T = true ∧
      (planRoute dictLines A B ⟨lineA, T, lineB⟩).length
        = (bestRide dictLines A T).length + (bestRide dictLines T B).length - 1 ∧
      (planRoute dictLines A B ⟨lineA, T, lineB⟩).length < INT32_MAX := by
    rintro lineA T lineB ⟨_, stA, stB, h1, h2, h3, h4, h5, h6⟩
    obtain ⟨_, _, _, _, _, _, _, _, _, _, _, _, _, _, _, e, hlt⟩ :=
      planRoute_of_rides dictLines hk hsize A T B lineA lineB stA stB h1 h2 h3 h4 h5 h6
    exact ⟨hasStation_of_mem dictLines hk lineA T stA h1 h4, e, hlt⟩
  have hle : ∀ lineA T lineB, IsPlan dictLines A B lineA T lineB →
      (bestChange dictLines A B).length
        ≤ (bestRide dictLines A T).length + (bestRide dictLines T B).length - 1 := by
    intro lineA T lineB hp
    have := bestChange_le dictLines A B _ ((isPlan_iff dictLines hk A B lineA T lineB).mp hp)
    rw [(hplan lineA T lineB hp).2.1] at this
    exact this
  have hvalid : (∃ lineA T lineB, IsPlan dictLines A B lineA T lineB) →
      (bestChange dictLines A B).isInvalid = false := by
    rintro ⟨lineA, T, lineB, hp⟩
    apply isInvalid_of_length_lt
    have h1 := bestChange_le dictLines A B _ ((isPlan_iff dictLines hk A B lineA T lineB).mp hp)
    have h2 := (hplan lineA T lineB hp).2.2
    omega
  refine ⟨bestChange dictLines A B, getBestTwoLinesPath_ok dictLines hk A B hA hB, ?_, ?_, ?_⟩
  · intro lineA T lineB hp
    have hT := (hplan lineA T lineB hp).1
    exact ⟨_, _, getBestOneLinePath_eq dictLines hk A T hA hT,
      getBestOneLinePath_eq dictLines hk T B hT hB, hle lineA T lineB hp⟩
  · intro hex
    have hv := hvalid hex
    rcases bestChange_mem dictLines A B with h | ⟨plan, hmem, h⟩
    · rw [h] at hv
      cases hv
    · have hp : IsPlan dictLines A B plan.lineA plan.stationT plan.lineB :=
        (isPlan_iff dictLines hk A B _ _ _).mpr hmem
      have hT := (hplan _ _ _ hp).1
      refine ⟨plan.lineA, plan.stationT, plan.lineB, _, _, hp,
        getBestOneLinePath_eq dictLines hk A _ hA hT,
        getBestOneLinePath_eq dictLines hk _ B hT hB, ?_⟩
      rw [h]
      exact (hplan _ _ _ hp).2.1
  · constructor
    · intro hinv hex
      rw [hvalid hex] at hinv
      cases hinv
    · intro hno
      rcases bestChange_mem dictLines A B with h | ⟨plan, hmem, _⟩
      · rw [h]
        rfl
      · exact absurd ⟨plan.lineA, plan.stationT, plan.lineB,
          (isPlan_iff dictLines hk A B _ _ _).mpr hmem⟩ hno

theorem getBestTwoLinesPath_spec_witness :
    ∃ two : SubwayPath,
      (SubwayNetwork.new crossingLines).getBestTwoLinesPath "A" "D" = .ok two ∧
      (∀ lineA T lineB, IsPlan crossingLines "A" "D" lineA T lineB →
        ∃ p1 p2, (SubwayNetwork.new crossingLines).getBestOneLinePath "A" T = .ok p1 ∧
          (SubwayNetwork.new crossingLines).getBestOneLinePath T "D" = .ok p2 ∧
          two.length ≤ p1.length + p2.length - 1) ∧
      ((∃ lineA T lineB, IsPlan crossingLines "A" "D" lineA T lineB) →
        ∃ lineA T lineB p1 p2, IsPlan crossingLines "A" "D" lineA T lineB ∧
          (SubwayNetwork.new crossingLines).getBestOneLinePath "A" T = .ok p1 ∧
          (SubwayNetwork.new crossingLines).getBestOneLinePath T "D" = .ok p2 ∧
          two.length = p1.length + p2.length - 1) ∧
      (two.isInvalid = true ↔ ¬ ∃ lineA T lineB, IsPlan crossingLines "A" "D" lineA T lineB) :=
  getBestTwoLinesPath_spec crossingLines (by decide) (by decide) "A" "D" (by decide) (by decide)

/-! ## The best simple route -/

theorem foldl_keepShorter_lt {α : Type} (c : α → SubwayPath) (l : List α)
    (init : SubwayPath) :
    l.foldl (fun best x => keepShorter best (c x)) init = init ∨
    (l.foldl (fun best x => keepShorter best (c x)) init).length < init.length := by
  induction l generalizing init with
  | nil => exact Or.inl rfl
  | cons a rest ih =>
    rw [List.foldl_cons]
    by_cases h : (c a).length < init.length
    · right
      have hk : keepShorter init (c a) = c a := by simp [keepShorter, h]
      rw [hk]
      exact lt_of_le_of_lt (foldl_keepShorter_le_init c rest (c a)) h
    · have hk : keepShorter init (c a) = init := by simp [keepShorter, h]
      rw [hk]
      exact ih init

theorem bestRide_lt (dictLines : DictLines) (A B : String) :
    bestRide dictLines A B = SubwayPath.invalid ∨
    (bestRide dictLines A B).length < INT32_MAX :=
  foldl_keepShorter_lt (fun line => rideOn dictLines A B line) _ SubwayPath.invalid

theorem bestChange_lt (dictLines : DictLines) (A B : String) :
    bestChange dictLines A B = SubwayPath.invalid ∨
    (bestChange dictLines A B).length < INT32_MAX :=
  foldl_keepShorter_lt (fun plan => planRoute dictLines A B plan) _ SubwayPath.invalid

theorem keepShorter_invalid_bestRide (dictLines : DictLines) (A B : String) :
    keepShorter SubwayPath.invalid (bestRide dictLines A B) = bestRide dictLines A B := by
  rcases bestRide_lt dictLines A B with h | h
  · rw [h]
    rfl
  · have : (bestRide dictLines A B).length < SubwayPath.invalid.length := h
    simp [keepShorter, this]

theorem bestSimple_eq (dictLines : DictLines) (A B : String) :
    bestSimple dictLines A B
      = if (bestChange dictLines A B).length < (bestRide dictLines A B).length
        then bestChange dictLines A B else bestRide dictLines A B := by
  unfold bestSimple
  rw [keepShorter_invalid_bestRide]
  rfl

/-- C17: in a constructed network, `getBestSimplePath(A, B)` returns the
one-transfer route when it is strictly shorter than the zero-transfer route and
the zero-transfer route otherwise, so on a tie the zero-transfer route; its
`length()` is the minimum of the two lengths. -/
theorem getBestSimplePath_spec (dictLines : DictLines)
    (hk : (dictLines.map Prod.fst).Nodup) (A B : String)
    (hA : (SubwayNetwork.new dictLines).hasStation A = true)
    (hB : (SubwayNetwork.new dictLines).hasStation B = true) :
    ∃ one two r : SubwayPath,
      (SubwayNetwork.new dictLines).getBestOneLinePath A B = .ok one ∧
      (SubwayNetwork.new dictLines).getBestTwoLinesPath A B = .ok two ∧
      (SubwayNetwork.new dictLines).getBestSimplePath A B = .ok r ∧
      r.length = min one.length two.length ∧
      (one.isInvalid = false → one.length ≤ two.length → r = one) ∧
      (r ≠ one → r = two ∧ two.length < one.length) ∧
      r = (if two.length < one.length then two else one) := by
  refine ⟨bestRide dictLines A B, bestChange dictLines A B, bestSimple dictLines A B,
    getBestOneLinePath_eq dictLines hk A B hA hB,
    getBestTwoLinesPath_ok dictLines hk A B hA hB,
    getBestSimplePath_ok dictLines hk A B hA hB, ?_, ?_, ?_, bestSimple_eq dictLines A B⟩
  · rw [bestSimple_eq]
    by_cases h : (bestChange dictLines A B).length < (bestRide dictLines A B).length
    · simp only [h, if_true]
      rw [min_eq_right (le_of_lt h)]
    · simp only [h, if_false]
      rw [min_eq_left (not_lt.mp h)]
  · intro _ hle
    rw [bestSimple_eq]
    simp [not_lt.mpr hle]
  · intro hne
    rw [bestSimple_eq] at hne ⊢
    by_cases h : (bestChange dictLines A B).length < (bestRide dictLines A B).length
    · simp only [h, if_true]
      exact ⟨trivial, trivial⟩
    · simp only [h, if_false] at hne
      exact absurd rfl hne

theorem getBestSimplePath_spec_witness :
    ∃ one two r : SubwayPath,
      (SubwayNetwork.new detourLines).getBestOneLinePath "A" "Q" = .ok one ∧
      (SubwayNetwork.new detourLines).getBestTwoLinesPath "A" "Q" = .ok two ∧
      (SubwayNetwork.new detourLines).getBestSimplePath "A" "Q" = .ok r ∧
      r.length = min one.length two.length ∧
      (one.isInvalid = false → one.length ≤ two.length → r = one) ∧
      (r ≠ one → r = two ∧ two.length < one.length) ∧
      r = (if two.length < one.length then two else one) :=
  getBestSimplePath_spec detourLines (by decide) "A" "Q" (by decide) (by decide)

/-! ## A valid simple route is the answer of every strategy -/

theorem getBestSimplePath_lt (net : SubwayNetwork) (A B : String) (p : SubwayPath)
    (h : net.getBestSimplePath A B = .ok p) (hv : p.isInvalid = false) :
    p.length < INT32_MAX := by
  unfold SubwayNetwork.getBestSimplePath at h
  obtain ⟨one, _, h⟩ := bind_eq_ok _ _ _ h
  obtain ⟨two, _, h⟩ := bind_eq_ok _ _ _ h
  have hp := pure_eq_ok _ _ h
  have hmax : SubwayPath.invalid.length = INT32_MAX := rfl
  by_cases h1 : one.length < SubwayPath.invalid.length
  · simp only [h1, if_true] at hp
    by_cases h2 : two.length < one.length
    · simp only [h2, if_true] at hp
      rw [← hp]
      omega
    · simp only [h2, if_false] at hp
      rw [← hp]
      omega
  · simp only [h1, if_false] at hp
    by_cases h2 : two.length < SubwayPath.invalid.length
    · simp only [h2, if_true] at hp
      rw [← hp]
      omega
    · simp only [h2, if_false] at hp
      rw [← hp] at hv
      cases hv

/-- C16: when `getBestSimplePath(A, B)` returns a valid route, each of the three
recursive strategies returns that route without a recursive call, for every
positive recursion budget, and so does `getBestPath(A, B)`, which keeps the
first of the three equal results. -/
theorem getBestPath_of_simple (net : SubwayNetwork) (fuel : Nat) (A B : String)
    (p : SubwayPath) (h : net.getBestSimplePath A B = .ok p) (hv : p.isInvalid = false) :
    net.getRecursivePath1 (fuel + 1) A B = .ok p ∧
    net.getRecursivePath2 (fuel + 1) A B = .ok p ∧
    net.getRecursivePath3 (fuel + 1) A B = .ok p ∧
    net.getBestPath (fuel + 1) A B = .ok p := by
  have h1 : net.getRecursivePath1 (fuel + 1) A B = .ok p := by
    rw [SubwayNetwork.getRecursivePath1, h, ok_bind]
    simp [hv, pure, Except.pure]
  have h2 : net.getRecursivePath2 (fuel + 1) A B = .ok p := by
    rw [SubwayNetwork.getRecursivePath2, h, ok_bind]
    simp [hv, pure, Except.pure]
  have h3 : net.getRecursivePath3 (fuel + 1) A B = .ok p := by
    rw [SubwayNetwork.getRecursivePath3, h, ok_bind]
    simp [hv, pure, Except.pure]
  refine ⟨h1, h2, h3, ?_⟩
  have hlt : p.length < SubwayPath.invalid.length := getBestSimplePath_lt net A B p h hv
  unfold SubwayNetwork.getBestPath
  rw [h1, ok_bind, h2, ok_bind, h3, ok_bind]
  simp [hlt, pure, Except.pure]

theorem getBestPath_of_simple_witness :
    (SubwayNetwork.new crossingLines).getRecursivePath1 (0 + 1) "A" "D"
      = .ok ⟨["L1", "L2"], [["A", "B", "C"], ["C", "D"]]⟩ ∧
    (SubwayNetwork.new crossingLines).getRecursivePath2 (0 + 1) "A" "D"
      = .ok ⟨["L1", "L2"], [["A", "B", "C"], ["C", "D"]]⟩ ∧
    (SubwayNetwork.new crossingLines).getRecursivePath3 (0 + 1) "A" "D"
      = .ok ⟨["L1", "L2"], [["A", "B", "C"], ["C", "D"]]⟩ ∧
    (SubwayNetwork.new crossingLines).getBestPath (0 + 1) "A" "D"
      = .ok ⟨["L1", "L2"], [["A", "B", "C"], ["C", "D"]]⟩ :=
  getBestPath_of_simple (SubwayNetwork.new crossingLines) 0 "A" "D"
    ⟨["L1", "L2"], [["A", "B", "C"], ["C", "D"]]⟩ (by decide) rfl

/-! ## Properties kept by every route the search builds -/

theorem keepShorter_cases (P : SubwayPath → Prop) (best path : SubwayPath)
    (h1 : P best) (h2 : P path) : P (keepShorter best path) := by
  unfold keepShorter
  split
  · exact h2
  · exact h1

theorem getBestOneLinePath_inv (dictLines : DictLines)
    (hk : (dictLines.map Prod.fst).Nodup) (Q : String → String → SubwayPath → Prop)
    (hQ : RouteInvariant dictLines Q) (A B : String) (p : SubwayPath)
    (h : (SubwayNetwork.new dictLines).getBestOneLinePath A B = .ok p) : Q A B p := by
  unfold SubwayNetwork.getBestOneLinePath at h
  obtain ⟨same, hsame, h⟩ := bind_eq_ok _ _ _ h
  have hshared := getSameLines_shared dictLines hk A B same hsame
  by_cases he : same.isEmpty = true
  · simp only [he, if_true] at h
    rw [← pure_eq_ok _ _ h]
    exact hQ.invalid _ _
  · simp only [he, if_false] at h
    refine foldlM_inv (Q A B) _ _ _ _ h (hQ.invalid _ _) ?_
    intro acc line acc' hline hacc hstep
    obtain ⟨between, hb, hstep⟩ := bind_eq_ok _ _ _ hstep
    have hacc' := pure_eq_ok _ _ hstep
    subst hacc'
    obtain ⟨st, h1, h2, h3⟩ := hshared line hline
    rw [getBetweenStations_ok _ line A B st h1 h2 h3] at hb
    cases hb
    refine keepShorter_cases (Q A B) acc _ hacc ?_
    rw [single_eq _ _ (segmentOf_ne_nil _ _ _)]
    exact hQ.ride A B line st h1 h2 h3

theorem getBestTwoLinesPath_inv (dictLines : DictLines)
    (hk : (dictLines.map Prod.fst).Nodup) (Q : String → String → SubwayPath → Prop)
    (hQ : RouteInvariant dictLines Q) (A B : String) (p : SubwayPath)
    (h : (SubwayNetwork.new dictLines).getBestTwoLinesPath A B = .ok p) : Q A B p := by
  unfold SubwayNetwork.getBestTwoLinesPath at h
  obtain ⟨plans, _, h⟩ := bind_eq_ok _ _ _ h
  by_cases he : plans.isEmpty = true
  · simp only [he, if_true] at h
    rw [← pure_eq_ok _ _ h]
    exact hQ.invalid _ _
  · simp only [he, if_false] at h
    refine foldlM_inv (Q A B) _ _ _ _ h (hQ.invalid _ _) ?_
    intro acc plan acc' _ hacc hstep
    obtain ⟨p1, h1, hstep⟩ := bind_eq_ok _ _ _ hstep
    obtain ⟨p2, h2, hstep⟩ := bind_eq_ok _ _ _ hstep
    have hacc' := pure_eq_ok _ _ hstep
    subst hacc'
    exact keepShorter_cases (Q A B) acc _ hacc
      (hQ.merge A plan.stationT B p1 p2
        (getBestOneLinePath_inv dictLines hk Q hQ _ _ p1 h1)
        (getBestOneLinePath_inv dictLines hk Q hQ _ _ p2 h2))

theorem getBestSimplePath_inv (dictLines : DictLines)
    (hk : (dictLines.map Prod.fst).Nodup) (Q : String → String → SubwayPath → Prop)
    (hQ : RouteInvariant dictLines Q) (A B : String) (p : SubwayPath)
    (h : (SubwayNetwork.new dictLines).getBestSimplePath A B = .ok p) : Q A B p := by
  unfold SubwayNetwork.getBestSimplePath at h
  obtain ⟨p1, h1, h⟩ := bind_eq_ok _ _ _ h
  obtain ⟨p2, h2, h⟩ := bind_eq_ok _ _ _ h
  have hp := pure_eq_ok _ _ h
  subst hp
  exact keepShorter_cases (Q A B) _ _
    (keepShorter_cases (Q A B) _ _ (hQ.invalid _ _)
      (getBestOneLinePath_inv dictLines hk Q hQ _ _ p1 h1))
    (getBestTwoLinesPath_inv dictLines hk Q hQ _ _ p2 h2)

theorem getRecursivePath1_inv (dictLines : DictLines)
    (hk : (dictLines.map Prod.fst).Nodup) (Q : String → String → SubwayPath → Prop)
    (hQ : RouteInvariant dictLines Q) (fuel : Nat) (A B : String) (p : SubwayPath)
    (h : (SubwayNetwork.new dictLines).getRecursivePath1 fuel A B = .ok p) : Q A B p := by
  induction fuel generalizing A B p with
  | zero => cases h
  | succ n ih =>
    rw [SubwayNetwork.getRecursivePath1] at h
    obtain ⟨bestPath, hs, h⟩ := bind_eq_ok _ _ _ h
    have hbest := getBestSimplePath_inv dictLines hk Q hQ A B bestPath hs
    by_cases hv : bestPath.isInvalid = true
    · simp only [hv, Bool.not_true, Bool.false_eq_true, if_false] at h
      obtain ⟨stationATs, _, h⟩ := bind_eq_ok _ _ _ h
      refine foldlM_inv (Q A B) _ _ _ _ h hbest ?_
      intro acc stationAT acc' _ hacc hstep
      obtain ⟨p1, h1, hstep⟩ := bind_eq_ok _ _ _ hstep
      obtain ⟨p2, h2, hstep⟩ := bind_eq_ok _ _ _ hstep
      have hacc' := pure_eq_ok _ _ hstep
      subst hacc'
      exact keepShorter_cases (Q A B) acc _ hacc
        (hQ.merge A stationAT B p1 p2
          (getBestOneLinePath_inv dictLines hk Q hQ _ _ p1 h1) (ih _ _ p2 h2))
    · simp only [hv, Bool.not_false, if_true] at h
      rw [← pure_eq_ok _ _ h]
      exact hbest

theorem getRecursivePath2_inv (dictLines : DictLines)
    (hk : (dictLines.map Prod.fst).Nodup) (Q : String → String → SubwayPath → Prop)
    (hQ : RouteInvariant dictLines Q) (fuel : Nat) (A B : String) (p : SubwayPath)
    (h : (SubwayNetwork.new dictLines).getRecursivePath2 fuel A B = .ok p) : Q A B p := by
  induction fuel generalizing A B p with
  | zero => cases h
  | succ n ih =>
    rw [SubwayNetwork.getRecursivePath2] at h
    obtain ⟨bestPath, hs, h⟩ := bind_eq_ok _ _ _ h
    have hbest := getBestSimplePath_inv dictLines hk Q hQ A B bestPath hs
    by_cases hv : bestPath.isInvalid = true
    · simp only [hv, Bool.not_true, Bool.false_eq_true, if_false] at h
      obtain ⟨stationBTs, _, h⟩ := bind_eq_ok _ _ _ h
      refine foldlM_inv (Q A B) _ _ _ _ h hbest ?_
      intro acc stationBT acc' _ hacc hstep
      obtain ⟨p1, h1, hstep⟩ := bind_eq_ok _ _ _ hstep
      obtain ⟨p2, h2, hstep⟩ := bind_eq_ok _ _ _ hstep
      have hacc' := pure_eq_ok _ _ hstep
      subst hacc'
      exact keepShorter_cases (Q A B) acc _ hacc
        (hQ.merge A stationBT B p1 p2 (ih _ _ p1 h1)
          (getBestOneLinePath_inv dictLines hk Q hQ _ _ p2 h2))
    · simp only [hv, Bool.not_false, if_true] at h
      rw [← pure_eq_ok _ _ h]
      exact hbest

theorem getRecursivePath3_inv (dictLines : DictLines)
    (hk : (dictLines.map Prod.fst).Nodup) (Q : String → String → SubwayPath → Prop)
    (hQ : RouteInvariant dictLines Q) (fuel : Nat) (A B : String) (p : SubwayPath)
    (h : (SubwayNetwork.new dictLines).getRecursivePath3 fuel A B = .ok p) : Q A B p := by
  induction fuel generalizing A B p with
  | zero => cases h
  | succ n ih =>
    rw [SubwayNetwork.getRecursivePath3] at h
    obtain ⟨bestPath, hs, h⟩ := bind_eq_ok _ _ _ h
    have hbest := getBestSimplePath_inv dictLines hk Q hQ A B bestPath hs
    by_cases hv : bestPath.isInvalid = true
    · simp only [hv, Bool.not_true, Bool.false_eq_true, if_false] at h
      obtain ⟨stationATs, _, h⟩ := bind_eq_ok _ _ _ h
      obtain ⟨stationBTs, _, h⟩ := bind_eq_ok _ _ _ h
      refine foldlM_inv (Q A B) _ _ _ _ h hbest ?_
      intro accA stationAT accA' _ haccA hstepA
      refine foldlM_inv (Q A B) _ _ _ _ hstepA haccA ?_
      intro acc stationBT acc' _ hacc hstep
      obtain ⟨p1, h1, hstep⟩ := bind_eq_ok _ _ _ hstep
      obtain ⟨p2, h2, hstep⟩ := bind_eq_ok _ _ _ hstep
      obtain ⟨p3, h3, hstep⟩ := bind_eq_ok _ _ _ hstep
      have hacc' := pure_eq_ok _ _ hstep
      subst hacc'
      exact keepShorter_cases (Q A B) acc _ hacc
        (hQ.merge A stationBT B _ p3
          (hQ.merge A stationAT stationBT p1 p2
            (getBestOneLinePath_inv dictLines hk Q hQ _ _ p1 h1) (ih _ _ p2 h2))
          (getBestOneLinePath_inv dictLines hk Q hQ _ _ p3 h3))
    · simp only [hv, Bool.not_false, if_true] at h
      rw [← pure_eq_ok _ _ h]
      exact hbest

theorem getBestPath_inv (dictLines : DictLines)
    (hk : (dictLines.map Prod.fst).Nodup) (Q : String → String → SubwayPath → Prop)
    (hQ : RouteInvariant dictLines Q) (fuel : Nat) (A B : String) (p : SubwayPath)
    (h : (SubwayNetwork.new dictLines).getBestPath fuel A B = .ok p) : Q A B p := by
  unfold SubwayNetwork.getBestPath at h
  obtain ⟨p1, h1, h⟩ := bind_eq_ok _ _ _ h
  obtain ⟨p2, h2, h⟩ := bind_eq_ok _ _ _ h
  obtain ⟨p3, h3, h⟩ := bind_eq_ok _ _ _ h
  have hp := pure_eq_ok _ _ h
  subst hp
  exact keepShorter_cases (Q A B) _ _
    (keepShorter_cases (Q A B) _ _
      (keepShorter_cases (Q A B) _ _ (hQ.invalid _ _)
        (getRecursivePath1_inv dictLines hk Q hQ fuel _ _ p1 h1))
      (getRecursivePath2_inv dictLines hk Q hQ fuel _ _ p2 h2))
    (getRecursivePath3_inv dictLines hk Q hQ fuel _ _ p3 h3)

/-! ## Valid routes proceed from the start to the goal -/

theorem map_range'_eq_take_drop (stations : StringArray) (s n : Nat)
    (h : s + n ≤ stations.length) :
    (List.range' s n).map (fun i => stations.getD i "") = (stations.drop s).take n := by
  apply List.ext_getElem
  · simp only [List.length_map, List.length_range', List.length_take, List.length_drop]
    omega
  · intro i h1 h2
    simp only [List.length_map, List.length_range'] at h1
    have hi : s + i < stations.length := by omega
    simp [List.getD_eq_getElem?_getD, List.getElem?_eq_getElem hi]

theorem take_drop_infix {α : Type} (l : List α) (s n : Nat) : (l.drop s).take n <:+: l :=
  (List.take_prefix n (l.drop s)).isInfix.trans (List.drop_suffix s l).isInfix

theorem segmentOf_run (stations : StringArray) (iA iB : Nat) (hA : iA < stations.length)
    (hB : iB < stations.length) :
    segmentOf stations iA iB <:+: stations ∨
    (segmentOf stations iA iB).reverse <:+: stations := by
  unfold segmentOf
  split
  · left
    rw [map_range'_eq_take_drop stations _ _ (by omega)]
    exact take_drop_infix _ _ _
  · right
    rw [List.map_reverse, List.reverse_reverse,
      map_range'_eq_take_drop stations _ _ (by omega)]
    exact take_drop_infix _ _ _

theorem proceeds_ride (dictLines : DictLines) (A B line : String) (stations : StringArray)
    (hline : mapFind dictLines line = some stations) (hA : A ∈ stations) (hB : B ∈ stations) :
    Proceeds dictLines A B
      ⟨[line], [segmentOf stations (indexOf stations A) (indexOf stations B)]⟩ := by
  have hiA : indexOf stations A < stations.length := List.indexOf_lt_length.mpr hA
  have hiB : indexOf stations B < stations.length := List.indexOf_lt_length.mpr hB
  refine ⟨?_, ?_, ?_, ?_⟩
  · exact List.Forall₂.cons ⟨segmentOf_ne_nil _ _ _, stations, hline,
      segmentOf_run stations _ _ hiA hiB⟩ List.Forall₂.nil
  · exact List.chain'_singleton _
  · simp only [List.head?_cons, Option.some_bind]
    rw [segmentOf_head, getD_indexOf _ _ hA]
  · simp only [List.getLast?_singleton, Option.some_bind]
    rw [segmentOf_getLast, getD_indexOf _ _ hB]

theorem proceeds_merge (dictLines : DictLines) (A T B : String) (p q : SubwayPath)
    (hp : Proceeds dictLines A T p) (hq : Proceeds dictLines T B q)
    (hpv : p.isInvalid = false) (hqv : q.isInvalid = false) :
    Proceeds dictLines A B (p.merge q) := by
  obtain ⟨p1, p2, p3, p4⟩ := hp
  obtain ⟨q1, q2, q3, q4⟩ := hq
  rw [merge_eq p q hpv hqv]
  have hps : p.stations_ ≠ [] := by
    intro e
    rw [e] at p3
    simp at p3
  have hqs : q.stations_ ≠ [] := by
    intro e
    rw [e] at q3
    simp at q3
  refine ⟨List.rel_append p1 q1, ?_, ?_, ?_⟩
  · rw [List.chain'_append]
    refine ⟨p2, q2, ?_⟩
    intro s hs t ht
    rw [Option.mem_def] at hs ht
    rw [hs] at p4
    rw [ht] at q3
    simp only [Option.some_bind] at p4 q3
    rw [p4, q3]
  · simp only
    rw [List.head?_append_of_ne_nil _ hps]
    exact p3
  · simp only
    rw [List.getLast?_append_of_ne_nil _ hqs]
    exact q4

theorem routeInvariant_proceeds (dictLines : DictLines) :
    RouteInvariant dictLines
      (fun A B p => p.isInvalid = false → Proceeds dictLines A B p) where
  invalid := by
    intro A B h
    cases h
  ride := by
    intro A B line stations hline hA hB _
    exact proceeds_ride dictLines A B line stations hline hA hB
  merge := by
    intro A T B p q hp hq hv
    by_cases hpv : p.isInvalid = true
    · have : p.merge q = ⟨[], []⟩ := by simp [SubwayPath.merge, hpv]
      rw [this] at hv
      cases hv
    by_cases hqv : q.isInvalid = true
    · have : p.merge q = ⟨[], []⟩ := by simp [SubwayPath.merge, hqv]
      rw [this] at hv
      cases hv
    simp only [Bool.not_eq_true] at hpv hqv
    exact proceeds_merge dictLines A T B p q (hp hpv) (hq hqv) hpv hqv

/-- C18: in a constructed network, every valid route returned by
`getBestSimplePath`, by one of the three recursive strategies or by
`getBestPath` for `(A, B)` proceeds from `A` to `B`: its first segment starts at
`A`, its last segment ends at `B`, each segment ends where the next one starts,
and each segment is a contiguous run, forward or reversed, of the stations of
the line it is labelled with. -/
theorem routes_proceed (dictLines : DictLines) (hk : (dictLines.map Prod.fst).Nodup)
    (fuel : Nat) (A B : String) (p : SubwayPath) (hv : p.isInvalid = false)
    (h : (SubwayNetwork.new dictLines).getBestSimplePath A B = .ok p ∨
      (SubwayNetwork.new dictLines).getRecursivePath1 fuel A B = .ok p ∨
      (SubwayNetwork.new dictLines).getRecursivePath2 fuel A B = .ok p ∨
      (SubwayNetwork.new dictLines).getRecursivePath3 fuel A B = .ok p ∨
      (SubwayNetwork.new dictLines).getBestPath fuel A B = .ok p) :
    p.stations_.head?.bind List.head? = some A ∧
    p.stations_.getLast?.bind List.getLast? = some B ∧
    p.stations_.Chain' (fun s t => s.getLast? = t.head?) ∧
    List.Forall₂ (fun line segment => segment ≠ [] ∧
      ∃ stations, mapFind (SubwayNetwork.new dictLines).dictLines_ line = some stations ∧
        (segment <:+: stations ∨ segment.reverse <:+: stations)) p.lines_ p.stations_ := by
  have hQ := routeInvariant_proceeds dictLines
  have hp : Proceeds dictLines A B p := by
    rcases h with h | h | h | h | h
    · exact getBestSimplePath_inv dictLines hk _ hQ A B p h hv
    · exact getRecursivePath1_inv dictLines hk _ hQ fuel A B p h hv
    · exact getRecursivePath2_inv dictLines hk _ hQ fuel A B p h hv
    · exact getRecursivePath3_inv dictLines hk _ hQ fuel A B p h hv
    · exact getBestPath_inv dictLines hk _ hQ fuel A B p h hv
  exact ⟨hp.2.2.1, hp.2.2.2, hp.2.1, hp.1⟩

theorem routes_proceed_witness :
    (SubwayPath.mk ["L1", "L2"] [["A", "B", "C"], ["C", "D"]]).stations_.head?.bind List.head?
      = some "A" ∧
    (SubwayPath.mk ["L1", "L2"] [["A", "B", "C"], ["C", "D"]]).stations_.getLast?.bind
      List.getLast? = some "D" ∧
    (SubwayPath.mk ["L1", "L2"] [["A", "B", "C"], ["C", "D"]]).stations_.Chain'
      (fun s t => s.getLast? = t.head?) ∧
    List.Forall₂ (fun line segment => segment ≠ [] ∧
      ∃ stations, mapFind (SubwayNetwork.new crossingLines).dictLines_ line = some stations ∧
        (segment <:+: stations ∨ segment.reverse <:+: stations))
      (SubwayPath.mk ["L1", "L2"] [["A", "B", "C"], ["C", "D"]]).lines_
      (SubwayPath.mk ["L1", "L2"] [["A", "B", "C"], ["C", "D"]]).stations_ :=
  routes_proceed crossingLines (by decide) 1 "A" "D"
    ⟨["L1", "L2"], [["A", "B", "C"], ["C", "D"]]⟩ rfl (Or.inr (Or.inr (Or.inr (Or.inr rfl))))

/-! ## Nearby transfer stations -/

theorem firstTransStation_ok (dictLines : DictLines) (hk : (dictLines.map Prod.fst).Nodup)
    (l : StringArray) (h : ∀ s ∈ l, (SubwayNetwork.new dictLines).hasStation s = true) :
    (SubwayNetwork.new dictLines).firstTransStation l
      = .ok (l.find? (isTransfer dictLines)) := by
  induction l with
  | nil => rfl
  | cons a rest ih =>
    rw [SubwayNetwork.firstTransStation, mapAt_station dictLines hk a (h a (by simp)), ok_bind,
      List.find?_cons]
    by_cases ht : isTransfer dictLines a = true
    · have : (SubwayNode.mk a (linesOf dictLines a)).isTransStation = true := ht
      simp [this, ht, pure, Except.pure]
    · have : (SubwayNode.mk a (linesOf dictLines a)).isTransStation = false := by
        simpa [isTransfer, SubwayNode.isTransStation] using ht
      simp only [Bool.not_eq_true] at ht
      simp only [this, Bool.false_eq_true, if_false, ht]
      exact ih (fun s hs => h s (by simp [hs]))

theorem pushFound_eq (acc : StringArray) (found : Option String) :
    SubwayNetwork.pushFound acc found = acc ++ found.toList := by
  cases found <;> simp [SubwayNetwork.pushFound]

theorem getNearbyTransStations_ok (dictLines : DictLines)
    (hk : (dictLines.map Prod.fst).Nodup) (S : String)
    (hS : (SubwayNetwork.new dictLines).hasStation S = true) :
    (SubwayNetwork.new dictLines).getNearbyTransStations S
      = .ok ((linesOf dictLines S).flatMap (nearbyOn dictLines S)) := by
  unfold SubwayNetwork.getNearbyTransStations
  rw [mapAt_station dictLines hk S hS, ok_bind]
  simp only [SubwayNode.lines]
  rw [foldlM_eq_foldl _ (fun (acc : StringArray) (line : String) =>
    acc ++ nearbyOn dictLines S line)]
  · rw [foldl_append_flatMap]
    simp
  · intro acc line hline
    obtain ⟨st, hst, _⟩ := (mem_linesOf dictLines hk S line).mp hline
    have hon : stationsOn dictLines line = st := by simp [stationsOn, hst]
    have hall : ∀ s ∈ st, (SubwayNetwork.new dictLines).hasStation s = true :=
      fun s hs => hasStation_of_mem dictLines hk line s st hst hs
    rw [new_dictLines, mapAt_of_find _ _ _ hst, ok_bind,
      firstTransStation_ok dictLines hk _
        (fun s hs => hall s (List.mem_of_mem_drop hs)), ok_bind,
      firstTransStation_ok dictLines hk _
        (fun s hs => hall s (List.mem_of_mem_take (List.mem_reverse.mp hs))), ok_bind]
    simp only [pushFound_eq, nearbyOn, hon, List.append_assoc]
    rfl

theorem isTransStation_of_find (dictLines : DictLines) (hk : (dictLines.map Prod.fst).Nodup)
    (X : String) (node : SubwayNode)
    (h : mapFind (SubwayNetwork.new dictLines).dictNodes_ X = some node) :
    node.isTransStation = isTransfer dictLines X := by
  have := mapAt_new dictLines hk X node (mapAt_of_find _ _ _ h)
  rw [this]
  rfl

theorem find_of_mem (dictLines : DictLines) (hk : (dictLines.map Prod.fst).Nodup)
    (line T : String) (stations : StringArray)
    (hline : mapFind dictLines line = some stations) (hT : T ∈ stations) :
    mapFind (SubwayNetwork.new dictLines).dictNodes_ T = some ⟨T, linesOf dictLines T⟩ := by
  rw [new_dictNodes dictLines hk]
  have : isStationOf dictLines T := ⟨(line, stations), mem_of_mapFind _ _ _ hline, hT⟩
  simp [this]

theorem ne_of_index_ne (stations : StringArray) (hn : stations.Nodup) (S T : String)
    (hS : S ∈ stations) (i : Nat) (hi : stations[i]? = some T)
    (hne : i ≠ indexOf stations S) : T ≠ S := by
  intro e
  subst e
  have hlt : i < stations.length := by
    rcases Nat.lt_or_ge i stations.length with h | h
    · exact h
    · rw [List.getElem?_eq_none h] at hi
      cases hi
  have hpos : indexOf stations T < stations.length := List.indexOf_lt_length.mpr hS
  have h1 : stations[i] = T := by
    rw [List.getElem?_eq_getElem hlt] at hi
    exact Option.some.inj hi
  have h2 : stations[indexOf stations T] = T := List.getElem_indexOf hpos
  exact hne ((hn.getElem_inj_iff).mp (h1.trans h2.symm))

theorem nearest_forward (dictLines : DictLines) (hk : (dictLines.map Prod.fst).Nodup)
    (line S T : String) (stations : StringArray)
    (hline : mapFind dictLines line = some stations) (hn : stations.Nodup)
    (hS : S ∈ stations)
    (h : (stations.drop (indexOf stations S + 1)).find? (isTransfer dictLines) = some T) :
    IsNearest (SubwayNetwork.new dictLines) stations S T := by
  obtain ⟨hT, as, bs, hsplit, hnot⟩ := List.find?_eq_some.mp h
  have hget : ∀ k, stations[indexOf stations S + 1 + k]? = (as ++ T :: bs)[k]? := by
    intro k
    rw [← hsplit, List.getElem?_drop]
  have hi : stations[indexOf stations S + 1 + as.length]? = some T := by
    rw [hget, List.getElem?_append_right (le_refl _)]
    simp
  have hmem : T ∈ stations := List.getElem?_mem hi
  refine ⟨ne_of_index_ne stations hn S T hS _ hi (by omega),
    ⟨_, find_of_mem dictLines hk line T stations hline hmem, hT⟩,
    indexOf stations S + 1 + as.length, hi, Or.inl ⟨by omega, ?_⟩⟩
  intro j X hj1 hj2 hX node hnode
  have hjk : j = indexOf stations S + 1 + (j - (indexOf stations S + 1)) := by omega
  rw [hjk, hget, List.getElem?_append_left (by omega)] at hX
  have hXas : X ∈ as := List.getElem?_mem hX
  rw [isTransStation_of_find dictLines hk X node hnode]
  simpa using hnot X hXas

theorem nearest_backward (dictLines : DictLines) (hk : (dictLines.map Prod.fst).Nodup)
    (line S T : String) (stations : StringArray)
    (hline : mapFind dictLines line = some stations) (hn : stations.Nodup)
    (hS : S ∈ stations)
    (h : (stations.take (indexOf stations S)).reverse.find? (isTransfer dictLines) = some T) :
    IsNearest (SubwayNetwork.new dictLines) stations S T := by
  obtain ⟨hT, as, bs, hsplit, hnot⟩ := List.find?_eq_some.mp h
  have hpos : indexOf stations S < stations.length := List.indexOf_lt_length.mpr hS
  have htake : stations.take (indexOf stations S) = bs.reverse ++ T :: as.reverse := by
    have := congrArg List.reverse hsplit
    simpa using this
  have hlen : indexOf stations S = bs.length + 1 + as.length := by
    have := congrArg List.length htake
    simp only [List.length_take, List.length_append, List.length_reverse,
      List.length_cons] at this
    omega
  have hget : ∀ k, k < indexOf stations S →
      stations[k]? = (bs.reverse ++ T :: as.reverse)[k]? := by
    intro k hk
    rw [← htake, List.getElem?_take_of_lt hk]
  have hi : stations[bs.length]? = some T := by
    rw [hget _ (by omega), List.getElem?_append_right (by simp)]
    simp
  have hmem : T ∈ stations := List.getElem?_mem hi
  refine ⟨ne_of_index_ne stations hn S T hS _ hi (by omega),
    ⟨_, find_of_mem dictLines hk line T stations hline hmem, hT⟩,
    bs.length, hi, Or.inr ⟨by omega, ?_⟩⟩
  intro j X hj1 hj2 hX node hnode
  rw [hget j hj2, List.getElem?_append_right (by simp; omega)] at hX
  have hjk : j - bs.reverse.length = (j - bs.length - 1) + 1 := by
    simp only [List.length_reverse]
    omega
  rw [hjk, List.getElem?_cons_succ] at hX
  have hXas : X ∈ as := List.mem_reverse.mp (List.getElem?_mem hX)
  rw [isTransStation_of_find dictLines hk X node hnode]
  simpa using hnot X hXas

theorem length_flatMap_le {α β : Type} (f : α → List β) (l : List α) (n : Nat)
    (h : ∀ x ∈ l, (f x).length ≤ n) : (l.flatMap f).length ≤ n * l.length := by
  induction l with
  | nil => simp
  | cons a rest ih =>
    have h1 := h a (by simp)
    have h2 := ih (fun x hx => h x (by simp [hx]))
    simp only [List.flatMap_cons, List.length_append, List.length_cons]
    rw [Nat.mul_succ]
    omega

theorem length_nearbyOn (dictLines : DictLines) (S line : String) :
    (nearbyOn dictLines S line).length ≤ 2 := by
  unfold nearbyOn
  rw [List.length_append]
  have h : ∀ o : Option String, o.toList.length ≤ 1 := by
    intro o
    cases o <;> simp
  have h1 := h (((stationsOn dictLines line).drop
    (indexOf (stationsOn dictLines line) S + 1)).find? (isTransfer dictLines))
  have h2 := h (((stationsOn dictLines line).take
    (indexOf (stationsOn dictLines line) S)).reverse.find? (isTransfer dictLines))
  omega

/-- C19: in a constructed network whose lines repeat no station,
`getNearbyTransStations(S)` returns, line after line of `S`, at most two
stations per line, hence at most twice as many as `S` has lines; each of them is
a transfer station of that line other than `S`, with no transfer station
strictly between `S` and it in the stop order of the line. -/
theorem getNearbyTransStations_spec (dictLines : DictLines)
    (hk : (dictLines.map Prod.fst).Nodup) (hn : ∀ it ∈ dictLines, it.2.Nodup)
    (S : String) (hS : (SubwayNetwork.new dictLines).hasStation S = true) :
    ∃ (node : SubwayNode) (part : String → StringArray),
      mapFind (SubwayNetwork.new dictLines).dictNodes_ S = some node ∧
      (SubwayNetwork.new dictLines).getNearbyTransStations S
        = .ok (node.lines.flatMap part) ∧
      (node.lines.flatMap part).length ≤ 2 * node.lines.length ∧
      ∀ line ∈ node.lines, (part line).length ≤ 2 ∧
        ∃ stations, mapFind (SubwayNetwork.new dictLines).dictLines_ line = some stations ∧
          S ∈ stations ∧
          ∀ T ∈ part line, IsNearest (SubwayNetwork.new dictLines) stations S T := by
  refine ⟨⟨S, linesOf dictLines S⟩, nearbyOn dictLines S, ?_,
    getNearbyTransStations_ok dictLines hk S hS,
    length_flatMap_le _ _ 2 (fun line _ => length_nearbyOn dictLines S line), ?_⟩
  · rw [new_dictNodes dictLines hk]
    simp [(hasStation_iff dictLines hk S).mp hS]
  · intro line hline
    obtain ⟨st, hst, hSst⟩ := (mem_linesOf dictLines hk S line).mp hline
    have hon : stationsOn dictLines line = st := by simp [stationsOn, hst]
    have hnst : st.Nodup := hn (line, st) (mem_of_mapFind _ _ _ hst)
    refine ⟨length_nearbyOn dictLines S line, st, hst, hSst, ?_⟩
    intro T hT
    unfold nearbyOn at hT
    rw [hon, List.mem_append] at hT
    rcases hT with hT | hT
    · exact nearest_forward dictLines hk line S T st hst hnst hSst (Option.mem_toList.mp hT)
    · exact nearest_backward dictLines hk line S T st hst hnst hSst (Option.mem_toList.mp hT)

theorem getNearbyTransStations_spec_witness :
    ∃ (node : SubwayNode) (part : String → StringArray),
      mapFind (SubwayNetwork.new crossingLines).dictNodes_ "A" = some node ∧
      (SubwayNetwork.new crossingLines).getNearbyTransStations "A"
        = .ok (node.lines.flatMap part) ∧
      (node.lines.flatMap part).length ≤ 2 * node.lines.length ∧
      ∀ line ∈ node.lines, (part line).length ≤ 2 ∧
        ∃ stations, mapFind (SubwayNetwork.new crossingLines).dictLines_ line = some stations ∧
          "A" ∈ stations ∧
          ∀ T ∈ part line, IsNearest (SubwayNetwork.new crossingLines) stations "A" T :=
  getNearbyTransStations_spec crossingLines (by decide) (by decide) "A" (by decide)

/-! ## The segments of a simple route -/

theorem segmentOf_length_one (stations : StringArray) (A B : String) (hA : A ∈ stations)
    (hB : B ∈ stations)
    (h : (segmentOf stations (indexOf stations A) (indexOf stations B)).length = 1) :
    A = B := by
  have hlen := segmentOf_length stations (indexOf stations A) (indexOf stations B)
  rw [h] at hlen
  have h0 : |((indexOf stations A : Nat) : Int) - (indexOf stations B : Nat)| = 0 := by
    have : ((1 : Nat) : Int) = 1 := rfl
    omega
  have h1 := abs_eq_zero.mp h0
  have h2 : indexOf stations A = indexOf stations B := by omega
  exact (List.indexOf_inj hA hB).mp h2

theorem segmentOf_triangle (stations : StringArray) (iA iT iB : Nat) :
    ((segmentOf stations iA iB).length : Int)
      ≤ (segmentOf stations iA iT).length + (segmentOf stations iT iB).length - 1 := by
  rw [segmentOf_length, segmentOf_length, segmentOf_length]
  have := abs_sub_le (iA : Int) iT iB
  omega

/-- What a best ride looks like: no segment, or one segment along a line through
both stations, of more than one station when they differ. -/
theorem bestRide_shape (dictLines : DictLines) (hk : (dictLines.map Prod.fst).Nodup)
    (A B : String) :
    (bestRide dictLines A B).lines_.Chain' (fun l1 l2 => l1 ≠ l2) ∧
    (A ≠ B → ∀ segment ∈ (bestRide dictLines A B).stations_, 2 ≤ segment.length) := by
  cases hv : (bestRide dictLines A B).isInvalid with
  | true =>
    rcases bestRide_lt dictLines A B with h | h
    · rw [h]
      exact ⟨List.chain'_nil, fun _ s hs => by cases hs⟩
    · rw [length_invalid _ hv] at h
      exact absurd h (lt_irrefl _)
  | false =>
    obtain ⟨line, st, _, h2, h3, h4⟩ := bestRide_valid dictLines hk A B hv
    rw [h4]
    refine ⟨List.chain'_singleton _, ?_⟩
    intro hne s hs
    simp only [List.mem_singleton] at hs
    rw [hs]
    have hpos := List.length_pos.mpr (segmentOf_ne_nil st (indexOf st A) (indexOf st B))
    have h1 : (segmentOf st (indexOf st A) (indexOf st B)).length ≠ 1 :=
      fun e => hne (segmentOf_length_one st A B h2 h3 e)
    omega

/-- What a route with one transfer that beats the best ride looks like: two
segments on different lines, each of more than one station. -/
theorem bestChange_shape (dictLines : DictLines) (hk : (dictLines.map Prod.fst).Nodup)
    (hsize : ∀ it ∈ dictLines, 2 * (it.2.length : Int) ≤ INT32_MAX) (A B : String)
    (hlt : (bestChange dictLines A B).length < (bestRide dictLines A B).length) :
    (bestChange dictLines A B).lines_.Chain' (fun l1 l2 => l1 ≠ l2) ∧
    ∀ segment ∈ (bestChange dictLines A B).stations_, 2 ≤ segment.length := by
  have hsize1 : ∀ it ∈ dictLines, (it.2.length : Int) < INT32_MAX := by
    intro it hit
    have := hsize it hit
    unfold INT32_MAX at this ⊢
    omega
  rcases bestChange_mem dictLines A B with h | ⟨plan, hmem, h⟩
  · rw [h] at hlt
    rcases bestRide_lt dictLines A B with h2 | h2
    · rw [h2] at hlt
      exact absurd hlt (lt_irrefl _)
    · have : SubwayPath.invalid.length = INT32_MAX := rfl
      omega
  · obtain ⟨hne, stA, stB, a1, a2, a3, a4, a5, a6⟩ :=
      (isPlan_iff dictLines hk A B _ _ _).mpr hmem
    obtain ⟨l1, l2, st1, st2, b1, b2, b3, c1, c2, c3, _, _, hm, e1, e2, hlen, _⟩ :=
      planRoute_of_rides dictLines hk hsize A plan.stationT B _ _ stA stB a1 a2 a3 a4 a5 a6
    have hroute : bestChange dictLines A B
        = ⟨[l1, l2], [segmentOf st1 (indexOf st1 A) (indexOf st1 plan.stationT),
            segmentOf st2 (indexOf st2 plan.stationT) (indexOf st2 B)]⟩ := by
      rw [h]
      exact hm
    have hchange : (bestChange dictLines A B).length
        = ((segmentOf st1 (indexOf st1 A) (indexOf st1 plan.stationT)).length : Int)
          + (segmentOf st2 (indexOf st2 plan.stationT) (indexOf st2 B)).length - 1 := by
      rw [h]
      unfold planRoute
      rw [hlen, e1, e2]
    have hp1 := List.length_pos.mpr
      (segmentOf_ne_nil st1 (indexOf st1 A) (indexOf st1 plan.stationT))
    have hp2 := List.length_pos.mpr
      (segmentOf_ne_nil st2 (indexOf st2 plan.stationT) (indexOf st2 B))
    rw [hroute]
    refine ⟨?_, ?_⟩
    · refine List.chain'_pair.mpr ?_
      intro e
      subst e
      rw [b1] at c1
      cases c1
      have hr := (bestRide_shared dictLines hk hsize1 A B l1 st1 b1 b2 c3).2
      have ht := segmentOf_triangle st1 (indexOf st1 A) (indexOf st1 plan.stationT)
        (indexOf st1 B)
      omega
    · intro s hs
      simp only [List.mem_cons, List.mem_singleton, List.not_mem_nil, or_false] at hs
      rcases hs with hs | hs
      · rw [hs]
        have h1 : (segmentOf st1 (indexOf st1 A) (indexOf st1 plan.stationT)).length ≠ 1 := by
          intro e
          have hAT := segmentOf_length_one st1 A plan.stationT b2 b3 e
          rw [e] at hchange
          rw [← hAT] at c2 hchange
          have hr := (bestRide_shared dictLines hk hsize1 A B l2 st2 c1 c2 c3).2
          have : ((1 : Nat) : Int) = 1 := rfl
          omega
        omega
      · rw [hs]
        have h1 : (segmentOf st2 (indexOf st2 plan.stationT) (indexOf st2 B)).length ≠ 1 := by
          intro e
          have hTB := segmentOf_length_one st2 plan.stationT B c2 c3 e
          rw [e] at hchange
          rw [hTB] at b3 hchange
          have hr := (bestRide_shared dictLines hk hsize1 A B l1 st1 b1 b2 b3).2
          have : ((1 : Nat) : Int) = 1 := rfl
          omega
        omega

/-- C20: in a constructed network whose lines are shorter than half the `int`
range, the route returned by `getBestSimplePath(A, B)` never has two consecutive
segments on the same line: if it has two segments, their line names differ; and
when `A` and `B` differ it has no segment of one station. -/
theorem getBestSimplePath_segments (dictLines : DictLines)
    (hk : (dictLines.map Prod.fst).Nodup)
    (hsize : ∀ it ∈ dictLines, 2 * (it.2.length : Int) ≤ INT32_MAX)
    (A B : String) (hA : (SubwayNetwork.new dictLines).hasStation A = true)
    (hB : (SubwayNetwork.new dictLines).hasStation B = true) :
    ∃ r : SubwayPath,
      (SubwayNetwork.new dictLines).getBestSimplePath A B = .ok r ∧
      r.lines_.Chain' (fun l1 l2 => l1 ≠ l2) ∧
      (∀ l1 l2, r.lines_ = [l1, l2] → l1 ≠ l2) ∧
      (A ≠ B → ∀ segment ∈ r.stations_, segment.length ≠ 1) := by
  have hshape : (bestSimple dictLines A B).lines_.Chain' (fun l1 l2 => l1 ≠ l2) ∧
      (A ≠ B → ∀ segment ∈ (bestSimple dictLines A B).stations_, 2 ≤ segment.length) := by
    rw [bestSimple_eq]
    by_cases h : (bestChange dictLines A B).length < (bestRide dictLines A B).length
    · simp only [h, if_true]
      have := bestChange_shape dictLines hk hsize A B h
      exact ⟨this.1, fun _ => this.2⟩
    · simp only [h, if_false]
      exact bestRide_shape dictLines hk A B
  refine ⟨bestSimple dictLines A B, getBestSimplePath_ok dictLines hk A B hA hB,
    hshape.1, ?_, ?_⟩
  · intro l1 l2 hl
    have := hshape.1
    rw [hl] at this
    exact List.chain'_pair.mp this
  · intro hne s hs
    have := hshape.2 hne s hs
    omega

theorem getBestSimplePath_segments_witness :
    ∃ r : SubwayPath,
      (SubwayNetwork.new crossingLines).getBestSimplePath "A" "D" = .ok r ∧
      r.lines_.Chain' (fun l1 l2 => l1 ≠ l2) ∧
      (∀ l1 l2, r.lines_ = [l1, l2] → l1 ≠ l2) ∧
      ("A" ≠ "D" → ∀ segment ∈ r.stations_, segment.length ≠ 1) :=
  getBestSimplePath_segments crossingLines (by decide) (by decide) "A" "D"
    (by decide) (by decide)

/-! ## When the recursion returns and when it does not -/

theorem foldlM_error {α β : Type} (f : β → α → Except Fault β) (init : β) (a : α)
    (rest : List α) (e : Fault) (h : f init a = .error e) :
    (a :: rest).foldlM f init = .error e := by
  rw [List.foldlM_cons, h, error_bind]

theorem loopLines_recursion (fuel : Nat) :
    (SubwayNetwork.new loopLines).getRecursivePath1 fuel "T1" "B" = .error .outOfFuel ∧
    (SubwayNetwork.new loopLines).getRecursivePath1 fuel "T2" "B" = .error .outOfFuel := by
  induction fuel with
  | zero => exact ⟨rfl, rfl⟩
  | succ n ih =>
    have s1 : (SubwayNetwork.new loopLines).getBestSimplePath "T1" "B"
        = .ok SubwayPath.invalid := by decide
    have s2 : (SubwayNetwork.new loopLines).getBestSimplePath "T2" "B"
        = .ok SubwayPath.invalid := by decide
    have n1 : (SubwayNetwork.new loopLines).getNearbyTransStations "T1" = .ok ["T2"] := by
      decide
    have n2 : (SubwayNetwork.new loopLines).getNearbyTransStations "T2"
        = .ok ["T1", "U"] := by decide
    have o1 : (SubwayNetwork.new loopLines).getBestOneLinePath "T1" "T2"
        = .ok ⟨["L1"], [["T1", "T2"]]⟩ := by decide
    have o2 : (SubwayNetwork.new loopLines).getBestOneLinePath "T2" "T1"
        = .ok ⟨["L1"], [["T2", "T1"]]⟩ := by decide
    constructor
    · rw [SubwayNetwork.getRecursivePath1, s1, ok_bind]
      simp only [SubwayPath.invalid, SubwayPath.isInvalid, List.isEmpty_nil, Bool.not_true,
        Bool.false_eq_true, if_false]
      rw [n1, ok_bind]
      apply foldlM_error
      rw [o1, ok_bind, ih.2, error_bind]
    · rw [SubwayNetwork.getRecursivePath1, s2, ok_bind]
      simp only [SubwayPath.invalid, SubwayPath.isInvalid, List.isEmpty_nil, Bool.not_true,
        Bool.false_eq_true, if_false]
      rw [n2, ok_bind]
      apply foldlM_error
      rw [o2, ok_bind, ih.1, error_bind]

/-- C14, refuted as stated: on the network of `loopLines` the station `B` is
reachable from `T1` by the route `T1, T2, U, V, B`, but `getRecursivePath1(T1, B)`
does not return, whatever the recursion budget: the walk goes from `T1` to `T2`
and from `T2` back to `T1`. -/
theorem getRecursivePath1_loops :
    (SubwayNetwork.new loopLines).hasStation "T1" = true ∧
    (SubwayNetwork.new loopLines).hasStation "B" = true ∧
    IsRoute loopLines "T1" "B" ["T1", "T2", "U", "V", "B"] ∧
    ∀ fuel, (SubwayNetwork.new loopLines).getRecursivePath1 fuel "T1" "B"
      = .error .outOfFuel :=
  ⟨by decide, by decide,
    ⟨rfl, rfl, List.Chain.cons (by decide) (List.Chain.cons (by decide)
      (List.Chain.cons (by decide) (List.Chain.cons (by decide) List.Chain.nil)))⟩,
    fun fuel => (loopLines_recursion fuel).1⟩

/-- A property of stations that every move to an adjacent station keeps holds
at the end of a route if it holds at its start. -/
theorem route_invariant (dictLines : DictLines) (P : String → Prop)
    (hstep : ∀ s t, adjacent dictLines s t → P s → P t) (A B : String) (w : StringArray)
    (h : IsRoute dictLines A B w) (hA : P A) : P B := by
  obtain ⟨hhead, hlast, hchain⟩ := h
  induction w generalizing A with
  | nil => simp at hhead
  | cons x rest ih =>
    simp only [List.head?_cons, Option.some.injEq] at hhead
    subst hhead
    cases rest with
    | nil =>
      simp only [List.getLast?_singleton, Option.some.injEq] at hlast
      rw [← hlast]
      exact hA
    | cons y r =>
      rw [List.getLast?_cons_cons] at hlast
      have hc := List.chain'_cons.mp hchain
      exact ih y (hstep _ y hc.1 hA) rfl hlast hc.2

theorem disjointLines_no_route : ¬ ∃ w, IsRoute disjointLines "A" "C" w := by
  rintro ⟨w, hw⟩
  have := route_invariant disjointLines (fun s => s = "A" ∨ s = "B") (by
    intro s t hadj hs
    simp only [adjacent, nextOn, disjointLines, List.mem_cons, List.mem_singleton,
      List.not_mem_nil, or_false, exists_eq_or_imp, exists_eq_left, List.tail_cons,
      List.zip_cons_cons, List.zip_nil_right, Prod.mk.injEq] at hadj
    rcases hadj with (⟨_, h⟩ | ⟨h, _⟩) | (⟨h, _⟩ | ⟨_, h⟩)
    · exact Or.inr h
    · exact Or.inl h
    · rcases hs with hs | hs <;> rw [hs] at h <;> exact absurd h (by decide)
    · rcases hs with hs | hs <;> rw [hs] at h <;> exact absurd h (by decide)) "A" "C" w hw
    (Or.inl rfl)
  rcases this with h | h <;> exact absurd h (by decide)

/-- C13, refuted as stated: on the network of the disjoint line map there is no
route from `A` to `C`, and yet each of the three recursive strategies returns for
`(A, C)`, with the invalid route, as soon as the recursion budget is positive. -/
theorem recursion_returns_without_route :
    (SubwayNetwork.new disjointLines).hasStation "A" = true ∧
    (SubwayNetwork.new disjointLines).hasStation "C" = true ∧
    (¬ ∃ w, IsRoute disjointLines "A" "C" w) ∧
    ∀ fuel,
      (SubwayNetwork.new disjointLines).getRecursivePath1 (fuel + 1) "A" "C"
        = .ok SubwayPath.invalid ∧
      (SubwayNetwork.new disjointLines).getRecursivePath2 (fuel + 1) "A" "C"
        = .ok SubwayPath.invalid ∧
      (SubwayNetwork.new disjointLines).getRecursivePath3 (fuel + 1) "A" "C"
        = .ok SubwayPath.invalid :=
  ⟨by decide, by decide, disjointLines_no_route, fun _ => ⟨rfl, rfl, rfl⟩⟩

theorem routeInvariant_leads (dictLines : DictLines) :
    RouteInvariant dictLines (fun A B p =>
      Leads dictLines A B p ∧ (p.isInvalid = true → p = SubwayPath.invalid)) where
  invalid := fun A B => ⟨leads_invalid dictLines A B, fun _ => rfl⟩
  ride := by
    intro A B line stations hline hA hB
    refine ⟨?_, fun h => by cases h⟩
    intro _
    have hvis : (SubwayPath.mk [line]
        [segmentOf stations (indexOf stations A) (indexOf stations B)]).visited
        = segmentOf stations (indexOf stations A) (indexOf stations B) := by
      simp [SubwayPath.visited, visitedAfter]
    rw [hvis]
    exact ⟨wellFormed_single _ _ (segmentOf_ne_nil _ _ _),
      isRoute_segmentOf dictLines line A B stations hline hA hB⟩
  merge := by
    intro A T B p q hp hq
    refine ⟨leads_merge dictLines A T B p q hp.1 hq.1, ?_⟩
    intro hv
    by_cases hpv : p.isInvalid = true
    · simp [SubwayPath.merge, hpv, SubwayPath.invalid]
    by_cases hqv : q.isInvalid = true
    · simp [SubwayPath.merge, hqv, SubwayPath.invalid]
    simp only [Bool.not_eq_true] at hpv hqv
    rw [merge_eq p q hpv hqv] at hv
    have : p.lines_ = [] := by
      have : (p.lines_ ++ q.lines_).isEmpty = true := hv
      have h2 := List.isEmpty_iff.mp this
      exact (List.append_eq_nil.mp h2).1
    have hp2 : p.lines_.isEmpty = false := hpv
    rw [this] at hp2
    cases hp2

/-- In a constructed network, for stations `A`, `B` with no route between them,
whenever one of the three recursive strategies returns for `(A, B)`, whatever the
recursion budget, the result is the invalid route. -/
theorem invalid_of_no_route (dictLines : DictLines)
    (hk : (dictLines.map Prod.fst).Nodup) (A B : String)
    (hno : ¬ ∃ w, IsRoute dictLines A B w) (fuel : Nat) (p : SubwayPath)
    (h : (SubwayNetwork.new dictLines).getRecursivePath1 fuel A B = .ok p ∨
      (SubwayNetwork.new dictLines).getRecursivePath2 fuel A B = .ok p ∨
      (SubwayNetwork.new dictLines).getRecursivePath3 fuel A B = .ok p) :
    p.isInvalid = true ∧ p = SubwayPath.invalid := by
  have hQ := routeInvariant_leads dictLines
  have hp : Leads dictLines A B p ∧ (p.isInvalid = true → p = SubwayPath.invalid) := by
    rcases h with h | h | h
    · exact getRecursivePath1_inv dictLines hk _ hQ fuel A B p h
    · exact getRecursivePath2_inv dictLines hk _ hQ fuel A B p h
    · exact getRecursivePath3_inv dictLines hk _ hQ fuel A B p h
  have hv : p.isInvalid = true := by
    cases hv : p.isInvalid with
    | true => rfl
    | false => exact absurd ⟨_, (hp.1 hv).2⟩ hno
  exact ⟨hv, hp.2 hv⟩

/-! ## A walk outward that ends reaches the goal -/

theorem mem_split_at_indexOf (stations : StringArray) (X s : String) (hX : X ∈ stations)
    (hs : s ∈ stations) (hne : s ≠ X) :
    s ∈ stations.drop (indexOf stations X + 1) ∨ s ∈ stations.take (indexOf stations X) := by
  have hpos : indexOf stations X < stations.length := List.indexOf_lt_length.mpr hX
  have hsplit : stations = stations.take (indexOf stations X)
      ++ X :: stations.drop (indexOf stations X + 1) := by
    have h1 := List.take_append_drop (indexOf stations X) stations
    rw [List.drop_eq_getElem_cons hpos] at h1
    have h2 : stations[indexOf stations X] = X := List.getElem_indexOf hpos
    rw [h2] at h1
    exact h1.symm
  rw [hsplit] at hs
  simp only [List.mem_append, List.mem_cons] at hs
  rcases hs with h | h | h
  · exact Or.inr h
  · exact absurd h hne
  · exact Or.inl h

theorem not_transfer_of_nearbyOn_nil (dictLines : DictLines) (X line : String)
    (stations : StringArray) (hline : mapFind dictLines line = some stations)
    (hX : X ∈ stations) (hnil : nearbyOn dictLines X line = []) :
    ∀ s ∈ stations, s ≠ X → isTransfer dictLines s = false := by
  have hon : stationsOn dictLines line = stations := by simp [stationsOn, hline]
  unfold nearbyOn at hnil
  rw [hon] at hnil
  obtain ⟨h1, h2⟩ := List.append_eq_nil.mp hnil
  have f1 : (stations.drop (indexOf stations X + 1)).find? (isTransfer dictLines) = none := by
    cases h : (stations.drop (indexOf stations X + 1)).find? (isTransfer dictLines) with
    | none => rfl
    | some v => rw [h] at h1; cases h1
  have f2 : (stations.take (indexOf stations X)).reverse.find? (isTransfer dictLines)
      = none := by
    cases h : (stations.take (indexOf stations X)).reverse.find? (isTransfer dictLines) with
    | none => rfl
    | some v => rw [h] at h2; cases h2
  intro s hs hne
  rcases mem_split_at_indexOf stations X s hX hs hne with h | h
  · simpa using List.find?_eq_none.mp f1 s h
  · simpa using List.find?_eq_none.mp f2 s (List.mem_reverse.mpr h)

theorem mem_of_nextOn (stations : StringArray) (s t : String) (h : nextOn stations s t) :
    s ∈ stations ∧ t ∈ stations := by
  rcases h with h | h
  · have := List.of_mem_zip h
    exact ⟨this.1, List.mem_of_mem_tail this.2⟩
  · have := List.of_mem_zip h
    exact ⟨List.mem_of_mem_tail this.2, this.1⟩

/-- A station without nearby transfer stations shares a line with every station
that a route reaches from it. -/
theorem shares_line_of_no_nearby (dictLines : DictLines)
    (hk : (dictLines.map Prod.fst).Nodup) (X Y : String)
    (hX : (SubwayNetwork.new dictLines).hasStation X = true)
    (hnil : (linesOf dictLines X).flatMap (nearbyOn dictLines X) = [])
    (hroute : ∃ w, IsRoute dictLines X Y w) :
    ∃ line stations, mapFind dictLines line = some stations ∧ X ∈ stations ∧ Y ∈ stations := by
  obtain ⟨w, hw⟩ := hroute
  have hnone : ∀ line stations, mapFind dictLines line = some stations → X ∈ stations →
      ∀ s ∈ stations, s ≠ X → isTransfer dictLines s = false := by
    intro line stations hline hXs
    exact not_transfer_of_nearbyOn_nil dictLines X line stations hline hXs
      (List.flatMap_eq_nil_iff.mp hnil line
        ((mem_linesOf dictLines hk X line).mpr ⟨stations, hline, hXs⟩))
  refine route_invariant dictLines
    (fun s => ∃ line stations, mapFind dictLines line = some stations ∧ X ∈ stations ∧
      s ∈ stations) ?_ X Y w hw ?_
  · rintro s t ⟨⟨l2, st2⟩, hit, hnext⟩ ⟨l1, st1, h1, hX1, hs1⟩
    have h2 : mapFind dictLines l2 = some st2 := (mapFind_iff_mem dictLines hk l2 st2).mpr hit
    obtain ⟨hs2, ht2⟩ := mem_of_nextOn st2 s t hnext
    by_cases hsX : s = X
    · rw [hsX] at hs2
      exact ⟨l2, st2, h2, hs2, ht2⟩
    · have hnt := hnone l1 st1 h1 hX1 s hs1 hsX
      by_cases hl : l1 = l2
      · rw [hl, h2] at h1
        cases h1
        exact ⟨l2, st2, h2, hX1, ht2⟩
      · have htr : isTransfer dictLines s = true :=
          (isTransStation_iff dictLines hk s).mpr ⟨l1, l2, st1, st2, hl, h1, hs1, h2, hs2⟩
        rw [hnt] at htr
        cases htr
  · obtain ⟨⟨line, st⟩, hmem, hXs⟩ := (hasStation_iff dictLines hk X).mp hX
    exact ⟨line, st, (mapFind_iff_mem dictLines hk line st).mpr hmem, hXs, hXs⟩

theorem shares_line_of_nearby (dictLines : DictLines) (hk : (dictLines.map Prod.fst).Nodup)
    (X T : String) (hT : T ∈ (linesOf dictLines X).flatMap (nearbyOn dictLines X)) :
    ∃ line stations, mapFind dictLines line = some stations ∧ X ∈ stations ∧ T ∈ stations := by
  obtain ⟨line, hline, hTl⟩ := List.mem_flatMap.mp hT
  obtain ⟨st, hst, hX⟩ := (mem_linesOf dictLines hk X line).mp hline
  have hon : stationsOn dictLines line = st := by simp [stationsOn, hst]
  refine ⟨line, st, hst, hX, ?_⟩
  unfold nearbyOn at hTl
  rw [hon, List.mem_append] at hTl
  rcases hTl with h | h
  · exact List.mem_of_mem_drop (List.mem_of_find?_eq_some (Option.mem_toList.mp h))
  · exact List.mem_of_mem_take
      (List.mem_reverse.mp (List.mem_of_find?_eq_some (Option.mem_toList.mp h)))

theorem sum_segments_le (segments : List StringArray) (M : Nat)
    (h : ∀ s ∈ segments, s.length ≤ M) :
    (segments.map (fun s => s.length - 1)).sum ≤ segments.length * M := by
  induction segments with
  | nil => simp
  | cons a rest ih =>
    have h1 := h a (by simp)
    have h2 := ih (fun s hs => h s (by simp [hs]))
    simp only [List.map_cons, List.sum_cons, List.length_cons]
    rw [Nat.succ_mul]
    omega

theorem routeInvariant_bounded (dictLines : DictLines) (M : Nat)
    (hM : ∀ it ∈ dictLines, it.2.length ≤ M) :
    RouteInvariant dictLines (fun _ _ p =>
      p.WellFormed ∧ ∀ s ∈ p.stations_, s.length ≤ M) where
  invalid := fun _ _ => ⟨⟨rfl, fun s hs => by cases hs⟩, fun s hs => by cases hs⟩
  ride := by
    intro A B line stations hline hA hB
    refine ⟨wellFormed_single _ _ (segmentOf_ne_nil _ _ _), ?_⟩
    intro s hs
    simp only [List.mem_singleton] at hs
    rw [hs]
    exact le_trans
      (segmentOf_length_le stations _ _ (List.indexOf_lt_length.mpr hA)
        (List.indexOf_lt_length.mpr hB))
      (hM (line, stations) (mem_of_mapFind _ _ _ hline))
  merge := by
    intro A T B p q hp hq
    by_cases hpv : p.isInvalid = true
    · have : p.merge q = ⟨[], []⟩ := by simp [SubwayPath.merge, hpv]
      rw [this]
      exact ⟨⟨rfl, fun s hs => by cases hs⟩, fun s hs => by cases hs⟩
    by_cases hqv : q.isInvalid = true
    · have : p.merge q = ⟨[], []⟩ := by simp [SubwayPath.merge, hqv]
      rw [this]
      exact ⟨⟨rfl, fun s hs => by cases hs⟩, fun s hs => by cases hs⟩
    simp only [Bool.not_eq_true] at hpv hqv
    rw [merge_eq p q hpv hqv]
    refine ⟨⟨by simp [hp.1.1, hq.1.1], ?_⟩, ?_⟩
    · intro s hs
      rcases List.mem_append.mp hs with h | h
      · exact hp.1.2 s h
      · exact hq.1.2 s h
    · intro s hs
      rcases List.mem_append.mp hs with h | h
      · exact hp.2 s h
      · exact hq.2 s h

theorem merge_segments_le (p q : SubwayPath) :
    (p.merge q).stations_.length ≤ p.stations_.length + q.stations_.length := by
  unfold SubwayPath.merge
  split <;> simp

theorem keepShorter_segments_le (best path : SubwayPath) (k : Nat)
    (h1 : best.stations_.length ≤ k) (h2 : path.stations_.length ≤ k) :
    (keepShorter best path).stations_.length ≤ k :=
  keepShorter_cases (fun p => p.stations_.length ≤ k) best path h1 h2

theorem bestRide_segments (dictLines : DictLines) (hk : (dictLines.map Prod.fst).Nodup)
    (A B : String) : (bestRide dictLines A B).stations_.length ≤ 1 := by
  cases hv : (bestRide dictLines A B).isInvalid with
  | true =>
    rcases bestRide_lt dictLines A B with h | h
    · rw [h]
      exact Nat.zero_le _
    · rw [length_invalid _ hv] at h
      exact absurd h (lt_irrefl _)
  | false =>
    obtain ⟨line, st, _, _, _, h4⟩ := bestRide_valid dictLines hk A B hv
    rw [h4]
    exact le_refl _

theorem bestSimple_segments (dictLines : DictLines) (hk : (dictLines.map Prod.fst).Nodup)
    (A B : String) : (bestSimple dictLines A B).stations_.length ≤ 2 := by
  have h1 := bestRide_segments dictLines hk A B
  have h2 : (bestChange dictLines A B).stations_.length ≤ 2 := by
    rcases bestChange_mem dictLines A B with h | ⟨plan, _, h⟩
    · rw [h]
      exact Nat.zero_le _
    · rw [h]
      unfold planRoute
      have a := bestRide_segments dictLines hk A plan.stationT
      have b := bestRide_segments dictLines hk plan.stationT B
      have c := merge_segments_le (bestRide dictLines A plan.stationT)
        (bestRide dictLines plan.stationT B)
      omega
  rw [bestSimple_eq]
  split
  · exact h2
  · omega

theorem hasStation_of_nearby (dictLines : DictLines) (hk : (dictLines.map Prod.fst).Nodup)
    (X T : String) (hT : T ∈ (linesOf dictLines X).flatMap (nearbyOn dictLines X)) :
    (SubwayNetwork.new dictLines).hasStation T = true := by
  obtain ⟨line, st, h1, _, h3⟩ := shares_line_of_nearby dictLines hk X T hT
  exact hasStation_of_mem dictLines hk line T st h1 h3

/-- The route returned with recursion budget `fuel` has at most `fuel + 1` segments. -/
theorem getRecursivePath1_segments (dictLines : DictLines)
    (hk : (dictLines.map Prod.fst).Nodup) (fuel : Nat) (X Y : String) (p : SubwayPath)
    (hX : (SubwayNetwork.new dictLines).hasStation X = true)
    (hY : (SubwayNetwork.new dictLines).hasStation Y = true)
    (h : (SubwayNetwork.new dictLines).getRecursivePath1 fuel X Y = .ok p) :
    p.stations_.length ≤ fuel + 1 := by
  induction fuel generalizing X p with
  | zero => cases h
  | succ n ih =>
    rw [SubwayNetwork.getRecursivePath1, getBestSimplePath_ok dictLines hk X Y hX hY,
      ok_bind] at h
    have hs := bestSimple_segments dictLines hk X Y
    by_cases hv : (bestSimple dictLines X Y).isInvalid = true
    · simp only [hv, Bool.not_true, Bool.false_eq_true, if_false] at h
      rw [getNearbyTransStations_ok dictLines hk X hX, ok_bind] at h
      refine foldlM_inv (fun acc : SubwayPath => acc.stations_.length ≤ n + 1 + 1) _ _ _ _ h
        (by omega) ?_
      intro acc stationAT acc' hAT hacc hstep
      have hT := hasStation_of_nearby dictLines hk X stationAT hAT
      rw [getBestOneLinePath_eq dictLines hk X stationAT hX hT, ok_bind] at hstep
      obtain ⟨p2, h2, hstep⟩ := bind_eq_ok _ _ _ hstep
      have hacc' := pure_eq_ok _ _ hstep
      subst hacc'
      refine keepShorter_segments_le acc _ _ hacc ?_
      have a := bestRide_segments dictLines hk X stationAT
      have b := ih stationAT p2 hT h2
      have c := merge_segments_le (bestRide dictLines X stationAT) p2
      omega
    · simp only [hv, Bool.not_false, if_true] at h
      rw [← pure_eq_ok _ _ h]
      omega

theorem sum_segments_add_le (segments : List StringArray) (M : Nat)
    (h : ∀ s ∈ segments, s.length ≤ M) (hne : ∀ s ∈ segments, s ≠ []) :
    (segments.map (fun s => s.length - 1)).sum + segments.length ≤ segments.length * M := by
  induction segments with
  | nil => simp
  | cons a rest ih =>
    have h1 := h a (by simp)
    have h2 := ih (fun s hs => h s (by simp [hs])) (fun s hs => hne s (by simp [hs]))
    have h3 : 1 ≤ a.length := List.length_pos.mpr (hne a (by simp))
    simp only [List.map_cons, List.sum_cons, List.length_cons]
    rw [Nat.succ_mul]
    omega

/-- A well-formed valid route of at most `k` segments of at most `M` stations
each, with `k * M` below `INT32_MAX`, has a length below `INT32_MAX`. -/
theorem length_lt_of_bounded (p : SubwayPath) (k M : Nat) (hv : p.isInvalid = false)
    (hwf : p.WellFormed) (hM : ∀ s ∈ p.stations_, s.length ≤ M)
    (hk : p.stations_.length ≤ k) (hfit : k * M < 2147483647) :
    p.length < INT32_MAX := by
  have h1 := sum_segments_add_le p.stations_ M hM hwf.2
  have h2 : p.stations_.length * M ≤ k * M := Nat.mul_le_mul_right M hk
  have h3 : 1 ≤ p.stations_.length := List.length_pos.mpr (stations_ne_nil p hv hwf)
  have hcount : stationCount p.stations_ < 2147483647 := by
    unfold stationCount
    omega
  rw [p.length_eq_stationCount hv hwf (by unfold INT32_MAX; omega)]
  unfold INT32_MAX
  omega

theorem bestSimple_valid_of_shared (dictLines : DictLines)
    (hk : (dictLines.map Prod.fst).Nodup)
    (hsize : ∀ it ∈ dictLines, (it.2.length : Int) < INT32_MAX)
    (X Y line : String) (stations : StringArray)
    (hline : mapFind dictLines line = some stations) (hX : X ∈ stations) (hY : Y ∈ stations) :
    (bestSimple dictLines X Y).isInvalid = false := by
  have hr := (bestRide_shared dictLines hk hsize X Y line stations hline hX hY).1
  rw [bestSimple_eq]
  split
  · rename_i hlt
    apply isInvalid_of_length_lt
    rcases bestRide_lt dictLines X Y with h | h
    · rw [h] at hr
      cases hr
    · omega
  · exact hr

theorem foldlM_keepShorter_le (net : SubwayNetwork) (X : String)
    (rec : String → Except Fault SubwayPath) (l : StringArray) (init r : SubwayPath)
    (h : l.foldlM (fun bestPath stationAT => do
        let path ← net.getBestOneLinePath X stationAT
        let path := path.merge (← rec stationAT)
        pure (if path.length < bestPath.length then path else bestPath)) init = .ok r) :
    r.length ≤ init.length := by
  refine foldlM_inv (fun acc : SubwayPath => acc.length ≤ init.length) _ _ _ _ h
    (le_refl _) ?_
  intro acc x acc' _ hacc hstep
  obtain ⟨p1, _, hstep⟩ := bind_eq_ok _ _ _ hstep
  obtain ⟨p2, _, hstep⟩ := bind_eq_ok _ _ _ hstep
  have hacc' := pure_eq_ok _ _ hstep
  subst hacc'
  exact le_trans (keepShorter_length_le_left acc (p1.merge p2)) hacc

/-- When the goal is reachable, a call of the extend-from-`A` strategy that
returns gives a valid route, as long as the routes of that many segments fit
`int`. -/
theorem reachable_result_valid (dictLines : DictLines)
    (hk : (dictLines.map Prod.fst).Nodup) (M : Nat)
    (hM : ∀ it ∈ dictLines, it.2.length ≤ M) (fuel : Nat)
    (hfit : (fuel + 1) * M < 2147483647) (X Y : String) (p : SubwayPath)
    (hX : (SubwayNetwork.new dictLines).hasStation X = true)
    (hY : (SubwayNetwork.new dictLines).hasStation Y = true)
    (hroute : ∃ w, IsRoute dictLines X Y w)
    (h : (SubwayNetwork.new dictLines).getRecursivePath1 fuel X Y = .ok p) :
    p.isInvalid = false := by
  induction fuel generalizing X p with
  | zero => cases h
  | succ n ih =>
    have hmul : (n + 1 + 1) * M = (n + 1) * M + M := Nat.succ_mul (n + 1) M
    have hmul2 : (n + 1) * M = n * M + M := Nat.succ_mul n M
    have hsize : ∀ it ∈ dictLines, (it.2.length : Int) < INT32_MAX := by
      intro it hit
      have := hM it hit
      unfold INT32_MAX
      omega
    rw [SubwayNetwork.getRecursivePath1, getBestSimplePath_ok dictLines hk X Y hX hY,
      ok_bind] at h
    by_cases hv : (bestSimple dictLines X Y).isInvalid = true
    · simp only [hv, Bool.not_true, Bool.false_eq_true, if_false] at h
      rw [getNearbyTransStations_ok dictLines hk X hX, ok_bind] at h
      cases hATs : (linesOf dictLines X).flatMap (nearbyOn dictLines X) with
      | nil =>
        obtain ⟨line, st, h1, h2, h3⟩ :=
          shares_line_of_no_nearby dictLines hk X Y hX hATs hroute
        rw [bestSimple_valid_of_shared dictLines hk hsize X Y line st h1 h2 h3] at hv
        cases hv
      | cons AT0 rest =>
        rw [hATs, List.foldlM_cons] at h
        obtain ⟨acc1, hstep, hrest⟩ := bind_eq_ok _ _ _ h
        have hAT : AT0 ∈ (linesOf dictLines X).flatMap (nearbyOn dictLines X) := by
          rw [hATs]
          exact List.mem_cons_self _ _
        have hT := hasStation_of_nearby dictLines hk X AT0 hAT
        obtain ⟨line, st, s1, s2, s3⟩ := shares_line_of_nearby dictLines hk X AT0 hAT
        have hone := getBestOneLinePath_eq dictLines hk X AT0 hX hT
        rw [hone, ok_bind] at hstep
        obtain ⟨p2, h2, hstep⟩ := bind_eq_ok _ _ _ hstep
        have hacc1 := pure_eq_ok _ _ hstep
        have hQ := routeInvariant_bounded dictLines M hM
        have hb1 := getBestOneLinePath_inv dictLines hk _ hQ X AT0 _ hone
        have hb2 := getRecursivePath1_inv dictLines hk _ hQ n AT0 Y p2 h2
        have hbm := hQ.merge X AT0 Y _ _ hb1 hb2
        have hv1 := (bestRide_shared dictLines hk hsize X AT0 line st s1 s2 s3).1
        have hroute2 : ∃ w, IsRoute dictLines AT0 Y w := by
          obtain ⟨w, hw⟩ := hroute
          exact ⟨_, isRoute_append dictLines AT0 X Y _ w
            (isRoute_segmentOf dictLines line AT0 X st s1 s3 s2) hw⟩
        have hv2 := ih (by omega) AT0 p2 hT hroute2 h2
        have hvm : ((bestRide dictLines X AT0).merge p2).isInvalid = false := by
          rw [merge_eq _ _ hv1 hv2]
          have : (bestRide dictLines X AT0).lines_ ≠ [] := by
            intro e
            simp [SubwayPath.isInvalid, e] at hv1
          simp [SubwayPath.isInvalid, this]
        have hcount : ((bestRide dictLines X AT0).merge p2).stations_.length ≤ n + 1 + 1 := by
          have a := bestRide_segments dictLines hk X AT0
          have b := getRecursivePath1_segments dictLines hk n AT0 Y p2 hT hY h2
          have c := merge_segments_le (bestRide dictLines X AT0) p2
          omega
        have hlt := length_lt_of_bounded _ (n + 1 + 1) M hvm hbm.1 hbm.2 hcount hfit
        have hle1 : acc1.length ≤ ((bestRide dictLines X AT0).merge p2).length := by
          rw [← hacc1]
          exact keepShorter_length_le_right _ _
        have hle2 := foldlM_keepShorter_le _ X _ rest acc1 p hrest
        exact isInvalid_of_length_lt p (by omega)
    · simp only [hv, Bool.not_false, if_true] at h
      rw [← pure_eq_ok _ _ h]
      simpa using hv

/-- C14, amended: in a constructed network, for stations `A`, `B` of it, the
extend-from-`A` strategy returns the valid simple route at once when
`getBestSimplePath(A, B)` is valid; and when `B` is reachable from `A`, every
call of `getRecursivePath1(A, B)` that returns gives a valid route, provided the
routes of that recursion depth fit `int`. That the call returns is not
guaranteed for a reachable pair. -/
theorem getRecursivePath1_valid (dictLines : DictLines)
    (hk : (dictLines.map Prod.fst).Nodup) (M : Nat)
    (hM : ∀ it ∈ dictLines, it.2.length ≤ M) (fuel : Nat)
    (hfit : (fuel + 1) * M < 2147483647) (A B : String)
    (hA : (SubwayNetwork.new dictLines).hasStation A = true)
    (hB : (SubwayNetwork.new dictLines).hasStation B = true) :
    (∀ p, (SubwayNetwork.new dictLines).getBestSimplePath A B = .ok p →
      p.isInvalid = false →
      (SubwayNetwork.new dictLines).getRecursivePath1 (fuel + 1) A B = .ok p) ∧
    ((∃ w, IsRoute dictLines A B w) →
      ∀ p, (SubwayNetwork.new dictLines).getRecursivePath1 fuel A B = .ok p →
        p.isInvalid = false) := by
  constructor
  · intro p h hv
    rw [SubwayNetwork.getRecursivePath1, h, ok_bind]
    simp [hv, pure, Except.pure]
  · intro hroute p h
    exact reachable_result_valid dictLines hk M hM fuel hfit A B p hA hB hroute h

theorem getRecursivePath1_valid_witness :
    IsRoute loopLines "W" "V" ["W", "T1", "T2", "U", "V"] ∧
    (SubwayNetwork.new loopLines).getRecursivePath1 3 "W" "V"
      = .ok ⟨["L5", "L1", "L2", "L3"], [["W", "T1"], ["T1", "T2"], ["T2", "U"], ["U", "V"]]⟩ ∧
    (SubwayPath.mk ["L5", "L1", "L2", "L3"]
      [["W", "T1"], ["T1", "T2"], ["T2", "U"], ["U", "V"]]).isInvalid = false :=
  have hroute : IsRoute loopLines "W" "V" ["W", "T1", "T2", "U", "V"] :=
    ⟨rfl, rfl, List.Chain.cons (by decide) (List.Chain.cons (by decide)
      (List.Chain.cons (by decide) (List.Chain.cons (by decide) List.Chain.nil)))⟩
  ⟨hroute, by decide,
    (getRecursivePath1_valid loopLines (by decide) 2 (by decide) 3 (by decide) "W" "V"
      (by decide) (by decide)).2 ⟨_, hroute⟩ _ (by decide)⟩

/-! ## Searching for a goal that no route reaches -/

theorem foldlM_ok_or_error {α β : Type} (F : β → α → Except Fault β) (l : List α)
    (init : β) (e : Fault)
    (h : ∀ acc, ∀ x ∈ l, (∃ r, F acc x = .ok r) ∨ F acc x = .error e) :
    (∃ r, l.foldlM F init = .ok r) ∨ l.foldlM F init = .error e := by
  induction l generalizing init with
  | nil => exact Or.inl ⟨init, rfl⟩
  | cons a rest ih =>
    rw [List.foldlM_cons]
    rcases h init a (by simp) with ⟨r, hr⟩ | hr
    · rw [hr, ok_bind]
      exact ih r (fun acc x hx => h acc x (by simp [hx]))
    · rw [hr, error_bind]
      exact Or.inr rfl

theorem foldlM_error_of_mem {α β : Type} (F : β → α → Except Fault β) (l : List α)
    (init : β) (e : Fault)
    (h : ∀ acc, ∀ x ∈ l, (∃ r, F acc x = .ok r) ∨ F acc x = .error e)
    (hx : ∃ x ∈ l, ∀ acc, F acc x = .error e) :
    l.foldlM F init = .error e := by
  induction l generalizing init with
  | nil =>
    obtain ⟨x, hmem, _⟩ := hx
    cases hmem
  | cons a rest ih =>
    rw [List.foldlM_cons]
    rcases h init a (by simp) with ⟨r, hr⟩ | hr
    · rw [hr, ok_bind]
      obtain ⟨x, hmem, hall⟩ := hx
      rcases List.mem_cons.mp hmem with e1 | e1
      · have hinit := hall init
        rw [e1, hr] at hinit
        cases hinit
      · exact ih r (fun acc x hx => h acc x (by simp [hx])) ⟨x, e1, hall⟩
    · rw [hr, error_bind]

theorem foldlM_fixed {α β : Type} (F : β → α → Except Fault β) (l : List α) (a : β)
    (h : ∀ x ∈ l, F a x = .ok a) : l.foldlM F a = .ok a := by
  induction l with
  | nil => rfl
  | cons x rest ih =>
    rw [List.foldlM_cons, h x (by simp), ok_bind]
    exact ih (fun y hy => h y (by simp [hy]))

theorem getNearbyTransStations_eq (dictLines : DictLines)
    (hk : (dictLines.map Prod.fst).Nodup) (S : String)
    (hS : (SubwayNetwork.new dictLines).hasStation S = true) :
    (SubwayNetwork.new dictLines).getNearbyTransStations S = .ok (nearbyOf dictLines S) :=
  getNearbyTransStations_ok dictLines hk S hS

theorem hasStation_of_nearbyOf (dictLines : DictLines) (hk : (dictLines.map Prod.fst).Nodup)
    (X T : String) (hT : T ∈ nearbyOf dictLines X) :
    (SubwayNetwork.new dictLines).hasStation T = true :=
  hasStation_of_nearby dictLines hk X T hT

theorem keepShorter_invalid_merge (p : SubwayPath) :
    keepShorter SubwayPath.invalid (p.merge SubwayPath.invalid) = SubwayPath.invalid := by
  have : p.merge SubwayPath.invalid = ⟨[], []⟩ := by
    simp [SubwayPath.merge, SubwayPath.invalid, SubwayPath.isInvalid]
  rw [this]
  rfl

theorem invalid_merge_eq (p : SubwayPath) :
    SubwayPath.invalid.merge p = SubwayPath.invalid := by
  simp [SubwayPath.merge, SubwayPath.invalid, SubwayPath.isInvalid]

theorem isTransfer_of_nearbyOf (dictLines : DictLines) (X T : String)
    (hT : T ∈ nearbyOf dictLines X) : isTransfer dictLines T = true := by
  obtain ⟨line, _, hTl⟩ := List.mem_flatMap.mp hT
  unfold nearbyOn at hTl
  rw [List.mem_append] at hTl
  rcases hTl with h | h
  · rw [Option.mem_toList] at h
    exact List.find?_some h
  · rw [Option.mem_toList] at h
    exact List.find?_some h

/-- A nearby transfer station of a transfer station has a nearby transfer
station itself: the station it was reached from, or one before it. -/
theorem nearbyOf_ne_nil (dictLines : DictLines) (hk : (dictLines.map Prod.fst).Nodup)
    (T Z : String) (hT : isTransfer dictLines T = true) (hZ : Z ∈ nearbyOf dictLines T) :
    nearbyOf dictLines Z ≠ [] := by
  intro hnil
  obtain ⟨line, st, hline, hTs, hZs⟩ := shares_line_of_nearby dictLines hk T Z hZ
  by_cases e : T = Z
  · rw [e, hnil] at hZ
    cases hZ
  · have hn : nearbyOn dictLines Z line = [] :=
      List.flatMap_eq_nil_iff.mp hnil line
        ((mem_linesOf dictLines hk Z line).mpr ⟨st, hline, hZs⟩)
    have := not_transfer_of_nearbyOn_nil dictLines Z line st hline hZs hn T hTs e
    rw [hT] at this
    cases this

theorem no_route_from_nearby (dictLines : DictLines) (hk : (dictLines.map Prod.fst).Nodup)
    (X Z B : String) (hZ : Z ∈ nearbyOf dictLines X)
    (hno : ¬ ∃ w, IsRoute dictLines X B w) : ¬ ∃ w, IsRoute dictLines Z B w := by
  rintro ⟨w, hw⟩
  obtain ⟨line, st, hline, hXs, hZs⟩ := shares_line_of_nearby dictLines hk X Z hZ
  exact hno ⟨_, isRoute_append dictLines X Z B _ w
    (isRoute_segmentOf dictLines line X Z st hline hXs hZs) hw⟩

theorem no_route_to_nearby (dictLines : DictLines) (hk : (dictLines.map Prod.fst).Nodup)
    (A B W : String) (hW : W ∈ nearbyOf dictLines B)
    (hno : ¬ ∃ w, IsRoute dictLines A B w) : ¬ ∃ w, IsRoute dictLines A W w := by
  rintro ⟨w, hw⟩
  obtain ⟨line, st, hline, hBs, hWs⟩ := shares_line_of_nearby dictLines hk B W hW
  exact hno ⟨_, isRoute_append dictLines A W B w _ hw
    (isRoute_segmentOf dictLines line W B st hline hWs hBs)⟩

/-- Between stations that no route joins, `getBestSimplePath` returns the
invalid route. -/
theorem getBestSimplePath_no_route (dictLines : DictLines)
    (hk : (dictLines.map Prod.fst).Nodup) (A B : String)
    (hA : (SubwayNetwork.new dictLines).hasStation A = true)
    (hB : (SubwayNetwork.new dictLines).hasStation B = true)
    (hno : ¬ ∃ w, IsRoute dictLines A B w) :
    (SubwayNetwork.new dictLines).getBestSimplePath A B = .ok SubwayPath.invalid := by
  have h := getBestSimplePath_ok dictLines hk A B hA hB
  have hq := getBestSimplePath_inv dictLines hk _ (routeInvariant_leads dictLines) A B _ h
  cases hv : (bestSimple dictLines A B).isInvalid with
  | true => rw [h, hq.2 hv]
  | false => exact absurd ⟨_, (hq.1 hv).2⟩ hno

/-- With any recursion budget `getRecursivePath1` either returns or exhausts the
budget: between stations of the network it raises no exception. -/
theorem getRecursivePath1_ok_or_outOfFuel (dictLines : DictLines)
    (hk : (dictLines.map Prod.fst).Nodup) (fuel : Nat) (X Y : String)
    (hX : (SubwayNetwork.new dictLines).hasStation X = true)
    (hY : (SubwayNetwork.new dictLines).hasStation Y = true) :
    (∃ p, (SubwayNetwork.new dictLines).getRecursivePath1 fuel X Y = .ok p) ∨
    (SubwayNetwork.new dictLines).getRecursivePath1 fuel X Y = .error .outOfFuel := by
  induction fuel generalizing X with
  | zero => exact Or.inr rfl
  | succ n ih =>
    rw [SubwayNetwork.getRecursivePath1, getBestSimplePath_ok dictLines hk X Y hX hY, ok_bind]
    split
    · exact Or.inl ⟨_, rfl⟩
    · rw [getNearbyTransStations_eq dictLines hk X hX, ok_bind]
      apply foldlM_ok_or_error
      intro acc T hT
      have hTs := hasStation_of_nearbyOf dictLines hk X T hT
      rw [getBestOneLinePath_eq dictLines hk X T hX hTs, ok_bind]
      rcases ih T hTs with ⟨r, hr⟩ | hr
      · rw [hr, ok_bind]
        exact Or.inl ⟨_, rfl⟩
      · rw [hr, error_bind]
        exact Or.inr rfl

theorem getRecursivePath2_ok_or_outOfFuel (dictLines : DictLines)
    (hk : (dictLines.map Prod.fst).Nodup) (fuel : Nat) (X Y : String)
    (hX : (SubwayNetwork.new dictLines).hasStation X = true)
    (hY : (SubwayNetwork.new dictLines).hasStation Y = true) :
    (∃ p, (SubwayNetwork.new dictLines).getRecursivePath2 fuel X Y = .ok p) ∨
    (SubwayNetwork.new dictLines).getRecursivePath2 fuel X Y = .error .outOfFuel := by
  induction fuel generalizing Y with
  | zero => exact Or.inr rfl
  | succ n ih =>
    rw [SubwayNetwork.getRecursivePath2, getBestSimplePath_ok dictLines hk X Y hX hY, ok_bind]
    split
    · exact Or.inl ⟨_, rfl⟩
    · rw [getNearbyTransStations_eq dictLines hk Y hY, ok_bind]
      apply foldlM_ok_or_error
      intro acc T hT
      have hTs := hasStation_of_nearbyOf dictLines hk Y T hT
      rcases ih T hTs with ⟨r, hr⟩ | hr
      · rw [hr, ok_bind, getBestOneLinePath_eq dictLines hk T Y hTs hY, ok_bind]
        exact Or.inl ⟨_, rfl⟩
      · rw [hr, error_bind]
        exact Or.inr rfl

theorem getRecursivePath3_ok_or_outOfFuel (dictLines : DictLines)
    (hk : (dictLines.map Prod.fst).Nodup) (fuel : Nat) (X Y : String)
    (hX : (SubwayNetwork.new dictLines).hasStation X = true)
    (hY : (SubwayNetwork.new dictLines).hasStation Y = true) :
    (∃ p, (SubwayNetwork.new dictLines).getRecursivePath3 fuel X Y = .ok p) ∨
    (SubwayNetwork.new dictLines).getRecursivePath3 fuel X Y = .error .outOfFuel := by
  induction fuel generalizing X Y with
  | zero => exact Or.inr rfl
  | succ n ih =>
    rw [SubwayNetwork.getRecursivePath3, getBestSimplePath_ok dictLines hk X Y hX hY, ok_bind]
    split
    · exact Or.inl ⟨_, rfl⟩
    · rw [getNearbyTransStations_eq dictLines hk X hX, ok_bind,
        getNearbyTransStations_eq dictLines hk Y hY, ok_bind]
      apply foldlM_ok_or_error
      intro acc T hT
      apply foldlM_ok_or_error
      intro acc2 W hW
      have hTs := hasStation_of_nearbyOf dictLines hk X T hT
      have hWs := hasStation_of_nearbyOf dictLines hk Y W hW
      rw [getBestOneLinePath_eq dictLines hk X T hX hTs, ok_bind]
      rcases ih T W hTs hWs with ⟨r, hr⟩ | hr
      · rw [hr, ok_bind, getBestOneLinePath_eq dictLines hk W Y hWs hY, ok_bind]
        exact Or.inl ⟨_, rfl⟩
      · rw [hr, error_bind]
        exact Or.inr rfl

theorem if_not_invalid {α : Type} (a b : α) :
    (if (!SubwayPath.invalid.isInvalid) = true then a else b) = b := rfl

theorem keepShorter_invalid_merge_merge (p q : SubwayPath) :
    keepShorter SubwayPath.invalid ((p.merge SubwayPath.invalid).merge q)
      = SubwayPath.invalid := by
  have : (p.merge SubwayPath.invalid).merge q = ⟨[], []⟩ := by
    simp [SubwayPath.merge, SubwayPath.invalid, SubwayPath.isInvalid]
  rw [this]
  rfl

theorem keepShorter_invalid_left_merge (q : SubwayPath) :
    keepShorter SubwayPath.invalid (SubwayPath.invalid.merge q) = SubwayPath.invalid := by
  rw [invalid_merge_eq]
  rfl

theorem hasOnwardHop_iff (dictLines : DictLines) (hk : (dictLines.map Prod.fst).Nodup)
    (S : String) (hS : (SubwayNetwork.new dictLines).hasStation S = true) :
    hasOnwardHop (SubwayNetwork.new dictLines) S
      ↔ ∃ T ∈ nearbyOf dictLines S, nearbyOf dictLines T ≠ [] := by
  constructor
  · rintro ⟨l, T, onward, h1, hT, h2, hne⟩
    rw [getNearbyTransStations_eq dictLines hk S hS] at h1
    cases h1
    rw [getNearbyTransStations_eq dictLines hk T
      (hasStation_of_nearbyOf dictLines hk S T hT)] at h2
    cases h2
    exact ⟨T, hT, hne⟩
  · rintro ⟨T, hT, hne⟩
    exact ⟨_, T, _, getNearbyTransStations_eq dictLines hk S hS, hT,
      getNearbyTransStations_eq dictLines hk T (hasStation_of_nearbyOf dictLines hk S T hT),
      hne⟩

/-- From a transfer station that has a nearby transfer station, towards a goal
that no route reaches, `getRecursivePath1` exhausts every recursion budget. -/
theorem getRecursivePath1_stuck (dictLines : DictLines)
    (hk : (dictLines.map Prod.fst).Nodup) (B : String)
    (hB : (SubwayNetwork.new dictLines).hasStation B = true) (fuel : Nat) (T : String)
    (hTs : (SubwayNetwork.new dictLines).hasStation T = true)
    (hT : isTransfer dictLines T = true) (hne : nearbyOf dictLines T ≠ [])
    (hno : ¬ ∃ w, IsRoute dictLines T B w) :
    (SubwayNetwork.new dictLines).getRecursivePath1 fuel T B = .error .outOfFuel := by
  induction fuel generalizing T with
  | zero => rfl
  | succ n ih =>
    rw [SubwayNetwork.getRecursivePath1, getBestSimplePath_no_route dictLines hk T B hTs hB hno,
      ok_bind, if_not_invalid, getNearbyTransStations_eq dictLines hk T hTs, ok_bind]
    obtain ⟨Z, rest, hl⟩ := List.exists_cons_of_ne_nil hne
    have hZ : Z ∈ nearbyOf dictLines T := by rw [hl]; simp
    have hZs := hasStation_of_nearbyOf dictLines hk T Z hZ
    rw [hl]
    apply foldlM_error
    rw [getBestOneLinePath_eq dictLines hk T Z hTs hZs, ok_bind,
      ih Z hZs (isTransfer_of_nearbyOf dictLines T Z hZ) (nearbyOf_ne_nil dictLines hk T Z hT hZ)
        (no_route_from_nearby dictLines hk T Z B hZ hno), error_bind]

theorem getRecursivePath1_diverges (dictLines : DictLines)
    (hk : (dictLines.map Prod.fst).Nodup) (A B : String)
    (hA : (SubwayNetwork.new dictLines).hasStation A = true)
    (hB : (SubwayNetwork.new dictLines).hasStation B = true)
    (hno : ¬ ∃ w, IsRoute dictLines A B w)
    (hhop : ∃ T ∈ nearbyOf dictLines A, nearbyOf dictLines T ≠ []) (fuel : Nat) :
    (SubwayNetwork.new dictLines).getRecursivePath1 fuel A B = .error .outOfFuel := by
  cases fuel with
  | zero => rfl
  | succ n =>
    rw [SubwayNetwork.getRecursivePath1, getBestSimplePath_no_route dictLines hk A B hA hB hno,
      ok_bind, if_not_invalid, getNearbyTransStations_eq dictLines hk A hA, ok_bind]
    apply foldlM_error_of_mem
    · intro acc T hT
      have hTs := hasStation_of_nearbyOf dictLines hk A T hT
      rw [getBestOneLinePath_eq dictLines hk A T hA hTs, ok_bind]
      rcases getRecursivePath1_ok_or_outOfFuel dictLines hk n T B hTs hB with ⟨r, hr⟩ | hr
      · rw [hr, ok_bind]
        exact Or.inl ⟨_, rfl⟩
      · rw [hr, error_bind]
        exact Or.inr rfl
    · obtain ⟨T, hT, hne⟩ := hhop
      have hTs := hasStation_of_nearbyOf dictLines hk A T hT
      refine ⟨T, hT, fun acc => ?_⟩
      rw [getBestOneLinePath_eq dictLines hk A T hA hTs, ok_bind,
        getRecursivePath1_stuck dictLines hk B hB n T hTs
          (isTransfer_of_nearbyOf dictLines A T hT) hne
          (no_route_from_nearby dictLines hk A T B hT hno), error_bind]

theorem getRecursivePath1_gives_up (dictLines : DictLines)
    (hk : (dictLines.map Prod.fst).Nodup) (A B : String)
    (hA : (SubwayNetwork.new dictLines).hasStation A = true)
    (hB : (SubwayNetwork.new dictLines).hasStation B = true)
    (hno : ¬ ∃ w, IsRoute dictLines A B w)
    (hnil : ∀ T ∈ nearbyOf dictLines A, nearbyOf dictLines T = []) (fuel : Nat) :
    (SubwayNetwork.new dictLines).getRecursivePath1 (fuel + 2) A B
      = .ok SubwayPath.invalid := by
  have inner : ∀ T ∈ nearbyOf dictLines A,
      (SubwayNetwork.new dictLines).getRecursivePath1 (fuel + 1) T B
        = .ok SubwayPath.invalid := by
    intro T hT
    have hTs := hasStation_of_nearbyOf dictLines hk A T hT
    rw [SubwayNetwork.getRecursivePath1, getBestSimplePath_no_route dictLines hk T B hTs hB
      (no_route_from_nearby dictLines hk A T B hT hno),
      ok_bind, if_not_invalid, getNearbyTransStations_eq dictLines hk T hTs, ok_bind,
      hnil T hT]
    rfl
  rw [SubwayNetwork.getRecursivePath1, getBestSimplePath_no_route dictLines hk A B hA hB hno,
    ok_bind, if_not_invalid, getNearbyTransStations_eq dictLines hk A hA, ok_bind]
  apply foldlM_fixed
  intro T hT
  have hTs := hasStation_of_nearbyOf dictLines hk A T hT
  rw [getBestOneLinePath_eq dictLines hk A T hA hTs, ok_bind, inner T hT, ok_bind]
  exact congrArg Except.ok (keepShorter_invalid_merge _)

/-- Towards a transfer station that has a nearby transfer station and that no
route reaches from the start, `getRecursivePath2` exhausts every recursion budget. -/
theorem getRecursivePath2_stuck (dictLines : DictLines)
    (hk : (dictLines.map Prod.fst).Nodup) (A : String)
    (hA : (SubwayNetwork.new dictLines).hasStation A = true) (fuel : Nat) (T : String)
    (hTs : (SubwayNetwork.new dictLines).hasStation T = true)
    (hT : isTransfer dictLines T = true) (hne : nearbyOf dictLines T ≠ [])
    (hno : ¬ ∃ w, IsRoute dictLines A T w) :
    (SubwayNetwork.new dictLines).getRecursivePath2 fuel A T = .error .outOfFuel := by
  induction fuel generalizing T with
  | zero => rfl
  | succ n ih =>
    rw [SubwayNetwork.getRecursivePath2, getBestSimplePath_no_route dictLines hk A T hA hTs hno,
      ok_bind, if_not_invalid, getNearbyTransStations_eq dictLines hk T hTs, ok_bind]
    obtain ⟨Z, rest, hl⟩ := List.exists_cons_of_ne_nil hne
    have hZ : Z ∈ nearbyOf dictLines T := by rw [hl]; simp
    have hZs := hasStation_of_nearbyOf dictLines hk T Z hZ
    rw [hl]
    apply foldlM_error
    rw [ih Z hZs (isTransfer_of_nearbyOf dictLines T Z hZ) (nearbyOf_ne_nil dictLines hk T Z hT hZ)
        (no_route_to_nearby dictLines hk A T Z hZ hno), error_bind]

theorem getRecursivePath2_diverges (dictLines : DictLines)
    (hk : (dictLines.map Prod.fst).Nodup) (A B : String)
    (hA : (SubwayNetwork.new dictLines).hasStation A = true)
    (hB : (SubwayNetwork.new dictLines).hasStation B = true)
    (hno : ¬ ∃ w, IsRoute dictLines A B w)
    (hhop : ∃ T ∈ nearbyOf dictLines B, nearbyOf dictLines T ≠ []) (fuel : Nat) :
    (SubwayNetwork.new dictLines).getRecursivePath2 fuel A B = .error .outOfFuel := by
  cases fuel with
  | zero => rfl
  | succ n =>
    rw [SubwayNetwork.getRecursivePath2, getBestSimplePath_no_route dictLines hk A B hA hB hno,
      ok_bind, if_not_invalid, getNearbyTransStations_eq dictLines hk B hB, ok_bind]
    apply foldlM_error_of_mem
    · intro acc T hT
      have hTs := hasStation_of_nearbyOf dictLines hk B T hT
      rcases getRecursivePath2_ok_or_outOfFuel dictLines hk n A T hA hTs with ⟨r, hr⟩ | hr
      · rw [hr, ok_bind, getBestOneLinePath_eq dictLines hk T B hTs hB, ok_bind]
        exact Or.inl ⟨_, rfl⟩
      · rw [hr, error_bind]
        exact Or.inr rfl
    · obtain ⟨T, hT, hne⟩ := hhop
      have hTs := hasStation_of_nearbyOf dictLines hk B T hT
      refine ⟨T, hT, fun acc => ?_⟩
      rw [getRecursivePath2_stuck dictLines hk A hA n T hTs
          (isTransfer_of_nearbyOf dictLines B T hT) hne
          (no_route_to_nearby dictLines hk A B T hT hno), error_bind]

theorem getRecursivePath2_gives_up (dictLines : DictLines)
    (hk : (dictLines.map Prod.fst).Nodup) (A B : String)
    (hA : (SubwayNetwork.new dictLines).hasStation A = true)
    (hB : (SubwayNetwork.new dictLines).hasStation B = true)
    (hno : ¬ ∃ w, IsRoute dictLines A B w)
    (hnil : ∀ T ∈ nearbyOf dictLines B, nearbyOf dictLines T = []) (fuel : Nat) :
    (SubwayNetwork.new dictLines).getRecursivePath2 (fuel + 2) A B
      = .ok SubwayPath.invalid := by
  have inner : ∀ T ∈ nearbyOf dictLines B,
      (SubwayNetwork.new dictLines).getRecursivePath2 (fuel + 1) A T
        = .ok SubwayPath.invalid := by
    intro T hT
    have hTs := hasStation_of_nearbyOf dictLines hk B T hT
    rw [SubwayNetwork.getRecursivePath2, getBestSimplePath_no_route dictLines hk A T hA hTs
      (no_route_to_nearby dictLines hk A B T hT hno),
      ok_bind, if_not_invalid, getNearbyTransStations_eq dictLines hk T hTs, ok_bind,
      hnil T hT]
    rfl
  rw [SubwayNetwork.getRecursivePath2, getBestSimplePath_no_route dictLines hk A B hA hB hno,
    ok_bind, if_not_invalid, getNearbyTransStations_eq dictLines hk B hB, ok_bind]
  apply foldlM_fixed
  intro T hT
  have hTs := hasStation_of_nearbyOf dictLines hk B T hT
  rw [inner T hT, ok_bind, getBestOneLinePath_eq dictLines hk T B hTs hB, ok_bind]
  exact congrArg Except.ok (keepShorter_invalid_left_merge _)

/-- Between two transfer stations that each have a nearby transfer station and
that no route joins, `getRecursivePath3` exhausts every recursion budget. -/
theorem getRecursivePath3_stuck (dictLines : DictLines)
    (hk : (dictLines.map Prod.fst).Nodup) (fuel : Nat) (T W : String)
    (hTs : (SubwayNetwork.new dictLines).hasStation T = true)
    (hWs : (SubwayNetwork.new dictLines).hasStation W = true)
    (hT : isTransfer dictLines T = true) (hTne : nearbyOf dictLines T ≠ [])
    (hW : isTransfer dictLines W = true) (hWne : nearbyOf dictLines W ≠ [])
    (hno : ¬ ∃ w, IsRoute dictLines T W w) :
    (SubwayNetwork.new dictLines).getRecursivePath3 fuel T W = .error .outOfFuel := by
  induction fuel generalizing T W with
  | zero => rfl
  | succ n ih =>
    rw [SubwayNetwork.getRecursivePath3, getBestSimplePath_no_route dictLines hk T W hTs hWs hno,
      ok_bind, if_not_invalid, getNearbyTransStations_eq dictLines hk T hTs, ok_bind,
      getNearbyTransStations_eq dictLines hk W hWs, ok_bind]
    obtain ⟨Z, rest, hl⟩ := List.exists_cons_of_ne_nil hTne
    obtain ⟨V, rest2, hl2⟩ := List.exists_cons_of_ne_nil hWne
    have hZ : Z ∈ nearbyOf dictLines T := by rw [hl]; simp
    have hV : V ∈ nearbyOf dictLines W := by rw [hl2]; simp
    have hZs := hasStation_of_nearbyOf dictLines hk T Z hZ
    have hVs := hasStation_of_nearbyOf dictLines hk W V hV
    rw [hl, hl2]
    apply foldlM_error
    apply foldlM_error
    rw [getBestOneLinePath_eq dictLines hk T Z hTs hZs, ok_bind,
      ih Z V hZs hVs (isTransfer_of_nearbyOf dictLines T Z hZ)
        (nearbyOf_ne_nil dictLines hk T Z hT hZ) (isTransfer_of_nearbyOf dictLines W V hV)
        (nearbyOf_ne_nil dictLines hk W V hW hV)
        (no_route_to_nearby dictLines hk Z W V hV
          (no_route_from_nearby dictLines hk T Z W hZ hno)), error_bind]

theorem getRecursivePath3_diverges (dictLines : DictLines)
    (hk : (dictLines.map Prod.fst).Nodup) (A B : String)
    (hA : (SubwayNetwork.new dictLines).hasStation A = true)
    (hB : (SubwayNetwork.new dictLines).hasStation B = true)
    (hno : ¬ ∃ w, IsRoute dictLines A B w)
    (hhopA : ∃ T ∈ nearbyOf dictLines A, nearbyOf dictLines T ≠ [])
    (hhopB : ∃ W ∈ nearbyOf dictLines B, nearbyOf dictLines W ≠ []) (fuel : Nat) :
    (SubwayNetwork.new dictLines).getRecursivePath3 fuel A B = .error .outOfFuel := by
  cases fuel with
  | zero => rfl
  | succ n =>
    rw [SubwayNetwork.getRecursivePath3, getBestSimplePath_no_route dictLines hk A B hA hB hno,
      ok_bind, if_not_invalid, getNearbyTransStations_eq dictLines hk A hA, ok_bind,
      getNearbyTransStations_eq dictLines hk B hB, ok_bind]
    have hstep : ∀ (acc : SubwayPath), ∀ T ∈ nearbyOf dictLines A, ∀ W ∈ nearbyOf dictLines B,
        (∃ r, (do
          let path ← (SubwayNetwork.new dictLines).getBestOneLinePath A T
          let path := path.merge (← (SubwayNetwork.new dictLines).getRecursivePath3 n T W)
          let path := path.merge (← (SubwayNetwork.new dictLines).getBestOneLinePath W B)
          pure (if path.length < acc.length then path else acc)) = Except.ok r) ∨
        (do
          let path ← (SubwayNetwork.new dictLines).getBestOneLinePath A T
          let path := path.merge (← (SubwayNetwork.new dictLines).getRecursivePath3 n T W)
          let path := path.merge (← (SubwayNetwork.new dictLines).getBestOneLinePath W B)
          pure (if path.length < acc.length then path else acc))
            = Except.error Fault.outOfFuel := by
      intro acc T hT W hW
      have hTs := hasStation_of_nearbyOf dictLines hk A T hT
      have hWs := hasStation_of_nearbyOf dictLines hk B W hW
      rw [getBestOneLinePath_eq dictLines hk A T hA hTs, ok_bind]
      rcases getRecursivePath3_ok_or_outOfFuel dictLines hk n T W hTs hWs with ⟨r, hr⟩ | hr
      · rw [hr, ok_bind, getBestOneLinePath_eq dictLines hk W B hWs hB, ok_bind]
        exact Or.inl ⟨_, rfl⟩
      · rw [hr, error_bind]
        exact Or.inr rfl
    obtain ⟨T, hT, hTne⟩ := hhopA
    obtain ⟨W, hW, hWne⟩ := hhopB
    have hTs := hasStation_of_nearbyOf dictLines hk A T hT
    have hWs := hasStation_of_nearbyOf dictLines hk B W hW
    apply foldlM_error_of_mem
    · intro acc T2 hT2
      apply foldlM_ok_or_error
      intro acc2 W2 hW2
      exact hstep acc2 T2 hT2 W2 hW2
    · refine ⟨T, hT, fun acc => ?_⟩
      apply foldlM_error_of_mem
      · intro acc2 W2 hW2
        exact hstep acc2 T hT W2 hW2
      · refine ⟨W, hW, fun acc2 => ?_⟩
        rw [getBestOneLinePath_eq dictLines hk A T hA hTs, ok_bind,
          getRecursivePath3_stuck dictLines hk n T W hTs hWs
            (isTransfer_of_nearbyOf dictLines A T hT) hTne
            (isTransfer_of_nearbyOf dictLines B W hW) hWne
            (no_route_to_nearby dictLines hk T B W hW
              (no_route_from_nearby dictLines hk A T B hT hno)), error_bind]

theorem getRecursivePath3_gives_up (dictLines : DictLines)
    (hk : (dictLines.map Prod.fst).Nodup) (A B : String)
    (hA : (SubwayNetwork.new dictLines).hasStation A = true)
    (hB : (SubwayNetwork.new dictLines).hasStation B = true)
    (hno : ¬ ∃ w, IsRoute dictLines A B w)
    (hnil : (∀ T ∈ nearbyOf dictLines A, nearbyOf dictLines T = []) ∨
      (∀ W ∈ nearbyOf dictLines B, nearbyOf dictLines W = [])) (fuel : Nat) :
    (SubwayNetwork.new dictLines).getRecursivePath3 (fuel + 2) A B
      = .ok SubwayPath.invalid := by
  have inner : ∀ T ∈ nearbyOf dictLines A, ∀ W ∈ nearbyOf dictLines B,
      (SubwayNetwork.new dictLines).getRecursivePath3 (fuel + 1) T W
        = .ok SubwayPath.invalid := by
    intro T hT W hW
    have hTs := hasStation_of_nearbyOf dictLines hk A T hT
    have hWs := hasStation_of_nearbyOf dictLines hk B W hW
    rw [SubwayNetwork.getRecursivePath3, getBestSimplePath_no_route dictLines hk T W hTs hWs
      (no_route_to_nearby dictLines hk T B W hW
        (no_route_from_nearby dictLines hk A T B hT hno)),
      ok_bind, if_not_invalid, getNearbyTransStations_eq dictLines hk T hTs, ok_bind,
      getNearbyTransStations_eq dictLines hk W hWs, ok_bind]
    rcases hnil with h | h
    · rw [h T hT]
      rfl
    · rw [h W hW]
      apply foldlM_fixed
      intro x _
      rfl
  rw [SubwayNetwork.getRecursivePath3, getBestSimplePath_no_route dictLines hk A B hA hB hno,
    ok_bind, if_not_invalid, getNearbyTransStations_eq dictLines hk A hA, ok_bind,
    getNearbyTransStations_eq dictLines hk B hB, ok_bind]
  apply foldlM_fixed
  intro T hT
  apply foldlM_fixed
  intro W hW
  have hTs := hasStation_of_nearbyOf dictLines hk A T hT
  have hWs := hasStation_of_nearbyOf dictLines hk B W hW
  rw [getBestOneLinePath_eq dictLines hk A T hA hTs, ok_bind, inner T hT W hW, ok_bind,
    getBestOneLinePath_eq dictLines hk W B hWs hB, ok_bind]
  exact congrArg Except.ok (keepShorter_invalid_merge_merge _ _)

theorem islandLines_no_route : ¬ ∃ w, IsRoute islandLines "A" "C" w := by
  rintro ⟨w, hw⟩
  have := route_invariant islandLines (fun s => s ≠ "C" ∧ s ≠ "D") (by
    intro s t hadj hs
    obtain ⟨h1, h2⟩ := hs
    have ht : t = "A" ∨ t = "P" ∨ t = "Q" ∨ t = "X" ∨ t = "Y" ∨ s = "C" ∨ s = "D" := by
      simp only [adjacent, nextOn, islandLines, List.mem_cons, List.mem_singleton,
        List.not_mem_nil, or_false, exists_eq_or_imp, exists_eq_left, List.tail_cons,
        List.zip_cons_cons, List.zip_nil_right, Prod.mk.injEq] at hadj
      tauto
    rcases ht with h | h | h | h | h | h | h
    · rw [h]; exact ⟨by decide, by decide⟩
    · rw [h]; exact ⟨by decide, by decide⟩
    · rw [h]; exact ⟨by decide, by decide⟩
    · rw [h]; exact ⟨by decide, by decide⟩
    · rw [h]; exact ⟨by decide, by decide⟩
    · exact absurd h h1
    · exact absurd h h2) "A" "C" w hw ⟨by decide, by decide⟩
  exact this.1 rfl

theorem islandLines_onward : hasOnwardHop (SubwayNetwork.new islandLines) "A" :=
  ⟨["P"], "P", ["Q"], by decide, by simp, by decide, by simp⟩

theorem disjointLines_no_onward : ¬ hasOnwardHop (SubwayNetwork.new disjointLines) "A" := by
  rintro ⟨l, T, onward, h1, hT, _⟩
  have h0 : (SubwayNetwork.new disjointLines).getNearbyTransStations "A" = .ok [] := by decide
  rw [h0] at h1
  cases h1
  cases hT

/-- C13, amended: in a constructed network, for stations `A` and `B` that no
route joins, none of the three recursive strategies returns a valid route: what
one of them returns is the invalid route. Whether a strategy returns depends on
the transfer stations around the endpoints. `getRecursivePath1(A, B)` exhausts
every recursion budget when some nearby transfer station of `A` has a nearby
transfer station of its own, and otherwise returns the invalid route with every
budget of two or more. `getRecursivePath2(A, B)` does so with the nearby transfer
stations of `B`. `getRecursivePath3(A, B)` exhausts every budget when this holds
both at `A` and at `B`, and otherwise returns the invalid route. -/
theorem recursion_without_route (dictLines : DictLines)
    (hk : (dictLines.map Prod.fst).Nodup) (A B : String)
    (hA : (SubwayNetwork.new dictLines).hasStation A = true)
    (hB : (SubwayNetwork.new dictLines).hasStation B = true)
    (hno : ¬ ∃ w, IsRoute dictLines A B w) :
    (∀ fuel p,
      ((SubwayNetwork.new dictLines).getRecursivePath1 fuel A B = .ok p ∨
        (SubwayNetwork.new dictLines).getRecursivePath2 fuel A B = .ok p ∨
        (SubwayNetwork.new dictLines).getRecursivePath3 fuel A B = .ok p) →
      p.isInvalid = true ∧ p = SubwayPath.invalid) ∧
    (hasOnwardHop (SubwayNetwork.new dictLines) A →
      ∀ fuel, (SubwayNetwork.new dictLines).getRecursivePath1 fuel A B
        = .error .outOfFuel) ∧
    (¬ hasOnwardHop (SubwayNetwork.new dictLines) A →
      ∀ fuel, (SubwayNetwork.new dictLines).getRecursivePath1 (fuel + 2) A B
        = .ok SubwayPath.invalid) ∧
    (hasOnwardHop (SubwayNetwork.new dictLines) B →
      ∀ fuel, (SubwayNetwork.new dictLines).getRecursivePath2 fuel A B
        = .error .outOfFuel) ∧
    (¬ hasOnwardHop (SubwayNetwork.new dictLines) B →
      ∀ fuel, (SubwayNetwork.new dictLines).getRecursivePath2 (fuel + 2) A B
        = .ok SubwayPath.invalid) ∧
    (hasOnwardHop (SubwayNetwork.new dictLines) A ∧
        hasOnwardHop (SubwayNetwork.new dictLines) B →
      ∀ fuel, (SubwayNetwork.new dictLines).getRecursivePath3 fuel A B
        = .error .outOfFuel) ∧
    (¬ (hasOnwardHop (SubwayNetwork.new dictLines) A ∧
        hasOnwardHop (SubwayNetwork.new dictLines) B) →
      ∀ fuel, (SubwayNetwork.new dictLines).getRecursivePath3 (fuel + 2) A B
        = .ok SubwayPath.invalid) := by
  have eA := hasOnwardHop_iff dictLines hk A hA
  have eB := hasOnwardHop_iff dictLines hk B hB
  have nA : ¬ hasOnwardHop (SubwayNetwork.new dictLines) A →
      ∀ T ∈ nearbyOf dictLines A, nearbyOf dictLines T = [] := by
    intro h T hT
    by_contra hne
    exact h (eA.mpr ⟨T, hT, hne⟩)
  have nB : ¬ hasOnwardHop (SubwayNetwork.new dictLines) B →
      ∀ T ∈ nearbyOf dictLines B, nearbyOf dictLines T = [] := by
    intro h T hT
    by_contra hne
    exact h (eB.mpr ⟨T, hT, hne⟩)
  refine ⟨fun fuel p h => invalid_of_no_route dictLines hk A B hno fuel p h,
    fun h => getRecursivePath1_diverges dictLines hk A B hA hB hno (eA.mp h),
    fun h => getRecursivePath1_gives_up dictLines hk A B hA hB hno (nA h),
    fun h => getRecursivePath2_diverges dictLines hk A B hA hB hno (eB.mp h),
    fun h => getRecursivePath2_gives_up dictLines hk A B hA hB hno (nB h),
    fun h => getRecursivePath3_diverges dictLines hk A B hA hB hno (eA.mp h.1) (eB.mp h.2),
    fun h => getRecursivePath3_gives_up dictLines hk A B hA hB hno ?_⟩
  by_cases hhA : hasOnwardHop (SubwayNetwork.new dictLines) A
  · exact Or.inr (nB (fun hhB => h ⟨hhA, hhB⟩))
  · exact Or.inl (nA hhA)

theorem recursion_without_route_witness :
    ((¬ ∃ w, IsRoute islandLines "A" "C" w) ∧
      hasOnwardHop (SubwayNetwork.new islandLines) "A" ∧
      (SubwayNetwork.new islandLines).getRecursivePath1 5 "A" "C" = .error .outOfFuel) ∧
    ((¬ ∃ w, IsRoute disjointLines "A" "C" w) ∧
      ¬ hasOnwardHop (SubwayNetwork.new disjointLines) "A" ∧
      (SubwayNetwork.new disjointLines).getRecursivePath1 (0 + 2) "A" "C"
        = .ok SubwayPath.invalid) :=
  ⟨⟨islandLines_no_route, islandLines_onward,
      (recursion_without_route islandLines (by decide) "A" "C" (by decide) (by decide)
        islandLines_no_route).2.1 islandLines_onward 5⟩,
    ⟨disjointLines_no_route, disjointLines_no_onward,
      (recursion_without_route disjointLines (by decide) "A" "C" (by decide) (by decide)
        disjointLines_no_route).2.2.1 disjointLines_no_onward 0⟩⟩

/-! ## The simple search gives the same length in both directions -/

theorem length_ride (line : String) (segment : StringArray) :
    (SubwayPath.mk [line] [segment]).length = wrapInt32 (1 + ((segment.length : Int) - 1)) := by
  unfold SubwayPath.length
  simp only [List.isEmpty_cons, Bool.false_eq_true, if_false, List.length_cons, List.length_nil]
  rfl

theorem length_ride_ride (l1 l2 : String) (s1 s2 : StringArray) :
    (SubwayPath.mk [l1, l2] [s1, s2]).length
      = wrapInt32 (wrapInt32 (1 + ((s1.length : Int) - 1)) + ((s2.length : Int) - 1)) := by
  unfold SubwayPath.length
  simp only [List.isEmpty_cons, Bool.false_eq_true, if_false, List.length_cons, List.length_nil]
  rfl

/-- The length of two rides merged, in `int` arithmetic: the sum of their
lengths less one. -/
theorem length_two_rides (l1 l2 : String) (s1 s2 : StringArray) :
    ((SubwayPath.mk [l1] [s1]).merge (SubwayPath.mk [l2] [s2])).length
      = wrapInt32 ((SubwayPath.mk [l1] [s1]).length + (SubwayPath.mk [l2] [s2]).length - 1) := by
  have hm : (SubwayPath.mk [l1] [s1]).merge (SubwayPath.mk [l2] [s2])
      = SubwayPath.mk [l1, l2] [s1, s2] := rfl
  rw [hm, length_ride, length_ride, length_ride_ride]
  unfold wrapInt32
  omega

/-- A best ride is the invalid route or a ride along one line. -/
theorem bestRide_cases (dictLines : DictLines) (hk : (dictLines.map Prod.fst).Nodup)
    (A B : String) :
    bestRide dictLines A B = SubwayPath.invalid ∨
    ∃ line stations, mapFind dictLines line = some stations ∧ A ∈ stations ∧ B ∈ stations ∧
      (bestRide dictLines A B).length < INT32_MAX ∧
      bestRide dictLines A B
        = ⟨[line], [segmentOf stations (indexOf stations A) (indexOf stations B)]⟩ := by
  rcases bestRide_lt dictLines A B with h | h
  · exact Or.inl h
  · obtain ⟨line, st, h1, h2, h3, h4⟩ :=
      bestRide_valid dictLines hk A B (isInvalid_of_length_lt _ h)
    exact Or.inr ⟨line, st, h1, h2, h3, h, h4⟩

theorem length_ride_swap (line : String) (stations : StringArray) (iA iB : Nat) :
    (SubwayPath.mk [line] [segmentOf stations iB iA]).length
      = (SubwayPath.mk [line] [segmentOf stations iA iB]).length := by
  rw [length_ride, length_ride, segmentOf_reverse stations iA iB, List.length_reverse]

theorem bestRide_swap_le (dictLines : DictLines) (hk : (dictLines.map Prod.fst).Nodup)
    (A B : String) : (bestRide dictLines A B).length ≤ (bestRide dictLines B A).length := by
  rcases bestRide_cases dictLines hk B A with h | ⟨line, st, h1, h2, h3, _, h4⟩
  · rw [h]
    exact foldl_keepShorter_le_init (fun line => rideOn dictLines A B line) _ SubwayPath.invalid
  · have hle := bestRide_le dictLines hk A B line st h1 h3 h2
    rw [rideOn_eq dictLines A B line st h1] at hle
    rw [h4, length_ride_swap]
    exact hle

/-- The best ride has the same length in both directions. -/
theorem bestRide_swap (dictLines : DictLines) (hk : (dictLines.map Prod.fst).Nodup)
    (A B : String) : (bestRide dictLines A B).length = (bestRide dictLines B A).length :=
  le_antisymm (bestRide_swap_le dictLines hk A B) (bestRide_swap_le dictLines hk B A)

/-- Two routes that are each the invalid route or shorter than `INT32_MAX`, and
of the same length, are both valid or both invalid. -/
theorem isInvalid_eq_of_length_eq (p q : SubwayPath)
    (hp : p = SubwayPath.invalid ∨ p.length < INT32_MAX)
    (hq : q = SubwayPath.invalid ∨ q.length < INT32_MAX) (h : p.length = q.length) :
    p.isInvalid = q.isInvalid := by
  have hmax : SubwayPath.invalid.length = INT32_MAX := rfl
  rcases hp with hp | hp <;> rcases hq with hq | hq
  · rw [hp, hq]
  · rw [hp, hmax] at h
    omega
  · rw [hq, hmax] at h
    omega
  · rw [isInvalid_of_length_lt p hp, isInvalid_of_length_lt q hq]

/-- The length of the route of a transfer plan, from the lengths of its two
rides: `INT32_MAX` when a ride is missing, else their sum less one in `int`
arithmetic. -/
theorem length_merge_bestRide (dictLines : DictLines) (hk : (dictLines.map Prod.fst).Nodup)
    (A T C D : String) :
    ((bestRide dictLines A T).merge (bestRide dictLines C D)).length
      = if (bestRide dictLines A T).length = INT32_MAX ∨
          (bestRide dictLines C D).length = INT32_MAX then INT32_MAX
        else wrapInt32 ((bestRide dictLines A T).length + (bestRide dictLines C D).length - 1) := by
  have hmax : SubwayPath.invalid.length = INT32_MAX := rfl
  rcases bestRide_cases dictLines hk A T with a | ⟨la, sa, _, _, _, alt, a⟩
  · rw [a, invalid_merge_eq, hmax]
    simp
  · rcases bestRide_cases dictLines hk C D with b | ⟨lb, sb, _, _, _, blt, b⟩
    · have : (bestRide dictLines A T).merge SubwayPath.invalid = ⟨[], []⟩ := by
        simp [SubwayPath.merge, SubwayPath.invalid, SubwayPath.isInvalid]
      rw [b, this, hmax]
      simp
      rfl
    · have h1 : ¬ ((bestRide dictLines A T).length = INT32_MAX ∨
          (bestRide dictLines C D).length = INT32_MAX) := by
        rintro (h | h) <;> omega
      rw [if_neg h1, a, b, length_two_rides]

/-- The route of a transfer plan and the route of the same plan taken from the
other end have the same length. -/
theorem planRoute_swap (dictLines : DictLines) (hk : (dictLines.map Prod.fst).Nodup)
    (A B : String) (plan plan2 : SubwayNetwork.TransPlan)
    (hT : plan2.stationT = plan.stationT) :
    (planRoute dictLines A B plan).length = (planRoute dictLines B A plan2).length := by
  unfold planRoute
  rw [hT, length_merge_bestRide dictLines hk A plan.stationT plan.stationT B,
    length_merge_bestRide dictLines hk B plan.stationT plan.stationT A,
    bestRide_swap dictLines hk A plan.stationT, bestRide_swap dictLines hk B plan.stationT,
    add_comm ((bestRide dictLines plan.stationT A).length)]
  by_cases h1 : (bestRide dictLines plan.stationT A).length = INT32_MAX <;>
    by_cases h2 : (bestRide dictLines plan.stationT B).length = INT32_MAX <;>
    simp [h1, h2]

theorem plansOf_swap (dictLines : DictLines) (hk : (dictLines.map Prod.fst).Nodup)
    (A B : String) (plan : SubwayNetwork.TransPlan) (h : plan ∈ plansOf dictLines A B) :
    (⟨plan.lineB, plan.stationT, plan.lineA⟩ : SubwayNetwork.TransPlan)
      ∈ plansOf dictLines B A := by
  obtain ⟨h1, h2, h3, h4⟩ := (mem_plansOf dictLines A B plan).mp h
  obtain ⟨stA, stB, e1, e2, e3, e4⟩ := (mem_transOf dictLines hk _ _ _).mp h4
  exact (mem_plansOf dictLines B A _).mpr
    ⟨h2, h1, fun e => h3 e.symm, (mem_transOf dictLines hk _ _ _).mpr ⟨stB, stA, e3, e4, e1, e2⟩⟩

theorem bestChange_swap_le (dictLines : DictLines) (hk : (dictLines.map Prod.fst).Nodup)
    (A B : String) : (bestChange dictLines A B).length ≤ (bestChange dictLines B A).length := by
  rcases bestChange_mem dictLines B A with h | ⟨plan, hmem, h⟩
  · rw [h]
    exact foldl_keepShorter_le_init (fun plan => planRoute dictLines A B plan) _
      SubwayPath.invalid
  · rw [h, planRoute_swap dictLines hk B A plan ⟨plan.lineB, plan.stationT, plan.lineA⟩ rfl]
    exact bestChange_le dictLines A B _ (plansOf_swap dictLines hk B A plan hmem)

/-- The best route with one transfer has the same length in both directions. -/
theorem bestChange_swap (dictLines : DictLines) (hk : (dictLines.map Prod.fst).Nodup)
    (A B : String) : (bestChange dictLines A B).length = (bestChange dictLines B A).length :=
  le_antisymm (bestChange_swap_le dictLines hk A B) (bestChange_swap_le dictLines hk B A)

theorem bestSimple_length (dictLines : DictLines) (A B : String) :
    (bestSimple dictLines A B).length
      = min (bestRide dictLines A B).length (bestChange dictLines A B).length := by
  rw [bestSimple_eq]
  split
  · rw [min_eq_right (by omega)]
  · rw [min_eq_left (by omega)]

/-- The best simple route has the same length in both directions. -/
theorem bestSimple_swap (dictLines : DictLines) (hk : (dictLines.map Prod.fst).Nodup)
    (A B : String) : (bestSimple dictLines A B).length = (bestSimple dictLines B A).length := by
  rw [bestSimple_length, bestSimple_length, bestRide_swap dictLines hk A B,
    bestChange_swap dictLines hk A B]

theorem bestSimple_lt (dictLines : DictLines) (A B : String) :
    bestSimple dictLines A B = SubwayPath.invalid ∨
    (bestSimple dictLines A B).length < INT32_MAX := by
  rw [bestSimple_eq]
  split
  · exact bestChange_lt dictLines A B
  · exact bestRide_lt dictLines A B

/-- C21: in a constructed network, for stations `A` and `B` of it, each of
`getBestOneLinePath`, `getBestTwoLinesPath` and `getBestSimplePath` returns in
both directions, and the route for `(A, B)` and the route for `(B, A)` have the
same `length()`; one is valid exactly when the other is. -/
theorem simple_search_symmetric (dictLines : DictLines)
    (hk : (dictLines.map Prod.fst).Nodup) (A B : String)
    (hA : (SubwayNetwork.new dictLines).hasStation A = true)
    (hB : (SubwayNetwork.new dictLines).hasStation B = true) :
    (∃ p q : SubwayPath,
      (SubwayNetwork.new dictLines).getBestOneLinePath A B = .ok p ∧
      (SubwayNetwork.new dictLines).getBestOneLinePath B A = .ok q ∧
      p.length = q.length ∧ p.isInvalid = q.isInvalid) ∧
    (∃ p q : SubwayPath,
      (SubwayNetwork.new dictLines).getBestTwoLinesPath A B = .ok p ∧
      (SubwayNetwork.new dictLines).getBestTwoLinesPath B A = .ok q ∧
      p.length = q.length ∧ p.isInvalid = q.isInvalid) ∧
    (∃ p q : SubwayPath,
      (SubwayNetwork.new dictLines).getBestSimplePath A B = .ok p ∧
      (SubwayNetwork.new dictLines).getBestSimplePath B A = .ok q ∧
      p.length = q.length ∧ p.isInvalid = q.isInvalid) :=
  ⟨⟨_, _, getBestOneLinePath_eq dictLines hk A B hA hB,
      getBestOneLinePath_eq dictLines hk B A hB hA, bestRide_swap dictLines hk A B,
      isInvalid_eq_of_length_eq _ _ (bestRide_lt dictLines A B) (bestRide_lt dictLines B A)
        (bestRide_swap dictLines hk A B)⟩,
    ⟨_, _, getBestTwoLinesPath_ok dictLines hk A B hA hB,
      getBestTwoLinesPath_ok dictLines hk B A hB hA, bestChange_swap dictLines hk A B,
      isInvalid_eq_of_length_eq _ _ (bestChange_lt dictLines A B) (bestChange_lt dictLines B A)
        (bestChange_swap dictLines hk A B)⟩,
    ⟨_, _, getBestSimplePath_ok dictLines hk A B hA hB,
      getBestSimplePath_ok dictLines hk B A hB hA, bestSimple_swap dictLines hk A B,
      isInvalid_eq_of_length_eq _ _ (bestSimple_lt dictLines A B) (bestSimple_lt dictLines B A)
        (bestSimple_swap dictLines hk A B)⟩⟩

theorem simple_search_symmetric_witness :
    ((SubwayNetwork.new crossingLines).getBestSimplePath "A" "E"
        = .ok ⟨["L1", "L2"], [["A", "B", "C"], ["C", "D", "E"]]⟩ ∧
      (SubwayNetwork.new crossingLines).getBestSimplePath "E" "A"
        = .ok ⟨["L2", "L1"], [["E", "D", "C"], ["C", "B", "A"]]⟩) ∧
    (∃ p q : SubwayPath,
      (SubwayNetwork.new crossingLines).getBestOneLinePath "A" "E" = .ok p ∧
      (SubwayNetwork.new crossingLines).getBestOneLinePath "E" "A" = .ok q ∧
      p.length = q.length ∧ p.isInvalid = q.isInvalid) ∧
    (∃ p q : SubwayPath,
      (SubwayNetwork.new crossingLines).getBestTwoLinesPath "A" "E" = .ok p ∧
      (SubwayNetwork.new crossingLines).getBestTwoLinesPath "E" "A" = .ok q ∧
      p.length = q.length ∧ p.isInvalid = q.isInvalid) ∧
    (∃ p q : SubwayPath,
      (SubwayNetwork.new crossingLines).getBestSimplePath "A" "E" = .ok p ∧
      (SubwayNetwork.new crossingLines).getBestSimplePath "E" "A" = .ok q ∧
      p.length = q.length ∧ p.isInvalid = q.isInvalid) :=
  ⟨⟨by decide, by decide⟩,
    simple_search_symmetric crossingLines (by decide) "A" "E" (by decide) (by decide)⟩

end Subway
